import Mathlib

set_option linter.unusedVariables false

/-! Verification of the bounded-buffer asynchronous k-way log merge in
`solution/async-sorted-merge.js`, together with the synchronous baseline
variant contained in the same file.

The asynchronous engine is embedded as a small-step transition system.  Each
step is one atomic piece of single-threaded JavaScript execution: the
continuation of one resolved `popAsync()` promise, or one iteration of the
driver loop `processNextLogEntry`.  A run is a fold of `step` over an
explicit schedule (a list of events), so every interleaving of fetch
completions and driver progress is covered by quantifying over schedules.
Steps whose event is not enabled leave the state unchanged. -/

/-- Log entry: a record with a comparable timestamp `date` and an opaque
payload `msg`. -/
structure LogEntry where
  date : Nat
  msg : Nat
deriving DecidableEq, Repr

/-- Placeholder entry used only to read an `Option LogEntry` that invariants
prove is never `none`. -/
def dummyE : LogEntry := ⟨0, 0⟩

/-- Model of one log source: the ascending list of entries it will deliver
and, for the error-handling analysis, whether the fetch issued after the last
entry rejects instead of resolving with the falsy exhaustion signal. -/
structure LogSource where
  entries : List LogEntry
  fails : Bool
deriving DecidableEq, Repr

instance : Inhabited LogSource := ⟨⟨[], false⟩⟩

/-- Result of one `popAsync()` call. -/
inductive FetchRes where
  | ok (e : LogEntry)
  | eof
  | err
deriving DecidableEq, Repr

/-- Result of the `k`-th (0-based) `popAsync()` call on a source: the `k`-th
entry while entries remain, then the exhaustion signal (or a rejection when
the source fails). -/
def popResult (src : LogSource) (k : Nat) : FetchRes :=
  if h : k < src.entries.length then .ok src.entries[k]
  else if src.fails then .err else .eof

/-- State of a context's `nextEntryPromise` field: `idle` is `null`,
`pending` is an in-flight fetch, `rejectedP` is a settled-rejected promise
(on rejection the `then` continuation inside `bufferLogs` never runs, so the
field is never reset to `null`). -/
inductive FStat where
  | idle
  | pending
  | rejectedP
deriving DecidableEq, Repr

/-- The per-source context object built in the initial fetch loop of the
asynchronous merge: `entry` is the current head, `bufferedEntries` the
read-ahead buffer, `drained` the exhaustion flag, `nextEntryPromise` the
status of the background fetch. -/
structure Ctx where
  entry : Option LogEntry
  bufferedEntries : List LogEntry
  drained : Bool
  nextEntryPromise : FStat
deriving DecidableEq, Repr

/-- Bookkeeping for one source: whether its initial fetch is still
outstanding, how many `popAsync` results it has delivered so far, and its
context (absent until the initial fetch returns an entry). -/
structure SrcSt where
  initPending : Bool
  recvd : Nat
  ctx : Option Ctx
deriving DecidableEq, Repr

/-- Control state of the single-threaded merge driver
(`processNextLogEntry`). -/
inductive Driver where
  | start               -- initial fetches outstanding, Promise.all unresolved
  | running             -- a processNextLogEntry iteration is due
  | waiting2 (i : Nat)  -- CASE 2: awaiting source i's nextEntryPromise
  | ready2 (i : Nat)    -- that promise resolved; the CASE 2 continuation is queued
  | waiting4 (i : Nat)  -- CASE 4: awaiting a direct popAsync() for source i
  | doneSt              -- printer.done() has been called
  | rejectedSt          -- the promise returned by the merge has rejected
deriving DecidableEq, Repr

/-- Global state of one asynchronous merge run. -/
structure MState where
  sstates : Nat → SrcSt
  heap : List Nat
  numLogEntriesBuffered : Int
  driver : Driver
  printed : List LogEntry
  doneCount : Nat

/-- Inputs of a run: the log sources and the configured buffer ceiling. -/
structure Config where
  srcs : List LogSource
  maxBuf : Nat
deriving DecidableEq, Repr

/-- The value of the ceiling in the source:
`const MAX_LOG_ENTRY_BUFFER_SIZE = 100000`.  `Config.maxBuf` generalises it;
claim theorems instantiate it with this constant. -/
def MAX_LOG_ENTRY_BUFFER_SIZE : Nat := 100000

def nOf (cfg : Config) : Nat := cfg.srcs.length

def srcAt (cfg : Config) (i : Nat) : LogSource := cfg.srcs.getD i default

def entriesAt (cfg : Config) (i : Nat) : List LogEntry := (srcAt cfg i).entries

def entAt (cfg : Config) (i k : Nat) : LogEntry := (entriesAt cfg i).getD k dummyE

/-- Model of `bufferLogs`: a no-op when the global counter sits at the
ceiling, the source is drained, or a fetch is already in flight (a truthy
`nextEntryPromise`); otherwise it increments the counter and issues a fetch. -/
def bufferLogs (maxBuf : Nat) (counter : Int) (c : Ctx) : Int × Ctx :=
  if counter = (maxBuf : Int) then (counter, c)
  else if c.drained then (counter, c)
  else if c.nextEntryPromise ≠ .idle then (counter, c)
  else (counter + 1, { c with nextEntryPromise := .pending })

/-- Heap comparison key, `a.entry.date`. -/
def hKey (c : Ctx) : Nat := (c.entry.getD dummyE).date

def keyAt (s : MState) (k : Nat) : Nat :=
  match (s.sstates k).ctx with
  | some c => hKey c
  | none => 0

/-- Model of `getNextEntry`: decrement the global counter, shift the front of
the read-ahead buffer into `entry`, restart buffering, push the context back
onto the heap, and continue the driver loop. -/
def getNextEntry (cfg : Config) (s : MState) (i : Nat) (st : SrcSt) (c : Ctx) : MState :=
  { s with
    sstates := Function.update s.sstates i
      { st with
        ctx := some (bufferLogs cfg.maxBuf (s.numLogEntriesBuffered - 1)
          { c with
            entry := c.bufferedEntries.head?,
            bufferedEntries := c.bufferedEntries.tail }).2 },
    numLogEntriesBuffered := (bufferLogs cfg.maxBuf (s.numLogEntriesBuffered - 1)
      { c with
        entry := c.bufferedEntries.head?,
        bufferedEntries := c.bufferedEntries.tail }).1,
    heap := s.heap ++ [i],
    driver := .running }

/-- Scheduler events: resolution of the initial fetch of source `i`; the
`Promise.all` continuation starting the driver; resolution of the background
`bufferLogs` fetch of source `i`; one driver iteration popping the `j`-th
heap slot; the queued CASE 2 continuation running; resolution of the direct
CASE 4 fetch. -/
inductive Ev where
  | initResolve (i : Nat)
  | driverStart
  | bgResolve (i : Nat)
  | driverStep (j : Nat)
  | wake2 (i : Nat)
  | c4Resolve (i : Nat)
deriving DecidableEq, Repr

/-- Continuation of one initial fetch (lines 48-61 of the source): on an
entry, build the context, push it on the heap and kick off buffering; on the
exhaustion signal do nothing; on rejection the `Promise.all` chain rejects. -/
def stepInit (cfg : Config) (s : MState) (i : Nat) : MState :=
  if i < nOf cfg ∧ (s.sstates i).initPending then
    match popResult (srcAt cfg i) (s.sstates i).recvd with
    | .ok e =>
        { s with
          sstates := Function.update s.sstates i
            { s.sstates i with
              initPending := false,
              recvd := (s.sstates i).recvd + 1,
              ctx := some (bufferLogs cfg.maxBuf s.numLogEntriesBuffered
                ⟨some e, [], false, .idle⟩).2 },
          heap := s.heap ++ [i],
          numLogEntriesBuffered := (bufferLogs cfg.maxBuf s.numLogEntriesBuffered
            ⟨some e, [], false, .idle⟩).1 }
    | .eof =>
        { s with
          sstates := Function.update s.sstates i
            { s.sstates i with
              initPending := false,
              recvd := (s.sstates i).recvd + 1 } }
    | .err =>
        { s with
          sstates := Function.update s.sstates i
            { s.sstates i with
              initPending := false,
              recvd := (s.sstates i).recvd + 1 },
          driver := .rejectedSt }
  else s

/-- The `Promise.all(promises).then(processNextLogEntry)` continuation: the
driver starts once every initial fetch has resolved (and none rejected). -/
def stepStart (cfg : Config) (s : MState) : MState :=
  if s.driver = .start ∧ ∀ i ∈ List.range (nOf cfg), ¬(s.sstates i).initPending then
    { s with driver := .running }
  else s

/-- When the promise the CASE 2 driver is awaiting settles successfully, its
continuation becomes runnable. -/
def wakeIf (i : Nat) (s : MState) : MState :=
  if s.driver = .waiting2 i then { s with driver := .ready2 i } else s

/-- When the promise the CASE 2 driver is awaiting rejects, the rejection
propagates through the driver chain to the merge operation's promise. -/
def rejectIf (i : Nat) (s : MState) : MState :=
  if s.driver = .waiting2 i then { s with driver := .rejectedSt } else s

/-- Continuation of one background `bufferLogs` fetch (lines 34-42): append
the entry to the buffer or mark the source drained, clear the promise field,
and call `bufferLogs` again; a rejection leaves the field holding a rejected
promise.  If the driver is awaiting this promise (CASE 2), its continuation
becomes runnable (or the rejection propagates). -/
def stepBg (cfg : Config) (s : MState) (i : Nat) : MState :=
  match (s.sstates i).ctx with
  | some c =>
    if c.nextEntryPromise = .pending then
      match popResult (srcAt cfg i) (s.sstates i).recvd with
      | .ok e =>
          wakeIf i { s with
            sstates := Function.update s.sstates i
              { s.sstates i with
                recvd := (s.sstates i).recvd + 1,
                ctx := some (bufferLogs cfg.maxBuf s.numLogEntriesBuffered
                  { c with
                    bufferedEntries := c.bufferedEntries ++ [e],
                    nextEntryPromise := .idle }).2 },
            numLogEntriesBuffered := (bufferLogs cfg.maxBuf s.numLogEntriesBuffered
              { c with
                bufferedEntries := c.bufferedEntries ++ [e],
                nextEntryPromise := .idle }).1 }
      | .eof =>
          wakeIf i { s with
            sstates := Function.update s.sstates i
              { s.sstates i with
                recvd := (s.sstates i).recvd + 1,
                ctx := some (bufferLogs cfg.maxBuf s.numLogEntriesBuffered
                  { c with
                    drained := true,
                    nextEntryPromise := .idle }).2 },
            numLogEntriesBuffered := (bufferLogs cfg.maxBuf s.numLogEntriesBuffered
              { c with
                drained := true,
                nextEntryPromise := .idle }).1 }
      | .err =>
          rejectIf i { s with
            sstates := Function.update s.sstates i
              { s.sstates i with
                recvd := (s.sstates i).recvd + 1,
                ctx := some { c with nextEntryPromise := .rejectedP } } }
    else s
  | none => s

/-- One iteration of `processNextLogEntry` (lines 65-112): on an empty heap,
call `printer.done()`; otherwise pop a minimal context (`j` resolves the
unspecified tie-break), print its head and refill via CASE 1-4. -/
def stepDriver (cfg : Config) (s : MState) (j : Nat) : MState :=
  if s.driver = .running then
    match s.heap with
    | [] => { s with doneCount := s.doneCount + 1, driver := .doneSt }
    | _ :: _ =>
      match s.heap[j]? with
      | some i =>
        if ∀ k ∈ s.heap, keyAt s i ≤ keyAt s k then
          match (s.sstates i).ctx with
          | some c =>
            if c.bufferedEntries ≠ [] then
              getNextEntry cfg
                { s with heap := s.heap.eraseIdx j,
                         printed := s.printed ++ [c.entry.getD dummyE] } i (s.sstates i) c
            else if c.nextEntryPromise = .pending then
              { s with heap := s.heap.eraseIdx j,
                       printed := s.printed ++ [c.entry.getD dummyE],
                       driver := .waiting2 i }
            else if c.nextEntryPromise = .rejectedP then
              { s with heap := s.heap.eraseIdx j,
                       printed := s.printed ++ [c.entry.getD dummyE],
                       driver := .rejectedSt }
            else if c.drained then
              { s with heap := s.heap.eraseIdx j,
                       printed := s.printed ++ [c.entry.getD dummyE] }
            else
              { s with heap := s.heap.eraseIdx j,
                       printed := s.printed ++ [c.entry.getD dummyE],
                       driver := .waiting4 i }
          | none => s
        else s
      | none => s
  else s

/-- The CASE 2 continuation (lines 89-95), runnable once the awaited promise
has resolved: if the buffer is still empty and the source is drained, drop
the context and continue; otherwise promote the next buffered entry. -/
def stepWake (cfg : Config) (s : MState) (i : Nat) : MState :=
  if s.driver = .ready2 i then
    match (s.sstates i).ctx with
    | some c =>
      if c.bufferedEntries = [] ∧ c.drained then
        { s with driver := .running }
      else
        getNextEntry cfg s i (s.sstates i) c
    | none => s
  else s

/-- Continuation of the direct CASE 4 fetch (lines 102-111): on an entry,
set it as the head, restart buffering and re-push the context; on the
exhaustion signal just continue (note: `drained` is not set here); on
rejection the chain rejects. -/
def stepC4 (cfg : Config) (s : MState) (i : Nat) : MState :=
  if s.driver = .waiting4 i then
    match (s.sstates i).ctx with
    | some c =>
      match popResult (srcAt cfg i) (s.sstates i).recvd with
      | .ok e =>
          { s with
            sstates := Function.update s.sstates i
              { s.sstates i with
                recvd := (s.sstates i).recvd + 1,
                ctx := some (bufferLogs cfg.maxBuf s.numLogEntriesBuffered
                  { c with entry := some e }).2 },
            numLogEntriesBuffered := (bufferLogs cfg.maxBuf s.numLogEntriesBuffered
              { c with entry := some e }).1,
            heap := s.heap ++ [i],
            driver := .running }
      | .eof =>
          { s with
            sstates := Function.update s.sstates i
              { s.sstates i with recvd := (s.sstates i).recvd + 1 },
            driver := .running }
      | .err =>
          { s with
            sstates := Function.update s.sstates i
              { s.sstates i with recvd := (s.sstates i).recvd + 1 },
            driver := .rejectedSt }
    | none => s
  else s

def step (cfg : Config) (s : MState) : Ev → MState
  | .initResolve i => stepInit cfg s i
  | .driverStart => stepStart cfg s
  | .bgResolve i => stepBg cfg s i
  | .driverStep j => stepDriver cfg s j
  | .wake2 i => stepWake cfg s i
  | .c4Resolve i => stepC4 cfg s i

def initSrcSt : SrcSt := { initPending := true, recvd := 0, ctx := none }

/-- State at merge start: every source's initial `popAsync()` has been
issued, the heap is empty, the counter is zero. -/
def initState (cfg : Config) : MState :=
  { sstates := fun _ => initSrcSt, heap := [], numLogEntriesBuffered := 0,
    driver := .start, printed := [], doneCount := 0 }

/-- The state after executing a schedule of events from the initial state. -/
def runSt (cfg : Config) (evs : List Ev) : MState :=
  evs.foldl (step cfg) (initState cfg)

/-- Whether an event is enabled in a state (its step performs work). -/
def Enabled (cfg : Config) (s : MState) : Ev → Prop
  | .initResolve i => i < nOf cfg ∧ (s.sstates i).initPending
  | .driverStart => s.driver = .start ∧ ∀ i ∈ List.range (nOf cfg), ¬(s.sstates i).initPending
  | .bgResolve i => ∃ c, (s.sstates i).ctx = some c ∧ c.nextEntryPromise = .pending
  | .driverStep j => s.driver = .running ∧ (s.heap = [] →  j = 0) ∧
      (∀ i ∈ s.heap[j]?, ∀ k ∈ s.heap, keyAt s i ≤ keyAt s k) ∧
      (s.heap ≠ [] → j < s.heap.length)
  | .wake2 i => s.driver = .ready2 i
  | .c4Resolve i => s.driver = .waiting4 i

/-- Decidable check that no event is enabled any more, i.e. the JavaScript
event loop has gone quiescent: no fetch is outstanding and the driver can
make no move.  `terminal_iff` relates it to `Enabled`. -/
def terminalB (cfg : Config) (s : MState) : Bool :=
  decide (∀ i ∈ List.range (nOf cfg),
      ¬(s.sstates i).initPending ∧
      (∀ c, (s.sstates i).ctx = some c → c.nextEntryPromise ≠ .pending)) &&
  (match s.driver with
   | .start => false
   | .running => false
   | .ready2 _ => false
   | .waiting4 _ => false
   | .waiting2 _ => true
   | .doneSt => true
   | .rejectedSt => true)

/-- Per-source derived measures used by the invariants. -/
def bufLenAt (s : MState) (i : Nat) : Nat :=
  match (s.sstates i).ctx with
  | some c => c.bufferedEntries.length
  | none => 0

def holdAt (s : MState) (i : Nat) : Nat := if i ∈ s.heap then 1 else 0

/-- Number of entries of source `i` delivered by resolved fetches. -/
def dlvAt (cfg : Config) (s : MState) (i : Nat) : Nat :=
  min (s.sstates i).recvd (entriesAt cfg i).length

/-- Number of entries of source `i` already printed. -/
def posAt (cfg : Config) (s : MState) (i : Nat) : Nat :=
  dlvAt cfg s i - bufLenAt s i - holdAt s i

/-- Total number of entries sitting in read-ahead buffers. -/
def totalBuffered (cfg : Config) (s : MState) : Nat :=
  ∑ i in Finset.range (nOf cfg), bufLenAt s i

/-- Contribution of one source to `numLogEntriesBuffered`: its buffered
entries, plus one for a fetch in flight or settled-rejected, plus one for the
exhaustion discovery (that increment is never undone). -/
def contrib (st : SrcSt) : Int :=
  match st.ctx with
  | none => 0
  | some c => (c.bufferedEntries.length : Int)
      + (if c.nextEntryPromise = .idle then 0 else 1)
      + (if c.drained then 1 else 0)

/-- The source index the suspended driver is holding, if any. -/
def holdIdx : Driver → Option Nat
  | .waiting2 i => some i
  | .ready2 i => some i
  | .waiting4 i => some i
  | _ => none

def Holds (d : Driver) (i : Nat) : Prop := holdIdx d = some i

/-- Sources that are each internally ascending-sorted by timestamp. -/
def SortedCfg (cfg : Config) : Prop :=
  ∀ i < nOf cfg, (entriesAt cfg i).Pairwise (fun a b => a.date ≤ b.date)

/-- No source's fetch ever rejects. -/
def NoFail (cfg : Config) : Prop := ∀ i < nOf cfg, (srcAt cfg i).fails = false

instance (cfg : Config) : Decidable (SortedCfg cfg) := by
  unfold SortedCfg; infer_instance

instance (cfg : Config) : Decidable (NoFail cfg) := by
  unfold NoFail; infer_instance

/-- Number of `popAsync` calls outstanding for source `i`: the initial
fetch, the background `bufferLogs` fetch, and the direct CASE 4 fetch. -/
def outstanding (s : MState) (i : Nat) : Nat :=
  (if (s.sstates i).initPending then 1 else 0) +
  (match (s.sstates i).ctx with
   | some c => if c.nextEntryPromise = .pending then 1 else 0
   | none => 0) +
  (if s.driver = .waiting4 i then 1 else 0)

/-- Per-context contribution to the global counter. -/
def ctxContrib (c : Ctx) : Int :=
  (c.bufferedEntries.length : Int)
    + (if c.nextEntryPromise = .idle then 0 else 1)
    + (if c.drained then 1 else 0)

def lenAt (cfg : Config) (i : Nat) : Nat := (entriesAt cfg i).length

/-- The inductive invariant of the asynchronous engine (independent of
source sortedness). -/
structure AInv (cfg : Config) (s : MState) : Prop where
  oob : ∀ i, ¬ i < nOf cfg → s.sstates i = initSrcSt
  heapLt : ∀ i ∈ s.heap, i < nOf cfg
  heapCtx : ∀ i ∈ s.heap, (s.sstates i).ctx.isSome
  heapNodup : s.heap.Nodup
  holdsOk : ∀ i, Holds s.driver i → i < nOf cfg ∧ i ∉ s.heap ∧ (s.sstates i).ctx.isSome
  headsSome : ∀ i c, (s.sstates i).ctx = some c → c.entry.isSome
  fetchNotDrained : ∀ i c, (s.sstates i).ctx = some c →
      c.nextEntryPromise ≠ .idle → c.drained = false
  initCtx : ∀ i, (s.sstates i).initPending →
      (s.sstates i).ctx = none ∧ (s.sstates i).recvd = 0
  initResolved : s.driver ≠ .start → s.driver ≠ .rejectedSt →
      ∀ i, i < nOf cfg → ¬(s.sstates i).initPending
  waiting2Pending : ∀ i, s.driver = .waiting2 i →
      ∃ c, (s.sstates i).ctx = some c ∧ c.nextEntryPromise = .pending ∧
        c.bufferedEntries = []
  ready2Inv : ∀ i, s.driver = .ready2 i →
      ∃ c, (s.sstates i).ctx = some c ∧ (c.bufferedEntries ≠ [] ∨ c.drained = true)
  waiting4Inv : ∀ i, s.driver = .waiting4 i →
      ∃ c, (s.sstates i).ctx = some c ∧ c.nextEntryPromise = .idle ∧
        c.bufferedEntries = [] ∧ c.drained = false
  counterEq : s.numLogEntriesBuffered = ∑ k in Finset.range (nOf cfg), contrib (s.sstates k)
  counterLe : s.numLogEntriesBuffered ≤ (cfg.maxBuf : Int)
  recvdLe : ∀ i, (s.sstates i).recvd ≤ lenAt cfg i + 1
  drainedRecvd : ∀ i c, (s.sstates i).ctx = some c → c.drained = true →
      lenAt cfg i < (s.sstates i).recvd ∧ (srcAt cfg i).fails = false
  discarded : ∀ i c, (s.sstates i).ctx = some c → i ∉ s.heap → ¬Holds s.driver i →
      c.bufferedEntries = [] ∧ (c.drained = true ∨
        (lenAt cfg i < (s.sstates i).recvd ∧ (srcAt cfg i).fails = false) ∨
        s.driver = .rejectedSt)
  ctxNone : ∀ i, i < nOf cfg → (s.sstates i).ctx = none → ¬(s.sstates i).initPending →
      s.driver ≠ .rejectedSt →
      lenAt cfg i = 0 ∧ (srcAt cfg i).fails = false ∧ (s.sstates i).recvd = 1
  doneCnt : s.doneCount = if s.driver = .doneSt then 1 else 0
  rejFails : s.driver = .rejectedSt → ∃ i, i < nOf cfg ∧ (srcAt cfg i).fails = true
  doneHeap : s.driver = .doneSt → s.heap = []
  startPrinted : s.driver = .start → s.printed = []
  cntLe : ∀ i, bufLenAt s i + holdAt s i ≤ dlvAt cfg s i
  slice : ∀ i c, (s.sstates i).ctx = some c →
      (entriesAt cfg i).take (dlvAt cfg s i)
        = (entriesAt cfg i).take (posAt cfg s i)
          ++ (if i ∈ s.heap then [c.entry.getD dummyE] else [])
          ++ c.bufferedEntries
  printedAcc : (s.printed : Multiset LogEntry)
      = ∑ k in Finset.range (nOf cfg),
          ((entriesAt cfg k).take (posAt cfg s k) : Multiset LogEntry)
  pendingInHeap : ∀ i c, (s.sstates i).ctx = some c → c.nextEntryPromise = .pending →
      i ∈ s.heap ∨ Holds s.driver i
  fullCtx : ∀ i c, (s.sstates i).ctx = some c → lenAt cfg i + 1 ≤ (s.sstates i).recvd →
      c.drained = true ∨ c.nextEntryPromise = .rejectedP ∨
        (c.nextEntryPromise = .idle ∧ i ∉ s.heap ∧ ¬Holds s.driver i)
  rejPFails : ∀ i c, (s.sstates i).ctx = some c → c.nextEntryPromise = .rejectedP →
      (srcAt cfg i).fails = true

/-- The ordering invariant, meaningful when every source is internally
ascending-sorted: the emitted list is sorted, every emitted date is below
every not-yet-printed position of every source, and nothing is printed while
an initial fetch is still pending. -/
structure OInv (cfg : Config) (s : MState) : Prop where
  printedSorted : s.printed.Pairwise (fun a b => a.date ≤ b.date)
  printedLe : ∀ e ∈ s.printed, ∀ k, k < nOf cfg → ∀ m, posAt cfg s k ≤ m →
      m < lenAt cfg k → e.date ≤ (entAt cfg k m).date
  initPrinted : ∀ k, k < nOf cfg → (s.sstates k).initPending → s.printed = []

/-! The synchronous baseline merge (lines 120-151 of the source, after the
separator): pop the first entry of each source, then repeatedly pop the
heap-minimal entry, print it and pull the next entry of the same source.
Its heap always holds, for each non-exhausted source, exactly the entry at
the source's cursor, so the loop is the recursion below on cursor functions;
the heap's unspecified order among equal keys is resolved to the smallest
index.  After the loop it calls `printer.done()` once. -/

def syncCands (cfg : Config) (cur : Nat → Nat) : List Nat :=
  (List.range (nOf cfg)).filter (fun i => decide (cur i < lenAt cfg i))

/-- Index with the minimal current date among the candidates (the
synchronous heap's pop), smallest index on ties. -/
def pickMin (cfg : Config) (cur : Nat → Nat) : List Nat → Option Nat
  | [] => none
  | i :: rest =>
    match pickMin cfg cur rest with
    | none => some i
    | some b =>
        if (entAt cfg i (cur i)).date ≤ (entAt cfg b (cur b)).date then some i
        else some b

/-- Entries not yet printed by the synchronous loop. -/
def remaining (cfg : Config) (cur : Nat → Nat) : Nat :=
  ∑ k in Finset.range (nOf cfg), (lenAt cfg k - cur k)

/-- The `while (!heap.empty())` loop of the synchronous merge. -/
def syncGo (cfg : Config) (cur : Nat → Nat) : List LogEntry :=
  match hm : pickMin cfg cur (syncCands cfg cur) with
  | none => []
  | some i => entAt cfg i (cur i) :: syncGo cfg (Function.update cur i (cur i + 1))
termination_by remaining cfg cur
decreasing_by
  have hmeml : ∀ (l : List Nat) (b : Nat), pickMin cfg cur l = some b → b ∈ l := by
    intro l
    induction l with
    | nil =>
      intro b hb
      exact Option.noConfusion hb
    | cons x xs ih =>
      intro b hb
      unfold pickMin at hb
      revert hb
      split
      · intro hb
        injection hb with hb
        rw [← hb]
        exact List.mem_cons_self x xs
      · rename_i b2 hb2
        split
        · intro hb
          injection hb with hb
          rw [← hb]
          exact List.mem_cons_self x xs
        · intro hb
          injection hb with hb
          rw [← hb]
          exact List.mem_cons_of_mem x (ih b2 hb2)
  have hmem : i ∈ syncCands cfg cur := hmeml _ i hm
  unfold syncCands at hmem
  rw [List.mem_filter] at hmem
  obtain ⟨hrange, hlt⟩ := hmem
  have hin : i < nOf cfg := List.mem_range.mp hrange
  have hlt2 : cur i < lenAt cfg i := of_decide_eq_true hlt
  unfold remaining
  have hif : i ∈ Finset.range (nOf cfg) := Finset.mem_range.mpr hin
  rw [← Finset.sum_erase_add _ _ hif, ← Finset.sum_erase_add _ _ hif]
  have h1 : ∀ k ∈ (Finset.range (nOf cfg)).erase i,
      lenAt cfg k - (Function.update cur i (cur i + 1)) k = lenAt cfg k - cur k := by
    intro k hk
    rw [Function.update_noteq (Finset.ne_of_mem_erase hk)]
  rw [Finset.sum_congr rfl h1, Function.update_same]
  have h2 : lenAt cfg i - (cur i + 1) < lenAt cfg i - cur i := by omega
  omega

/-- Output of the synchronous baseline merge. -/
def syncPrinted (cfg : Config) : List LogEntry := syncGo cfg (fun _ => 0)

/-- The synchronous merge's observable behaviour: the printed list, and the
number of `printer.done()` calls (one, after the loop). -/
def syncMerge (cfg : Config) : List LogEntry × Nat := (syncPrinted cfg, 1)

/-- One per-source context's head entry held in memory (not counted by the
global buffer counter). -/
def headCount (st : SrcSt) : Nat :=
  match st.ctx with
  | some c => if c.entry.isSome then 1 else 0
  | none => 0

/-- Total entries held in memory: read-ahead buffers plus per-context head
entries. -/
def memTotal (cfg : Config) (s : MState) : Nat :=
  ∑ k in Finset.range (nOf cfg), (bufLenAt s k + headCount (s.sstates k))

/-- Whether source `i`'s background fetch promise has settled rejected (the
"failure point" of a run: the merge engine has not necessarily observed it
yet). -/
def rejectedAt (s : MState) (i : Nat) : Bool :=
  match (s.sstates i).ctx with
  | some c => decide (c.nextEntryPromise = FStat.rejectedP)
  | none => false

/-! Concrete inputs on which the claim theorems are evaluated. -/

/-- Two well-behaved ascending sources. -/
def wcfgA : Config :=
  { srcs := [{ entries := [⟨1, 10⟩, ⟨3, 11⟩], fails := false },
             { entries := [⟨2, 20⟩], fails := false }],
    maxBuf := 4 }

/-- A schedule that runs `wcfgA` to quiescence. -/
def wevsA : List Ev :=
  [.initResolve 0, .initResolve 1, .driverStart, .bgResolve 0, .bgResolve 1,
   .bgResolve 0, .driverStep 0, .driverStep 0, .driverStep 0, .driverStep 0]

/-- Source 0 rejects its second fetch; source 1 is well-behaved. -/
def wcfgF : Config :=
  { srcs := [{ entries := [⟨1, 10⟩], fails := true },
             { entries := [⟨2, 20⟩, ⟨4, 21⟩], fails := false }],
    maxBuf := 4 }

/-- A prefix after which source 0's fetch promise has settled rejected while
the driver is still running. -/
def wpEvsF : List Ev :=
  [.initResolve 0, .initResolve 1, .driverStart, .bgResolve 0]

/-- Continuing `wpEvsF`, the driver prints one more entry and then observes
the rejection. -/
def wevsF : List Ev := wpEvsF ++ [Ev.driverStep 0]

/-- One source, used for the counter/buffer discrepancy. -/
def wcfgC : Config :=
  { srcs := [{ entries := [⟨1, 10⟩, ⟨2, 11⟩], fails := false }], maxBuf := 4 }

/-- A configuration carrying the source's actual ceiling. -/
def wcfgM : Config :=
  { srcs := [{ entries := [⟨1, 10⟩], fails := false }],
    maxBuf := MAX_LOG_ENTRY_BUFFER_SIZE }

/-! Basic facts about fetch results and `bufferLogs`. -/

theorem popResult_ok_iff {src : LogSource} {k : Nat} {e : LogEntry} :
    popResult src k = .ok e ↔ ∃ h : k < src.entries.length, e = src.entries[k] := by
  unfold popResult
  split
  · simp_all [eq_comm]
  · split <;> simp_all

theorem popResult_eof_iff {src : LogSource} {k : Nat} :
    popResult src k = .eof ↔ src.entries.length ≤ k ∧ src.fails = false := by
  unfold popResult
  split
  · rename_i h
    simp only [reduceCtorEq, false_iff, not_and]
    intro hc
    omega
  · rename_i h
    split <;> simp_all <;> omega

theorem popResult_err_iff {src : LogSource} {k : Nat} :
    popResult src k = .err ↔ src.entries.length ≤ k ∧ src.fails = true := by
  unfold popResult
  split
  · rename_i h
    simp only [reduceCtorEq, false_iff, not_and]
    intro hc
    omega
  · rename_i h
    split <;> simp_all <;> omega

theorem contrib_eq (st : SrcSt) :
    contrib st = match st.ctx with | none => 0 | some c => ctxContrib c := by
  unfold contrib ctxContrib; rfl

theorem bufferLogs_entry (m : Nat) (k : Int) (c : Ctx) :
    ((bufferLogs m k c).2).entry = c.entry := by
  unfold bufferLogs; split <;> try rfl
  split <;> try rfl
  split <;> rfl

theorem bufferLogs_buf (m : Nat) (k : Int) (c : Ctx) :
    ((bufferLogs m k c).2).bufferedEntries = c.bufferedEntries := by
  unfold bufferLogs; split <;> try rfl
  split <;> try rfl
  split <;> rfl

theorem bufferLogs_drained (m : Nat) (k : Int) (c : Ctx) :
    ((bufferLogs m k c).2).drained = c.drained := by
  unfold bufferLogs; split <;> try rfl
  split <;> try rfl
  split <;> rfl

/-- The fetch status after `bufferLogs` is the old one, or `pending` issued
from `idle` on an undrained source below the ceiling. -/
theorem bufferLogs_cases (m : Nat) (k : Int) (c : Ctx) :
    bufferLogs m k c = (k, c) ∨
    (k ≠ (m : Int) ∧ c.drained = false ∧ c.nextEntryPromise = .idle ∧
      bufferLogs m k c = (k + 1, { c with nextEntryPromise := .pending })) := by
  unfold bufferLogs
  split
  · exact Or.inl rfl
  · split
    · exact Or.inl rfl
    · split
      · exact Or.inl rfl
      · rename_i h1 h2 h3
        right
        refine ⟨h1, by simpa using h2, by simpa using h3, rfl⟩

/-- The counter change made by `bufferLogs` equals the contribution change of
the context. -/
theorem bufferLogs_counter (m : Nat) (k : Int) (c : Ctx) :
    (bufferLogs m k c).1 + ctxContrib c = k + ctxContrib ((bufferLogs m k c).2) := by
  rcases bufferLogs_cases m k c with h | ⟨h1, h2, h3, h⟩
  · rw [h]
  · rw [h]
    unfold ctxContrib
    simp [h2, h3]
    ring

theorem bufferLogs_fst_le (m : Nat) (k : Int) (c : Ctx) (h : k ≤ (m : Int)) :
    (bufferLogs m k c).1 ≤ (m : Int) := by
  rcases bufferLogs_cases m k c with hc | ⟨h1, _, _, hc⟩ <;> rw [hc]
  · exact h
  · omega

theorem bufferLogs_ge (m : Nat) (k : Int) (c : Ctx) : k ≤ (bufferLogs m k c).1 := by
  rcases bufferLogs_cases m k c with hc | ⟨_, _, _, hc⟩ <;> rw [hc] <;> omega

theorem bufferLogs_pending_src (m : Nat) (k : Int) (c : Ctx)
    (h : ((bufferLogs m k c).2).nextEntryPromise = .pending) :
    c.nextEntryPromise = .pending ∨ c.nextEntryPromise = .idle := by
  rcases bufferLogs_cases m k c with hc | ⟨_, _, h3, hc⟩
  · rw [hc] at h
    exact Or.inl h
  · exact Or.inr h3

theorem bufferLogs_not_idle_src (m : Nat) (k : Int) (c : Ctx)
    (h : ((bufferLogs m k c).2).nextEntryPromise ≠ .idle)
    (h2 : c.nextEntryPromise = .idle) :
    ((bufferLogs m k c).2).nextEntryPromise = .pending := by
  rcases bufferLogs_cases m k c with hc | ⟨_, _, _, hc⟩
  · rw [hc] at h
    exact absurd h2 h
  · rw [hc]

theorem bufferLogs_rejected (m : Nat) (k : Int) (c : Ctx) :
    ((bufferLogs m k c).2).nextEntryPromise = .rejectedP ↔ c.nextEntryPromise = .rejectedP := by
  rcases bufferLogs_cases m k c with hc | ⟨_, _, h3, hc⟩
  · rw [hc]
  · rw [hc, h3]
    simp

/-! Sums over `Function.update`. -/

theorem sum_comp_update {α : Type} {M : Type} [AddCommMonoid M]
    (g : α → M) (f : Nat → α) (n i : Nat) (hi : i < n) (x : α) :
    (∑ k in Finset.range n, g (Function.update f i x k)) + g (f i)
      = (∑ k in Finset.range n, g (f k)) + g x := by
  have hmem : i ∈ Finset.range n := Finset.mem_range.2 hi
  rw [← Finset.sum_erase_add (Finset.range n) (fun k => g (Function.update f i x k)) hmem,
      ← Finset.sum_erase_add (Finset.range n) (fun k => g (f k)) hmem]
  have hcong : ∀ k ∈ (Finset.range n).erase i,
      g (Function.update f i x k) = g (f k) := by
    intro k hk
    rw [Function.update_noteq (Finset.ne_of_mem_erase hk)]
  rw [Finset.sum_congr rfl hcong, Function.update_same]
  abel

theorem sum_comp_update_int {α : Type} (g : α → Int) (f : Nat → α) (n i : Nat)
    (hi : i < n) (x : α) :
    (∑ k in Finset.range n, g (Function.update f i x k))
      = (∑ k in Finset.range n, g (f k)) + g x - g (f i) := by
  have := sum_comp_update g f n i hi x
  omega

/-! Heap (index list) facts. -/

theorem mem_eraseIdx_ne {l : List Nat} {j i k : Nat} (hj : l[j]? = some i) (hk : k ≠ i) :
    k ∈ l.eraseIdx j ↔ k ∈ l := by
  rw [List.mem_eraseIdx_iff_getElem?]
  constructor
  · rintro ⟨m, _, hm⟩
    exact List.getElem?_mem hm
  · intro hmem
    obtain ⟨m, hm⟩ := List.getElem?_of_mem hmem
    refine ⟨m, ?_, hm⟩
    rintro rfl
    rw [hj] at hm
    exact hk (Option.some_injective _ hm).symm

theorem not_mem_eraseIdx_self {l : List Nat} (hnd : l.Nodup) {j i : Nat}
    (hj : l[j]? = some i) : i ∉ l.eraseIdx j := by
  rw [List.mem_eraseIdx_iff_getElem?]
  rintro ⟨m, hmj, hm⟩
  have hjlt : j < l.length := (List.getElem?_eq_some_iff.1 hj).1
  have hmlt : m < l.length := (List.getElem?_eq_some_iff.1 hm).1
  have h1 : l[j] = i := by
    have h := List.getElem?_eq_getElem hjlt
    rw [hj] at h
    exact (Option.some_injective _ h.symm)
  have h2 : l[m] = i := by
    have h := List.getElem?_eq_getElem hmlt
    rw [hm] at h
    exact (Option.some_injective _ h.symm)
  have hinj := List.nodup_iff_injective_get.1 hnd
  have h3 := @hinj ⟨m, hmlt⟩ ⟨j, hjlt⟩ (by simp only [List.get_eq_getElem]; rw [h1, h2])
  exact hmj (by simpa using h3)

theorem mem_of_mem_eraseIdx {l : List Nat} {j k : Nat} (h : k ∈ l.eraseIdx j) : k ∈ l :=
  (List.eraseIdx_sublist l j).mem h

theorem inv_initState (cfg : Config) : AInv cfg (initState cfg) := by
  refine
    { oob := fun i _ => rfl
      heapLt := by intro i h; simp [initState] at h
      heapCtx := by intro i h; simp [initState] at h
      heapNodup := List.nodup_nil
      holdsOk := by intro i h; simp [initState, Holds, holdIdx] at h
      headsSome := by intro i c h; simp [initState, initSrcSt] at h
      fetchNotDrained := by intro i c h; simp [initState, initSrcSt] at h
      initCtx := by intro i _; exact ⟨rfl, rfl⟩
      initResolved := by intro h; simp [initState] at h
      waiting2Pending := by intro i h; simp [initState] at h
      ready2Inv := by intro i h; simp [initState] at h
      waiting4Inv := by intro i h; simp [initState] at h
      counterEq := by
        simp [initState, contrib, initSrcSt]
      counterLe := by simp [initState]
      recvdLe := by intro i; simp [initState, initSrcSt]
      drainedRecvd := by intro i c h; simp [initState, initSrcSt] at h
      discarded := by intro i c h; simp [initState, initSrcSt] at h
      ctxNone := by intro i _ _ h; simp [initState, initSrcSt] at h
      doneCnt := by simp [initState]
      rejFails := by intro h; simp [initState] at h
      doneHeap := by intro h; simp [initState] at h
      startPrinted := fun _ => rfl
      cntLe := by
        intro i
        simp [initState, bufLenAt, holdAt, dlvAt, initSrcSt]
      slice := by intro i c h; simp [initState, initSrcSt] at h
      printedAcc := by
        simp [initState, posAt, dlvAt, bufLenAt, holdAt, initSrcSt]
      pendingInHeap := by intro i c h; simp [initState, initSrcSt] at h
      fullCtx := by intro i c h; simp [initState, initSrcSt] at h
      rejPFails := by intro i c h; simp [initState, initSrcSt] at h }

theorem inv_stepStart (cfg : Config) (s : MState) (h : AInv cfg s) :
    AInv cfg (stepStart cfg s) := by
  unfold stepStart
  split
  case isFalse => exact h
  case isTrue hg =>
    obtain ⟨hst, hnp⟩ := hg
    refine
      { oob := h.oob
        heapLt := h.heapLt
        heapCtx := h.heapCtx
        heapNodup := h.heapNodup
        holdsOk := by
          intro i hi
          simp [Holds, holdIdx] at hi
        headsSome := h.headsSome
        fetchNotDrained := h.fetchNotDrained
        initCtx := h.initCtx
        initResolved := by
          intro _ _ i hi
          exact hnp i (List.mem_range.2 hi)
        waiting2Pending := by intro i hi; simp at hi
        ready2Inv := by intro i hi; simp at hi
        waiting4Inv := by intro i hi; simp at hi
        counterEq := h.counterEq
        counterLe := h.counterLe
        recvdLe := h.recvdLe
        drainedRecvd := h.drainedRecvd
        discarded := by
          intro i c hc hh hho
          have := h.discarded i c hc hh (by simp [hst, Holds, holdIdx])
          rcases this.2 with h1 | h1 | h1
          · exact ⟨this.1, Or.inl h1⟩
          · exact ⟨this.1, Or.inr (Or.inl h1)⟩
          · rw [hst] at h1
            simp at h1
        ctxNone := by
          intro i hi hc hip _
          exact h.ctxNone i hi hc hip (by rw [hst]; simp)
        doneCnt := by
          have := h.doneCnt
          rw [hst] at this
          simpa using this
        rejFails := by intro hr; simp at hr
        doneHeap := by intro hr; simp at hr
        startPrinted := by intro hr; simp at hr
        cntLe := h.cntLe
        slice := h.slice
        printedAcc := h.printedAcc
        pendingInHeap := by
          intro i c hc hp
          rcases h.pendingInHeap i c hc hp with hm | hm
          · exact Or.inl hm
          · rw [hst] at hm
            simp [Holds, holdIdx] at hm
        fullCtx := by
          intro i c hc hr
          rcases h.fullCtx i c hc hr with h1 | h1 | h1
          · exact Or.inl h1
          · exact Or.inr (Or.inl h1)
          · exact Or.inr (Or.inr ⟨h1.1, h1.2.1, by simp [Holds, holdIdx]⟩)
        rejPFails := h.rejPFails }

theorem mem_append_ne {l : List Nat} {i k : Nat} (h : k ≠ i) : k ∈ l ++ [i] ↔ k ∈ l := by
  simp [h]

theorem posAt_frame (cfg : Config) (s s' : MState) (k : Nat)
    (h1 : (s'.sstates k).recvd = (s.sstates k).recvd)
    (h2 : (s'.sstates k).ctx = (s.sstates k).ctx)
    (h3 : k ∈ s'.heap ↔ k ∈ s.heap) :
    dlvAt cfg s' k = dlvAt cfg s k ∧ bufLenAt s' k = bufLenAt s k ∧
      holdAt s' k = holdAt s k ∧ posAt cfg s' k = posAt cfg s k := by
  have hd : dlvAt cfg s' k = dlvAt cfg s k := by
    unfold dlvAt
    rw [h1]
  have hb : bufLenAt s' k = bufLenAt s k := by
    unfold bufLenAt
    rw [h2]
  have hh : holdAt s' k = holdAt s k := by
    unfold holdAt
    by_cases hm : k ∈ s.heap
    · rw [if_pos hm, if_pos (h3.2 hm)]
    · rw [if_neg hm, if_neg (fun hx => hm (h3.1 hx))]
  exact ⟨hd, hb, hh, by unfold posAt; rw [hd, hb, hh]⟩

theorem take_one_of_lt {l : List LogEntry} (h : 0 < l.length) :
    l.take 1 = [l.getD 0 dummyE] := by
  rw [show (1 : Nat) = 0 + 1 from rfl, List.take_succ]
  simp [List.getElem?_eq_getElem h, List.getD_eq_getElem?_getD]


theorem bufLenAt_some {s : MState} {i : Nat} {c : Ctx} (h : (s.sstates i).ctx = some c) :
    bufLenAt s i = c.bufferedEntries.length := by
  unfold bufLenAt
  rw [h]

theorem bufLenAt_none {s : MState} {i : Nat} (h : (s.sstates i).ctx = none) :
    bufLenAt s i = 0 := by
  unfold bufLenAt
  rw [h]

theorem holdAt_pos {s : MState} {i : Nat} (h : i ∈ s.heap) : holdAt s i = 1 := if_pos h

theorem holdAt_neg {s : MState} {i : Nat} (h : i ∉ s.heap) : holdAt s i = 0 := if_neg h

theorem dlvAt_eq (cfg : Config) (s : MState) (i : Nat) :
    dlvAt cfg s i = min (s.sstates i).recvd (lenAt cfg i) := rfl

theorem posAt_eq (cfg : Config) (s : MState) (i : Nat) :
    posAt cfg s i = dlvAt cfg s i - bufLenAt s i - holdAt s i := rfl

theorem inv_stepInit (cfg : Config) (s : MState) (i : Nat) (h : AInv cfg s) :
    AInv cfg (stepInit cfg s i) := by
  unfold stepInit
  split
  case isFalse => exact h
  case isTrue hg =>
  obtain ⟨hin, hip⟩ := hg
  obtain ⟨hctxn, hrec0⟩ := h.initCtx i hip
  have hih : i ∉ s.heap := by
    intro hm
    have hc := h.heapCtx i hm
    rw [hctxn] at hc
    simp at hc
  have hdrv : s.driver = .start ∨ s.driver = .rejectedSt := by
    by_cases h1 : s.driver = .start
    · exact Or.inl h1
    by_cases h2 : s.driver = .rejectedSt
    · exact Or.inr h2
    exact absurd hip (h.initResolved h1 h2 i hin)
  have hnold : ∀ k, ¬ Holds s.driver k := by
    intro k hk
    rcases hdrv with hd | hd <;> rw [hd] at hk <;> simp [Holds, holdIdx] at hk
  have hpos0 : posAt cfg s i = 0 := by
    rw [posAt_eq, dlvAt_eq, hrec0]
    omega
  have hdlv0 : dlvAt cfg s i = 0 := by
    rw [dlvAt_eq, hrec0]
    omega
  split
  case h_1 e heq =>
    obtain ⟨hlt0, he0⟩ := popResult_ok_iff.1 heq
    simp only [hrec0] at hlt0 he0
    have hlen1 : 0 < lenAt cfg i := hlt0
    have hent0 : entAt cfg i 0 = e := by
      unfold entAt entriesAt
      rw [List.getD_eq_getElem?_getD, List.getElem?_eq_getElem hlt0]
      exact he0.symm
    set r := bufferLogs cfg.maxBuf s.numLogEntriesBuffered
      (⟨some e, [], false, .idle⟩ : Ctx) with hr
    have hrent : r.2.entry = some e := bufferLogs_entry _ _ _
    have hrbuf : r.2.bufferedEntries = [] := bufferLogs_buf _ _ _
    have hrdr : r.2.drained = false := bufferLogs_drained _ _ _
    set st' : SrcSt := { s.sstates i with
      initPending := false, recvd := (s.sstates i).recvd + 1, ctx := some r.2 } with hst'
    set s' : MState := { s with
      sstates := Function.update s.sstates i st',
      heap := s.heap ++ [i],
      numLogEntriesBuffered := r.1 } with hs'
    have hssti : s'.sstates i = st' := Function.update_same i st' s.sstates
    have hsst : ∀ k, k ≠ i → s'.sstates k = s.sstates k := by
      intro k hk
      exact Function.update_noteq hk st' s.sstates
    have hstctx : st'.ctx = some r.2 := rfl
    have hstrec : st'.recvd = (s.sstates i).recvd + 1 := rfl
    have hstip : st'.initPending = false := rfl
    have hheap' : s'.heap = s.heap ++ [i] := rfl
    have hctr' : s'.numLogEntriesBuffered = r.1 := rfl
    have hdr' : s'.driver = s.driver := rfl
    have hpr' : s'.printed = s.printed := rfl
    have hmem' : ∀ k, k ≠ i → (k ∈ s'.heap ↔ k ∈ s.heap) := by
      intro k hk
      rw [hheap']
      exact mem_append_ne hk
    have himem : i ∈ s'.heap := by
      rw [hheap']
      exact List.mem_append.2 (Or.inr (by simp))
    have hfr := fun k (hk : k ≠ i) => posAt_frame cfg s s' k
      (by rw [hsst k hk]) (by rw [hsst k hk]) (hmem' k hk)
    have hdlv' : dlvAt cfg s' i = 1 := by
      rw [dlvAt_eq, hssti, hstrec, hrec0]
      unfold lenAt at hlen1 ⊢
      omega
    have hbuf' : bufLenAt s' i = 0 := by
      rw [bufLenAt_some (show (s'.sstates i).ctx = some r.2 by rw [hssti]), hrbuf]
      rfl
    have hpos' : posAt cfg s' i = 0 := by
      rw [posAt_eq, hdlv', hbuf', holdAt_pos himem]
    refine
      { oob := by
          intro k hk
          rw [hsst k (by omega)]
          exact h.oob k hk
        heapLt := by
          intro k hk
          rw [hheap'] at hk
          rcases List.mem_append.1 hk with hk | hk
          · exact h.heapLt k hk
          · simp at hk
            omega
        heapCtx := by
          intro k hk
          rw [hheap'] at hk
          by_cases hki : k = i
          · subst hki
            rw [hssti, hstctx]
            rfl
          · rw [hsst k hki]
            rcases List.mem_append.1 hk with hk | hk
            · exact h.heapCtx k hk
            · simp at hk
              exact absurd hk hki
        heapNodup := by
          rw [hheap', List.nodup_append]
          exact ⟨h.heapNodup, List.nodup_singleton i, by simpa using fun hm => hih hm⟩
        holdsOk := by
          intro k hk
          rw [hdr'] at hk
          exact absurd hk (hnold k)
        headsSome := by
          intro k c hc
          by_cases hki : k = i
          · subst hki
            rw [hssti, hstctx] at hc
            cases hc
            rw [hrent]
            rfl
          · rw [hsst k hki] at hc
            exact h.headsSome k c hc
        fetchNotDrained := by
          intro k c hc hne
          by_cases hki : k = i
          · subst hki
            rw [hssti, hstctx] at hc
            cases hc
            exact hrdr
          · rw [hsst k hki] at hc
            exact h.fetchNotDrained k c hc hne
        initCtx := by
          intro k hk
          by_cases hki : k = i
          · subst hki
            rw [hssti, hstip] at hk
            simp at hk
          · rw [hsst k hki] at hk ⊢
            exact h.initCtx k hk
        initResolved := by
          intro h1 h2 k hkn
          rw [hdr'] at h1 h2
          rcases hdrv with hd | hd
          · exact absurd hd h1
          · exact absurd hd h2
        waiting2Pending := by
          intro k hk
          rw [hdr'] at hk
          rcases hdrv with hd | hd <;> rw [hd] at hk <;> simp at hk
        ready2Inv := by
          intro k hk
          rw [hdr'] at hk
          rcases hdrv with hd | hd <;> rw [hd] at hk <;> simp at hk
        waiting4Inv := by
          intro k hk
          rw [hdr'] at hk
          rcases hdrv with hd | hd <;> rw [hd] at hk <;> simp at hk
        counterEq := by
          rw [hctr']
          have hsum := sum_comp_update_int contrib s.sstates (nOf cfg) i hin st'
          have hbc := bufferLogs_counter cfg.maxBuf s.numLogEntriesBuffered
            (⟨some e, [], false, .idle⟩ : Ctx)
          have hL : contrib (s.sstates i) = 0 := by
            rw [contrib_eq, hctxn]
          have hR : contrib st' = ctxContrib r.2 := by
            rw [contrib_eq, hstctx]
          have hz : ctxContrib (⟨some e, [], false, .idle⟩ : Ctx) = 0 := by
            unfold ctxContrib
            simp
          have hgoal : (∑ k in Finset.range (nOf cfg), contrib (s'.sstates k))
              = (∑ k in Finset.range (nOf cfg), contrib (s.sstates k)) + ctxContrib r.2 := by
            have : s'.sstates = Function.update s.sstates i st' := rfl
            rw [this, hsum, hL, hR]
            omega
          rw [hgoal, ← h.counterEq]
          rw [← hr] at hbc
          omega
        counterLe := by
          rw [hctr', hr]
          exact bufferLogs_fst_le cfg.maxBuf s.numLogEntriesBuffered _ h.counterLe
        recvdLe := by
          intro k
          by_cases hki : k = i
          · subst hki
            rw [hssti, hstrec]
            have := h.recvdLe k
            omega
          · rw [hsst k hki]
            exact h.recvdLe k
        drainedRecvd := by
          intro k c hc hdr
          by_cases hki : k = i
          · subst hki
            rw [hssti, hstctx] at hc
            cases hc
            rw [hrdr] at hdr
            simp at hdr
          · rw [hsst k hki] at hc ⊢
            exact h.drainedRecvd k c hc hdr
        discarded := by
          intro k c hc hkh hkhold
          by_cases hki : k = i
          · subst hki
            exact absurd himem hkh
          · rw [hsst k hki] at hc ⊢
            rw [hdr'] at hkhold ⊢
            have hkh2 : k ∉ s.heap := fun hm => hkh ((hmem' k hki).2 hm)
            exact h.discarded k c hc hkh2 (hnold k)
        ctxNone := by
          intro k hkn hc hkp hrej
          by_cases hki : k = i
          · subst hki
            rw [hssti, hstctx] at hc
            simp at hc
          · rw [hsst k hki] at hc hkp ⊢
            rw [hdr'] at hrej
            exact h.ctxNone k hkn hc hkp hrej
        doneCnt := by
          rw [hdr']
          exact h.doneCnt
        rejFails := by
          rw [hdr']
          exact h.rejFails
        doneHeap := by
          intro hd
          rw [hdr'] at hd
          rcases hdrv with hx | hx <;> rw [hx] at hd <;> simp at hd
        startPrinted := by
          intro hd
          rw [hdr'] at hd
          rw [hpr']
          exact h.startPrinted hd
        cntLe := by
          intro k
          by_cases hki : k = i
          · subst hki
            rw [hbuf', holdAt_pos himem, hdlv']
          · obtain ⟨hd1, hd2, hd3, _⟩ := hfr k hki
            rw [hd1, hd2, hd3]
            exact h.cntLe k
        slice := by
          intro k c hc
          by_cases hki : k = i
          · subst hki
            rw [hssti, hstctx] at hc
            cases hc
            rw [hdlv', hpos', if_pos himem, hrent, hrbuf, take_one_of_lt hlen1]
            unfold entAt at hent0
            rw [hent0]
            simp
          · rw [hsst k hki] at hc
            obtain ⟨hd1, _, _, hd4⟩ := hfr k hki
            rw [hd1, hd4]
            by_cases hkm : k ∈ s.heap
            · rw [if_pos ((hmem' k hki).2 hkm)]
              have := h.slice k c hc
              rw [if_pos hkm] at this
              exact this
            · rw [if_neg (fun hx => hkm ((hmem' k hki).1 hx))]
              have := h.slice k c hc
              rw [if_neg hkm] at this
              exact this
        printedAcc := by
          rw [hpr', h.printedAcc]
          apply Finset.sum_congr rfl
          intro k hk
          by_cases hki : k = i
          · subst hki
            rw [hpos0, hpos']
          · rw [(hfr k hki).2.2.2]
        pendingInHeap := by
          intro k c hc hp
          by_cases hki : k = i
          · subst hki
            exact Or.inl himem
          · rw [hsst k hki] at hc
            rcases h.pendingInHeap k c hc hp with hm | hm
            · exact Or.inl ((hmem' k hki).2 hm)
            · exact absurd hm (hnold k)
        fullCtx := by
          intro k c hc hrec
          by_cases hki : k = i
          · subst hki
            rw [hssti, hstrec, hrec0] at hrec
            omega
          · rw [hsst k hki] at hc
            rw [hsst k hki] at hrec
            rcases h.fullCtx k c hc hrec with h1 | h1 | h1
            · exact Or.inl h1
            · exact Or.inr (Or.inl h1)
            · refine Or.inr (Or.inr ⟨h1.1, fun hx => h1.2.1 ((hmem' k hki).1 hx), ?_⟩)
              rw [hdr']
              exact hnold k
        rejPFails := by
          intro k c hc2 hrj
          by_cases hki : k = i
          · subst hki
            rw [hssti, hstctx] at hc2
            cases hc2
            have hx := (bufferLogs_rejected _ _ _).1 hrj
            simp at hx
          · rw [hsst k hki] at hc2
            exact h.rejPFails k c hc2 hrj }
  case h_2 heq =>
    obtain ⟨hge, hnf⟩ := popResult_eof_iff.1 heq
    rw [hrec0] at hge
    have hlen0 : lenAt cfg i = 0 := Nat.le_zero.1 hge
    set st' : SrcSt := { s.sstates i with
      initPending := false, recvd := (s.sstates i).recvd + 1 } with hst'
    set s' : MState := { s with sstates := Function.update s.sstates i st' } with hs'
    have hssti : s'.sstates i = st' := Function.update_same i st' s.sstates
    have hsst : ∀ k, k ≠ i → s'.sstates k = s.sstates k := by
      intro k hk
      exact Function.update_noteq hk st' s.sstates
    have hstctx : st'.ctx = (s.sstates i).ctx := rfl
    have hstrec : st'.recvd = (s.sstates i).recvd + 1 := rfl
    have hstip : st'.initPending = false := rfl
    have hheap' : s'.heap = s.heap := rfl
    have hdr' : s'.driver = s.driver := rfl
    have hpr' : s'.printed = s.printed := rfl
    have hfr := fun k (hk : k ≠ i) => posAt_frame cfg s s' k
      (by rw [hsst k hk]) (by rw [hsst k hk]) (by rw [hheap'])
    have hdlvi : dlvAt cfg s' i = 0 := by
      rw [dlvAt_eq, hssti, hstrec, hlen0]
      omega
    have hposi : posAt cfg s' i = 0 := by
      rw [posAt_eq, hdlvi]
      omega
    refine
      { oob := by
          intro k hk
          rw [hsst k (by omega)]
          exact h.oob k hk
        heapLt := h.heapLt
        heapCtx := by
          intro k hk
          by_cases hki : k = i
          · subst hki
            exact absurd hk hih
          · rw [hsst k hki]
            exact h.heapCtx k hk
        heapNodup := h.heapNodup
        holdsOk := by
          intro k hk
          rw [hdr'] at hk
          exact absurd hk (hnold k)
        headsSome := by
          intro k c hc
          by_cases hki : k = i
          · subst hki
            rw [hssti, hstctx] at hc
            rw [hctxn] at hc
            cases hc
          · rw [hsst k hki] at hc
            exact h.headsSome k c hc
        fetchNotDrained := by
          intro k c hc hne
          by_cases hki : k = i
          · subst hki
            rw [hssti, hstctx, hctxn] at hc
            cases hc
          · rw [hsst k hki] at hc
            exact h.fetchNotDrained k c hc hne
        initCtx := by
          intro k hk
          by_cases hki : k = i
          · subst hki
            rw [hssti, hstip] at hk
            simp at hk
          · rw [hsst k hki] at hk ⊢
            exact h.initCtx k hk
        initResolved := by
          intro h1 h2 k hkn
          rw [hdr'] at h1 h2
          rcases hdrv with hd | hd
          · exact absurd hd h1
          · exact absurd hd h2
        waiting2Pending := by
          intro k hk
          rw [hdr'] at hk
          rcases hdrv with hd | hd <;> rw [hd] at hk <;> simp at hk
        ready2Inv := by
          intro k hk
          rw [hdr'] at hk
          rcases hdrv with hd | hd <;> rw [hd] at hk <;> simp at hk
        waiting4Inv := by
          intro k hk
          rw [hdr'] at hk
          rcases hdrv with hd | hd <;> rw [hd] at hk <;> simp at hk
        counterEq := by
          have hsum := sum_comp_update_int contrib s.sstates (nOf cfg) i hin st'
          have hL : contrib (s.sstates i) = 0 := by
            rw [contrib_eq, hctxn]
          have hR : contrib st' = 0 := by
            rw [contrib_eq, hstctx, hctxn]
          have hss : s'.sstates = Function.update s.sstates i st' := rfl
          have hctr : s'.numLogEntriesBuffered = s.numLogEntriesBuffered := rfl
          rw [hctr, hss, hsum, hL, hR, ← h.counterEq]
          omega
        counterLe := h.counterLe
        recvdLe := by
          intro k
          by_cases hki : k = i
          · subst hki
            rw [hssti, hstrec]
            have := h.recvdLe k
            omega
          · rw [hsst k hki]
            exact h.recvdLe k
        drainedRecvd := by
          intro k c hc hdr
          by_cases hki : k = i
          · subst hki
            rw [hssti, hstctx, hctxn] at hc
            cases hc
          · rw [hsst k hki] at hc ⊢
            exact h.drainedRecvd k c hc hdr
        discarded := by
          intro k c hc hkh hkhold
          by_cases hki : k = i
          · subst hki
            rw [hssti, hstctx, hctxn] at hc
            cases hc
          · rw [hsst k hki] at hc ⊢
            rw [hdr'] at hkhold ⊢
            exact h.discarded k c hc hkh (hnold k)
        ctxNone := by
          intro k hkn hc hkp hrej
          by_cases hki : k = i
          · subst hki
            rw [hssti, hstrec]
            refine ⟨hlen0, hnf, by rw [hrec0]⟩
          · rw [hsst k hki] at hc hkp ⊢
            rw [hdr'] at hrej
            exact h.ctxNone k hkn hc hkp hrej
        doneCnt := by
          rw [hdr']
          exact h.doneCnt
        rejFails := by
          rw [hdr']
          exact h.rejFails
        doneHeap := by
          intro hd
          rw [hdr'] at hd
          rcases hdrv with hx | hx <;> rw [hx] at hd <;> simp at hd
        startPrinted := by
          intro hd
          rw [hdr'] at hd
          rw [hpr']
          exact h.startPrinted hd
        cntLe := by
          intro k
          by_cases hki : k = i
          · subst hki
            have hb : bufLenAt s' k = 0 := by
              unfold bufLenAt
              rw [hssti, hstctx, hctxn]
            have hh : holdAt s' k = 0 := holdAt_neg (by rw [hheap']; exact hih)
            rw [hb, hh, hdlvi]
          · obtain ⟨hd1, hd2, hd3, _⟩ := hfr k hki
            rw [hd1, hd2, hd3]
            exact h.cntLe k
        slice := by
          intro k c hc
          by_cases hki : k = i
          · subst hki
            rw [hssti, hstctx, hctxn] at hc
            cases hc
          · rw [hsst k hki] at hc
            obtain ⟨hd1, _, _, hd4⟩ := hfr k hki
            rw [hd1, hd4]
            rw [hheap']
            exact h.slice k c hc
        printedAcc := by
          rw [hpr', h.printedAcc]
          apply Finset.sum_congr rfl
          intro k hk
          by_cases hki : k = i
          · subst hki
            rw [hpos0, hposi]
          · rw [(hfr k hki).2.2.2]
        pendingInHeap := by
          intro k c hc hp
          by_cases hki : k = i
          · subst hki
            rw [hssti, hstctx, hctxn] at hc
            cases hc
          · rw [hsst k hki] at hc
            rcases h.pendingInHeap k c hc hp with hm | hm
            · exact Or.inl hm
            · exact absurd hm (hnold k)
        fullCtx := by
          intro k c hc hrec
          by_cases hki : k = i
          · subst hki
            rw [hssti, hstctx, hctxn] at hc
            cases hc
          · rw [hsst k hki] at hc
            rw [hsst k hki] at hrec
            rcases h.fullCtx k c hc hrec with h1 | h1 | h1
            · exact Or.inl h1
            · exact Or.inr (Or.inl h1)
            · refine Or.inr (Or.inr ⟨h1.1, h1.2.1, ?_⟩)
              rw [hdr']
              exact hnold k
        rejPFails := by
          intro k c hc2 hrj
          by_cases hki : k = i
          · subst hki
            rw [hssti, hstctx, hctxn] at hc2
            cases hc2
          · rw [hsst k hki] at hc2
            exact h.rejPFails k c hc2 hrj }
  case h_3 heq =>
    obtain ⟨hge, hf⟩ := popResult_err_iff.1 heq
    rw [hrec0] at hge
    have hlen0 : lenAt cfg i = 0 := Nat.le_zero.1 hge
    set st' : SrcSt := { s.sstates i with
      initPending := false, recvd := (s.sstates i).recvd + 1 } with hst'
    set s' : MState := { s with
      sstates := Function.update s.sstates i st',
      driver := .rejectedSt } with hs'
    have hssti : s'.sstates i = st' := Function.update_same i st' s.sstates
    have hsst : ∀ k, k ≠ i → s'.sstates k = s.sstates k := by
      intro k hk
      exact Function.update_noteq hk st' s.sstates
    have hstctx : st'.ctx = (s.sstates i).ctx := rfl
    have hstrec : st'.recvd = (s.sstates i).recvd + 1 := rfl
    have hstip : st'.initPending = false := rfl
    have hheap' : s'.heap = s.heap := rfl
    have hdr' : s'.driver = .rejectedSt := rfl
    have hpr' : s'.printed = s.printed := rfl
    have hfr := fun k (hk : k ≠ i) => posAt_frame cfg s s' k
      (by rw [hsst k hk]) (by rw [hsst k hk]) (by rw [hheap'])
    have hdlvi : dlvAt cfg s' i = 0 := by
      rw [dlvAt_eq, hssti, hstrec, hlen0]
      omega
    have hposi : posAt cfg s' i = 0 := by
      rw [posAt_eq, hdlvi]
      omega
    have hdrs : s.driver = .doneSt → False := by
      intro hx
      rcases hdrv with hd | hd <;> rw [hx] at hd <;> cases hd
    refine
      { oob := by
          intro k hk
          rw [hsst k (by omega)]
          exact h.oob k hk
        heapLt := h.heapLt
        heapCtx := by
          intro k hk
          by_cases hki : k = i
          · subst hki
            exact absurd hk hih
          · rw [hsst k hki]
            exact h.heapCtx k hk
        heapNodup := h.heapNodup
        holdsOk := by
          intro k hk
          rw [hdr'] at hk
          simp [Holds, holdIdx] at hk
        headsSome := by
          intro k c hc
          by_cases hki : k = i
          · subst hki
            rw [hssti, hstctx, hctxn] at hc
            cases hc
          · rw [hsst k hki] at hc
            exact h.headsSome k c hc
        fetchNotDrained := by
          intro k c hc hne
          by_cases hki : k = i
          · subst hki
            rw [hssti, hstctx, hctxn] at hc
            cases hc
          · rw [hsst k hki] at hc
            exact h.fetchNotDrained k c hc hne
        initCtx := by
          intro k hk
          by_cases hki : k = i
          · subst hki
            rw [hssti, hstip] at hk
            simp at hk
          · rw [hsst k hki] at hk ⊢
            exact h.initCtx k hk
        initResolved := by
          intro h1 h2 k hkn
          exact absurd hdr' h2
        waiting2Pending := by
          intro k hk
          rw [hdr'] at hk
          cases hk
        ready2Inv := by
          intro k hk
          rw [hdr'] at hk
          cases hk
        waiting4Inv := by
          intro k hk
          rw [hdr'] at hk
          cases hk
        counterEq := by
          have hsum := sum_comp_update_int contrib s.sstates (nOf cfg) i hin st'
          have hL : contrib (s.sstates i) = 0 := by
            rw [contrib_eq, hctxn]
          have hR : contrib st' = 0 := by
            rw [contrib_eq, hstctx, hctxn]
          have hss : s'.sstates = Function.update s.sstates i st' := rfl
          have hctr : s'.numLogEntriesBuffered = s.numLogEntriesBuffered := rfl
          rw [hctr, hss, hsum, hL, hR, ← h.counterEq]
          omega
        counterLe := h.counterLe
        recvdLe := by
          intro k
          by_cases hki : k = i
          · subst hki
            rw [hssti, hstrec]
            have := h.recvdLe k
            omega
          · rw [hsst k hki]
            exact h.recvdLe k
        drainedRecvd := by
          intro k c hc hdr
          by_cases hki : k = i
          · subst hki
            rw [hssti, hstctx, hctxn] at hc
            cases hc
          · rw [hsst k hki] at hc ⊢
            exact h.drainedRecvd k c hc hdr
        discarded := by
          intro k c hc hkh hkhold
          by_cases hki : k = i
          · subst hki
            rw [hssti, hstctx, hctxn] at hc
            cases hc
          · rw [hsst k hki] at hc ⊢
            have := h.discarded k c hc hkh (hnold k)
            exact ⟨this.1, Or.inr (Or.inr hdr')⟩
        ctxNone := by
          intro k hkn hc hkp hrej
          exact absurd hdr' hrej
        doneCnt := by
          have hdc : s'.doneCount = s.doneCount := rfl
          rw [hdc, hdr', h.doneCnt]
          rcases hdrv with hd | hd <;> rw [hd] <;> simp
        rejFails := by
          intro _
          exact ⟨i, hin, hf⟩
        doneHeap := by
          intro hd
          rw [hdr'] at hd
          cases hd
        startPrinted := by
          intro hd
          rw [hdr'] at hd
          cases hd
        cntLe := by
          intro k
          by_cases hki : k = i
          · subst hki
            have hb : bufLenAt s' k = 0 := by
              unfold bufLenAt
              rw [hssti, hstctx, hctxn]
            have hh : holdAt s' k = 0 := holdAt_neg (by rw [hheap']; exact hih)
            rw [hb, hh, hdlvi]
          · obtain ⟨hd1, hd2, hd3, _⟩ := hfr k hki
            rw [hd1, hd2, hd3]
            exact h.cntLe k
        slice := by
          intro k c hc
          by_cases hki : k = i
          · subst hki
            rw [hssti, hstctx, hctxn] at hc
            cases hc
          · rw [hsst k hki] at hc
            obtain ⟨hd1, _, _, hd4⟩ := hfr k hki
            rw [hd1, hd4]
            rw [hheap']
            exact h.slice k c hc
        printedAcc := by
          rw [hpr', h.printedAcc]
          apply Finset.sum_congr rfl
          intro k hk
          by_cases hki : k = i
          · subst hki
            rw [hpos0, hposi]
          · rw [(hfr k hki).2.2.2]
        pendingInHeap := by
          intro k c hc hp
          by_cases hki : k = i
          · subst hki
            rw [hssti, hstctx, hctxn] at hc
            cases hc
          · rw [hsst k hki] at hc
            rcases h.pendingInHeap k c hc hp with hm | hm
            · exact Or.inl hm
            · exact absurd hm (hnold k)
        fullCtx := by
          intro k c hc hrec
          by_cases hki : k = i
          · subst hki
            rw [hssti, hstctx, hctxn] at hc
            cases hc
          · rw [hsst k hki] at hc
            rw [hsst k hki] at hrec
            rcases h.fullCtx k c hc hrec with h1 | h1 | h1
            · exact Or.inl h1
            · exact Or.inr (Or.inl h1)
            · refine Or.inr (Or.inr ⟨h1.1, h1.2.1, ?_⟩)
              rw [hdr']
              simp [Holds, holdIdx]
        rejPFails := by
          intro k c hc2 hrj
          by_cases hki : k = i
          · subst hki
            rw [hssti, hstctx, hctxn] at hc2
            cases hc2
          · rw [hsst k hki] at hc2
            exact h.rejPFails k c hc2 hrj }

theorem wakeIf_eq (i : Nat) (s : MState) :
    wakeIf i s = { s with driver := if s.driver = .waiting2 i then .ready2 i else s.driver } := by
  unfold wakeIf
  split
  · rfl
  · rfl

theorem rejectIf_eq (i : Nat) (s : MState) :
    rejectIf i s = { s with driver := if s.driver = .waiting2 i then .rejectedSt else s.driver } := by
  unfold rejectIf
  split
  · rfl
  · rfl

theorem take_succ_getD {l : List LogEntry} {n : Nat} (h : n < l.length) :
    l.take (n + 1) = l.take n ++ [l.getD n dummyE] := by
  rw [List.take_succ]
  congr 1
  rw [List.getElem?_eq_getElem h, List.getD_eq_getElem?_getD, List.getElem?_eq_getElem h]
  rfl

theorem inv_stepBg (cfg : Config) (s : MState) (i : Nat) (h : AInv cfg s) :
    AInv cfg (stepBg cfg s i) := by
  unfold stepBg
  split
  case h_2 => exact h
  case h_1 c hc =>
  split
  case isFalse => exact h
  case isTrue hp =>
  have hin : i < nOf cfg := by
    by_contra hni
    have := h.oob i hni
    rw [this] at hc
    cases hc
  have hnip : ¬(s.sstates i).initPending := by
    intro hip
    obtain ⟨hcn, _⟩ := h.initCtx i hip
    rw [hc] at hcn
    cases hcn
  have hnd : c.drained = false := h.fetchNotDrained i c hc (by rw [hp]; simp)
  have hrecle : (s.sstates i).recvd ≤ lenAt cfg i := by
    by_contra hgt
    rcases h.fullCtx i c hc (by omega) with h1 | h1 | h1
    · rw [h1] at hnd
      cases hnd
    · rw [hp] at h1
      cases h1
    · rw [hp] at h1
      simp at h1
  have hmemhold := h.pendingInHeap i c hc hp
  split
  case h_1 e heq =>
    obtain ⟨hlt, he⟩ := popResult_ok_iff.1 heq
    have hltE : (s.sstates i).recvd < (entriesAt cfg i).length := hlt
    have heE : e = (entriesAt cfg i).getD ((s.sstates i).recvd) dummyE := by
      rw [List.getD_eq_getElem?_getD, List.getElem?_eq_getElem hltE]
      exact he
    rw [wakeIf_eq]
    set c1 : Ctx := { c with
      bufferedEntries := c.bufferedEntries ++ [e],
      nextEntryPromise := .idle } with hc1
    set r := bufferLogs cfg.maxBuf s.numLogEntriesBuffered c1 with hr
    set st' : SrcSt := { s.sstates i with
      recvd := (s.sstates i).recvd + 1, ctx := some r.2 } with hst'
    set D : Driver := if s.driver = .waiting2 i then Driver.ready2 i else s.driver with hD
    set s' : MState := { s with
      sstates := Function.update s.sstates i st',
      numLogEntriesBuffered := r.1,
      driver := D } with hs'
    show AInv cfg s'
    have hrent : r.2.entry = c.entry := bufferLogs_entry _ _ _
    have hrbuf : r.2.bufferedEntries = c.bufferedEntries ++ [e] := bufferLogs_buf _ _ _
    have hrdr : r.2.drained = false := by
      rw [bufferLogs_drained]
      exact hnd
    have hssti : s'.sstates i = st' := Function.update_same i st' s.sstates
    have hsst : ∀ k, k ≠ i → s'.sstates k = s.sstates k := by
      intro k hk
      exact Function.update_noteq hk st' s.sstates
    have hstctx : st'.ctx = some r.2 := rfl
    have hstrec : st'.recvd = (s.sstates i).recvd + 1 := rfl
    have hstip : st'.initPending = (s.sstates i).initPending := rfl
    have hheap' : s'.heap = s.heap := rfl
    have hctr' : s'.numLogEntriesBuffered = r.1 := rfl
    have hdr' : s'.driver = D := rfl
    have hpr' : s'.printed = s.printed := rfl
    have hfr := fun k (hk : k ≠ i) => posAt_frame cfg s s' k
      (by rw [hsst k hk]) (by rw [hsst k hk]) (by rw [hheap'])
    have hHoldsD : ∀ k, Holds D k ↔ ((s.driver = .waiting2 i ∧ k = i) ∨
        (s.driver ≠ .waiting2 i ∧ Holds s.driver k)) := by
      intro k
      by_cases hw : s.driver = .waiting2 i
      · rw [hD, if_pos hw]
        unfold Holds holdIdx
        simp [hw, eq_comm]
      · rw [hD, if_neg hw]
        simp [hw]
    have hHoldsDi : Holds s.driver i → Holds D i := by
      intro hh
      rw [hHoldsD]
      by_cases hw : s.driver = .waiting2 i
      · exact Or.inl ⟨hw, rfl⟩
      · exact Or.inr ⟨hw, hh⟩
    have hdlv : dlvAt cfg s i = (s.sstates i).recvd := by
      rw [dlvAt_eq]
      omega
    have hdlv' : dlvAt cfg s' i = (s.sstates i).recvd + 1 := by
      rw [dlvAt_eq, hssti, hstrec]
      have hx : (s.sstates i).recvd + 1 ≤ lenAt cfg i := hltE
      omega
    have hbufo : bufLenAt s i = c.bufferedEntries.length := bufLenAt_some hc
    have hbuf' : bufLenAt s' i = c.bufferedEntries.length + 1 := by
      rw [bufLenAt_some (show (s'.sstates i).ctx = some r.2 by rw [hssti]), hrbuf]
      simp
    have hhold' : holdAt s' i = holdAt s i := by
      unfold holdAt
      rw [hheap']
    have hcnt := h.cntLe i
    have hpos' : posAt cfg s' i = posAt cfg s i := by
      rw [posAt_eq, posAt_eq, hdlv, hdlv', hbufo, hbuf', hhold']
      rw [hdlv, hbufo] at hcnt
      omega
    refine
      { oob := by
          intro k hk
          rw [hsst k (by omega)]
          exact h.oob k hk
        heapLt := h.heapLt
        heapCtx := by
          intro k hk
          by_cases hki : k = i
          · subst hki
            rw [hssti, hstctx]
            rfl
          · rw [hsst k hki]
            exact h.heapCtx k hk
        heapNodup := h.heapNodup
        holdsOk := by
          intro k hk
          rw [hdr', hHoldsD] at hk
          rcases hk with ⟨hw, rfl⟩ | ⟨hw, hk⟩
          · obtain ⟨hi1, hi2, _⟩ := h.holdsOk k (by rw [hw]; exact rfl)
            refine ⟨hi1, by rw [hheap']; exact hi2, by rw [hssti, hstctx]; rfl⟩
          · obtain ⟨hi1, hi2, hi3⟩ := h.holdsOk k hk
            refine ⟨hi1, by rw [hheap']; exact hi2, ?_⟩
            by_cases hki : k = i
            · subst hki
              rw [hssti, hstctx]
              rfl
            · rw [hsst k hki]
              exact hi3
        headsSome := by
          intro k c' hc'
          by_cases hki : k = i
          · subst hki
            rw [hssti, hstctx] at hc'
            cases hc'
            rw [hrent]
            exact h.headsSome k c hc
          · rw [hsst k hki] at hc'
            exact h.headsSome k c' hc'
        fetchNotDrained := by
          intro k c' hc' hne
          by_cases hki : k = i
          · subst hki
            rw [hssti, hstctx] at hc'
            cases hc'
            exact hrdr
          · rw [hsst k hki] at hc'
            exact h.fetchNotDrained k c' hc' hne
        initCtx := by
          intro k hk
          by_cases hki : k = i
          · subst hki
            rw [hssti, hstip] at hk
            exact absurd hk hnip
          · rw [hsst k hki] at hk ⊢
            exact h.initCtx k hk
        initResolved := by
          intro h1 h2 k hkn
          rw [hdr'] at h1 h2
          have hold1 : s.driver ≠ .start := by
            by_cases hw : s.driver = .waiting2 i
            · rw [hw]
              simp
            · rw [hD, if_neg hw] at h1
              exact h1
          have hold2 : s.driver ≠ .rejectedSt := by
            by_cases hw : s.driver = .waiting2 i
            · rw [hw]
              simp
            · rw [hD, if_neg hw] at h2
              exact h2
          by_cases hki : k = i
          · subst hki
            rw [hssti, hstip]
            exact hnip
          · rw [hsst k hki]
            exact h.initResolved hold1 hold2 k hkn
        waiting2Pending := by
          intro k hk
          rw [hdr', hD] at hk
          by_cases hw : s.driver = .waiting2 i
          · rw [if_pos hw] at hk
            cases hk
          · rw [if_neg hw] at hk
            have hki : k ≠ i := by
              intro hx
              subst hx
              exact hw hk
            obtain ⟨c', hc', hcp, hcb⟩ := h.waiting2Pending k hk
            refine ⟨c', by rw [hsst k hki]; exact hc', hcp, hcb⟩
        ready2Inv := by
          intro k hk
          rw [hdr', hD] at hk
          by_cases hw : s.driver = .waiting2 i
          · rw [if_pos hw] at hk
            cases hk
            refine ⟨r.2, by rw [hssti, hstctx], Or.inl ?_⟩
            rw [hrbuf]
            simp
          · rw [if_neg hw] at hk
            by_cases hki : k = i
            · subst hki
              refine ⟨r.2, by rw [hssti, hstctx], Or.inl ?_⟩
              rw [hrbuf]
              simp
            · obtain ⟨c', hc', hcr⟩ := h.ready2Inv k hk
              refine ⟨c', by rw [hsst k hki]; exact hc', hcr⟩
        waiting4Inv := by
          intro k hk
          rw [hdr', hD] at hk
          by_cases hw : s.driver = .waiting2 i
          · rw [if_pos hw] at hk
            cases hk
          · rw [if_neg hw] at hk
            by_cases hki : k = i
            · subst hki
              obtain ⟨c', hc', hci, _⟩ := h.waiting4Inv k hk
              rw [hc] at hc'
              cases hc'
              rw [hp] at hci
              cases hci
            · obtain ⟨c', hc', hx⟩ := h.waiting4Inv k hk
              refine ⟨c', by rw [hsst k hki]; exact hc', hx⟩
        counterEq := by
          rw [hctr']
          have hsum := sum_comp_update_int contrib s.sstates (nOf cfg) i hin st'
          have hbc := bufferLogs_counter cfg.maxBuf s.numLogEntriesBuffered c1
          rw [← hr] at hbc
          have hL : contrib (s.sstates i) = ctxContrib c := by
            rw [contrib_eq, hc]
          have hR : contrib st' = ctxContrib r.2 := by
            rw [contrib_eq, hstctx]
          have hc1c : ctxContrib c1 = ctxContrib c := by
            unfold ctxContrib
            rw [hc1]
            simp [hp, hnd]
          have hss : s'.sstates = Function.update s.sstates i st' := rfl
          rw [hss, hsum, hL, hR, ← h.counterEq]
          omega
        counterLe := by
          rw [hctr', hr]
          exact bufferLogs_fst_le cfg.maxBuf s.numLogEntriesBuffered _ h.counterLe
        recvdLe := by
          intro k
          by_cases hki : k = i
          · subst hki
            rw [hssti, hstrec]
            unfold lenAt at hrecle ⊢
            omega
          · rw [hsst k hki]
            exact h.recvdLe k
        drainedRecvd := by
          intro k c' hc' hdr
          by_cases hki : k = i
          · subst hki
            rw [hssti, hstctx] at hc'
            cases hc'
            rw [hrdr] at hdr
            cases hdr
          · rw [hsst k hki] at hc' ⊢
            exact h.drainedRecvd k c' hc' hdr
        discarded := by
          intro k c' hc' hkh hkhold
          rw [hheap'] at hkh
          by_cases hki : k = i
          · subst hki
            rcases hmemhold with hm | hm
            · exact absurd hm hkh
            · exact absurd (by rw [hdr']; exact hHoldsDi hm) hkhold
          · rw [hsst k hki] at hc' ⊢
            have hnoldk : ¬ Holds s.driver k := by
              intro hx
              apply hkhold
              rw [hdr', hHoldsD]
              by_cases hw : s.driver = .waiting2 i
              · rw [hw] at hx
                unfold Holds holdIdx at hx
                simp at hx
                exact absurd hx.symm hki
              · exact Or.inr ⟨hw, hx⟩
            obtain ⟨hb, hrest⟩ := h.discarded k c' hc' hkh hnoldk
            refine ⟨hb, ?_⟩
            rcases hrest with h1 | h1 | h1
            · exact Or.inl h1
            · exact Or.inr (Or.inl h1)
            · refine Or.inr (Or.inr ?_)
              rw [hdr', hD, if_neg (by rw [h1]; simp), h1]
        ctxNone := by
          intro k hkn hc2 hkp hrej
          by_cases hki : k = i
          · subst hki
            rw [hssti, hstctx] at hc2
            cases hc2
          · rw [hsst k hki] at hc2 hkp ⊢
            have hrejold : s.driver ≠ .rejectedSt := by
              intro hx
              apply hrej
              rw [hdr', hD, if_neg (by rw [hx]; simp)]
              exact hx
            exact h.ctxNone k hkn hc2 hkp hrejold
        doneCnt := by
          have hdc : s'.doneCount = s.doneCount := rfl
          rw [hdc, h.doneCnt, hdr', hD]
          by_cases hw : s.driver = .waiting2 i
          · rw [if_pos hw, hw]
            simp
          · rw [if_neg hw]
        rejFails := by
          intro hx
          rw [hdr', hD] at hx
          by_cases hw : s.driver = .waiting2 i
          · rw [if_pos hw] at hx
            cases hx
          · rw [if_neg hw] at hx
            exact h.rejFails hx
        doneHeap := by
          intro hx
          rw [hdr', hD] at hx
          by_cases hw : s.driver = .waiting2 i
          · rw [if_pos hw] at hx
            cases hx
          · rw [if_neg hw] at hx
            rw [hheap']
            exact h.doneHeap hx
        startPrinted := by
          intro hx
          rw [hdr', hD] at hx
          by_cases hw : s.driver = .waiting2 i
          · rw [if_pos hw] at hx
            cases hx
          · rw [if_neg hw] at hx
            rw [hpr']
            exact h.startPrinted hx
        cntLe := by
          intro k
          by_cases hki : k = i
          · subst hki
            rw [hbuf', hhold', hdlv']
            rw [hdlv, hbufo] at hcnt
            omega
          · obtain ⟨hd1, hd2, hd3, _⟩ := hfr k hki
            rw [hd1, hd2, hd3]
            exact h.cntLe k
        slice := by
          intro k c' hc'
          by_cases hki : k = i
          · subst hki
            rw [hssti, hstctx] at hc'
            cases hc'
            rw [hdlv', hpos', hrent, hrbuf]
            have htake : (entriesAt cfg k).take ((s.sstates k).recvd + 1)
                = (entriesAt cfg k).take ((s.sstates k).recvd) ++ [e] := by
              rw [take_succ_getD hltE, ← heE]
            rw [htake, ← hdlv, h.slice k c hc]
            have hheapiff : k ∈ s'.heap ↔ k ∈ s.heap := by rw [hheap']
            by_cases hkm : k ∈ s.heap
            · simp only [if_pos hkm, if_pos (hheapiff.2 hkm)]
              simp
            · simp only [if_neg hkm, if_neg (fun hx => hkm (hheapiff.1 hx))]
              simp
          · rw [hsst k hki] at hc'
            obtain ⟨hd1, _, _, hd4⟩ := hfr k hki
            rw [hd1, hd4]
            have hheapiff : k ∈ s'.heap ↔ k ∈ s.heap := by rw [hheap']
            have hsl := h.slice k c' hc'
            by_cases hkm : k ∈ s.heap
            · simp only [if_pos hkm] at hsl
              simp only [if_pos (hheapiff.2 hkm)]
              exact hsl
            · simp only [if_neg hkm] at hsl
              simp only [if_neg (fun hx => hkm (hheapiff.1 hx))]
              exact hsl
        printedAcc := by
          rw [hpr', h.printedAcc]
          apply Finset.sum_congr rfl
          intro k hk
          by_cases hki : k = i
          · subst hki
            rw [hpos']
          · rw [(hfr k hki).2.2.2]
        pendingInHeap := by
          intro k c' hc' hcp
          by_cases hki : k = i
          · subst hki
            rcases hmemhold with hm | hm
            · exact Or.inl (by rw [hheap']; exact hm)
            · exact Or.inr (by rw [hdr']; exact hHoldsDi hm)
          · rw [hsst k hki] at hc'
            rcases h.pendingInHeap k c' hc' hcp with hm | hm
            · exact Or.inl (by rw [hheap']; exact hm)
            · refine Or.inr ?_
              rw [hdr', hHoldsD]
              by_cases hw : s.driver = .waiting2 i
              · rw [hw] at hm
                unfold Holds holdIdx at hm
                simp at hm
                exact absurd hm.symm hki
              · exact Or.inr ⟨hw, hm⟩
        fullCtx := by
          intro k c' hc' hrec
          by_cases hki : k = i
          · subst hki
            rw [hssti, hstrec] at hrec
            have hx : (s.sstates k).recvd + 1 ≤ lenAt cfg k := hltE
            omega
          · rw [hsst k hki] at hc'
            rw [hsst k hki] at hrec
            rcases h.fullCtx k c' hc' hrec with h1 | h1 | h1
            · exact Or.inl h1
            · exact Or.inr (Or.inl h1)
            · refine Or.inr (Or.inr ⟨h1.1, by rw [hheap']; exact h1.2.1, ?_⟩)
              intro hx
              rw [hdr', hHoldsD] at hx
              rcases hx with ⟨hw, rfl⟩ | ⟨hw, hx⟩
              · exact hki rfl
              · exact h1.2.2 hx
        rejPFails := by
          intro k c' hc2 hrj
          by_cases hki : k = i
          · subst hki
            rw [hssti, hstctx] at hc2
            cases hc2
            have hx := (bufferLogs_rejected _ _ _).1 hrj
            rw [hc1] at hx
            simp at hx
          · rw [hsst k hki] at hc2
            exact h.rejPFails k c' hc2 hrj }
  case h_2 heq =>
    obtain ⟨hge, hnf⟩ := popResult_eof_iff.1 heq
    have hgeL : lenAt cfg i ≤ (s.sstates i).recvd := hge
    have hreceq : (s.sstates i).recvd = lenAt cfg i := by omega
    rw [wakeIf_eq]
    set c1 : Ctx := { c with drained := true, nextEntryPromise := .idle } with hc1
    have hrid : bufferLogs cfg.maxBuf s.numLogEntriesBuffered c1
        = (s.numLogEntriesBuffered, c1) := by
      rcases bufferLogs_cases cfg.maxBuf s.numLogEntriesBuffered c1 with hx | ⟨_, hx, _, _⟩
      · exact hx
      · rw [hc1] at hx
        simp at hx
    rw [hrid]
    set st' : SrcSt := { s.sstates i with
      recvd := (s.sstates i).recvd + 1, ctx := some c1 } with hst'
    set D : Driver := if s.driver = .waiting2 i then Driver.ready2 i else s.driver with hD
    set s' : MState := { s with
      sstates := Function.update s.sstates i st',
      numLogEntriesBuffered := (s.numLogEntriesBuffered, c1).1,
      driver := D } with hs'
    show AInv cfg s'
    have hc1e : c1.entry = c.entry := rfl
    have hc1b : c1.bufferedEntries = c.bufferedEntries := rfl
    have hc1d : c1.drained = true := rfl
    have hc1f : c1.nextEntryPromise = .idle := rfl
    have hssti : s'.sstates i = st' := Function.update_same i st' s.sstates
    have hsst : ∀ k, k ≠ i → s'.sstates k = s.sstates k := by
      intro k hk
      exact Function.update_noteq hk st' s.sstates
    have hstctx : st'.ctx = some c1 := rfl
    have hstrec : st'.recvd = (s.sstates i).recvd + 1 := rfl
    have hstip : st'.initPending = (s.sstates i).initPending := rfl
    have hheap' : s'.heap = s.heap := rfl
    have hctr' : s'.numLogEntriesBuffered = s.numLogEntriesBuffered := rfl
    have hdr' : s'.driver = D := rfl
    have hpr' : s'.printed = s.printed := rfl
    have hfr := fun k (hk : k ≠ i) => posAt_frame cfg s s' k
      (by rw [hsst k hk]) (by rw [hsst k hk]) (by rw [hheap'])
    have hHoldsD : ∀ k, Holds D k ↔ ((s.driver = .waiting2 i ∧ k = i) ∨
        (s.driver ≠ .waiting2 i ∧ Holds s.driver k)) := by
      intro k
      by_cases hw : s.driver = .waiting2 i
      · rw [hD, if_pos hw]
        unfold Holds holdIdx
        simp [hw, eq_comm]
      · rw [hD, if_neg hw]
        simp [hw]
    have hHoldsDi : Holds s.driver i → Holds D i := by
      intro hh
      rw [hHoldsD]
      by_cases hw : s.driver = .waiting2 i
      · exact Or.inl ⟨hw, rfl⟩
      · exact Or.inr ⟨hw, hh⟩
    have hdlv : dlvAt cfg s i = lenAt cfg i := by
      rw [dlvAt_eq]
      omega
    have hdlv' : dlvAt cfg s' i = lenAt cfg i := by
      rw [dlvAt_eq, hssti, hstrec]
      omega
    have hbufeq : bufLenAt s' i = bufLenAt s i := by
      rw [bufLenAt_some (show (s'.sstates i).ctx = some c1 by rw [hssti]), hc1b,
        bufLenAt_some hc]
    have hhold' : holdAt s' i = holdAt s i := by
      unfold holdAt
      rw [hheap']
    have hpos' : posAt cfg s' i = posAt cfg s i := by
      rw [posAt_eq, posAt_eq, hdlv, hdlv', hbufeq, hhold']
    refine
      { oob := by
          intro k hk
          rw [hsst k (by omega)]
          exact h.oob k hk
        heapLt := h.heapLt
        heapCtx := by
          intro k hk
          by_cases hki : k = i
          · subst hki
            rw [hssti, hstctx]
            rfl
          · rw [hsst k hki]
            exact h.heapCtx k hk
        heapNodup := h.heapNodup
        holdsOk := by
          intro k hk
          rw [hdr', hHoldsD] at hk
          rcases hk with ⟨hw, rfl⟩ | ⟨hw, hk⟩
          · obtain ⟨hi1, hi2, _⟩ := h.holdsOk k (by rw [hw]; exact rfl)
            refine ⟨hi1, by rw [hheap']; exact hi2, by rw [hssti, hstctx]; rfl⟩
          · obtain ⟨hi1, hi2, hi3⟩ := h.holdsOk k hk
            refine ⟨hi1, by rw [hheap']; exact hi2, ?_⟩
            by_cases hki : k = i
            · subst hki
              rw [hssti, hstctx]
              rfl
            · rw [hsst k hki]
              exact hi3
        headsSome := by
          intro k c' hc'
          by_cases hki : k = i
          · subst hki
            rw [hssti, hstctx] at hc'
            cases hc'
            rw [hc1e]
            exact h.headsSome k c hc
          · rw [hsst k hki] at hc'
            exact h.headsSome k c' hc'
        fetchNotDrained := by
          intro k c' hc' hne
          by_cases hki : k = i
          · subst hki
            rw [hssti, hstctx] at hc'
            cases hc'
            rw [hc1f] at hne
            simp at hne
          · rw [hsst k hki] at hc'
            exact h.fetchNotDrained k c' hc' hne
        initCtx := by
          intro k hk
          by_cases hki : k = i
          · subst hki
            rw [hssti, hstip] at hk
            exact absurd hk hnip
          · rw [hsst k hki] at hk ⊢
            exact h.initCtx k hk
        initResolved := by
          intro h1 h2 k hkn
          rw [hdr'] at h1 h2
          have hold1 : s.driver ≠ .start := by
            by_cases hw : s.driver = .waiting2 i
            · rw [hw]
              simp
            · rw [hD, if_neg hw] at h1
              exact h1
          have hold2 : s.driver ≠ .rejectedSt := by
            by_cases hw : s.driver = .waiting2 i
            · rw [hw]
              simp
            · rw [hD, if_neg hw] at h2
              exact h2
          by_cases hki : k = i
          · subst hki
            rw [hssti, hstip]
            exact hnip
          · rw [hsst k hki]
            exact h.initResolved hold1 hold2 k hkn
        waiting2Pending := by
          intro k hk
          rw [hdr', hD] at hk
          by_cases hw : s.driver = .waiting2 i
          · rw [if_pos hw] at hk
            cases hk
          · rw [if_neg hw] at hk
            have hki : k ≠ i := by
              intro hx
              subst hx
              exact hw hk
            obtain ⟨c', hc', hcp, hcb⟩ := h.waiting2Pending k hk
            refine ⟨c', by rw [hsst k hki]; exact hc', hcp, hcb⟩
        ready2Inv := by
          intro k hk
          rw [hdr', hD] at hk
          by_cases hw : s.driver = .waiting2 i
          · rw [if_pos hw] at hk
            cases hk
            exact ⟨c1, by rw [hssti, hstctx], Or.inr hc1d⟩
          · rw [if_neg hw] at hk
            by_cases hki : k = i
            · subst hki
              exact ⟨c1, by rw [hssti, hstctx], Or.inr hc1d⟩
            · obtain ⟨c', hc', hcr⟩ := h.ready2Inv k hk
              refine ⟨c', by rw [hsst k hki]; exact hc', hcr⟩
        waiting4Inv := by
          intro k hk
          rw [hdr', hD] at hk
          by_cases hw : s.driver = .waiting2 i
          · rw [if_pos hw] at hk
            cases hk
          · rw [if_neg hw] at hk
            by_cases hki : k = i
            · subst hki
              obtain ⟨c', hc', hci, _⟩ := h.waiting4Inv k hk
              rw [hc] at hc'
              cases hc'
              rw [hp] at hci
              cases hci
            · obtain ⟨c', hc', hx⟩ := h.waiting4Inv k hk
              refine ⟨c', by rw [hsst k hki]; exact hc', hx⟩
        counterEq := by
          rw [hctr']
          have hsum := sum_comp_update_int contrib s.sstates (nOf cfg) i hin st'
          have hL : contrib (s.sstates i) = ctxContrib c := by
            rw [contrib_eq, hc]
          have hR : contrib st' = ctxContrib c1 := by
            rw [contrib_eq, hstctx]
          have hc1c : ctxContrib c1 = ctxContrib c := by
            unfold ctxContrib
            rw [hc1]
            simp [hp, hnd]
          have hss : s'.sstates = Function.update s.sstates i st' := rfl
          rw [hss, hsum, hL, hR, hc1c, ← h.counterEq]
          omega
        counterLe := h.counterLe
        recvdLe := by
          intro k
          by_cases hki : k = i
          · subst hki
            rw [hssti, hstrec]
            unfold lenAt at hreceq ⊢
            omega
          · rw [hsst k hki]
            exact h.recvdLe k
        drainedRecvd := by
          intro k c' hc' hdr
          by_cases hki : k = i
          · subst hki
            rw [hssti, hstctx] at hc'
            cases hc'
            rw [hssti, hstrec]
            refine ⟨by omega, hnf⟩
          · rw [hsst k hki] at hc' ⊢
            exact h.drainedRecvd k c' hc' hdr
        discarded := by
          intro k c' hc' hkh hkhold
          rw [hheap'] at hkh
          by_cases hki : k = i
          · subst hki
            rcases hmemhold with hm | hm
            · exact absurd hm hkh
            · exact absurd (by rw [hdr']; exact hHoldsDi hm) hkhold
          · rw [hsst k hki] at hc' ⊢
            have hnoldk : ¬ Holds s.driver k := by
              intro hx
              apply hkhold
              rw [hdr', hHoldsD]
              by_cases hw : s.driver = .waiting2 i
              · rw [hw] at hx
                unfold Holds holdIdx at hx
                simp at hx
                exact absurd hx.symm hki
              · exact Or.inr ⟨hw, hx⟩
            obtain ⟨hb, hrest⟩ := h.discarded k c' hc' hkh hnoldk
            refine ⟨hb, ?_⟩
            rcases hrest with h1 | h1 | h1
            · exact Or.inl h1
            · exact Or.inr (Or.inl h1)
            · refine Or.inr (Or.inr ?_)
              rw [hdr', hD, if_neg (by rw [h1]; simp), h1]
        ctxNone := by
          intro k hkn hc2 hkp hrej
          by_cases hki : k = i
          · subst hki
            rw [hssti, hstctx] at hc2
            cases hc2
          · rw [hsst k hki] at hc2 hkp ⊢
            have hrejold : s.driver ≠ .rejectedSt := by
              intro hx
              apply hrej
              rw [hdr', hD, if_neg (by rw [hx]; simp)]
              exact hx
            exact h.ctxNone k hkn hc2 hkp hrejold
        doneCnt := by
          have hdc : s'.doneCount = s.doneCount := rfl
          rw [hdc, h.doneCnt, hdr', hD]
          by_cases hw : s.driver = .waiting2 i
          · rw [if_pos hw, hw]
            simp
          · rw [if_neg hw]
        rejFails := by
          intro hx
          rw [hdr', hD] at hx
          by_cases hw : s.driver = .waiting2 i
          · rw [if_pos hw] at hx
            cases hx
          · rw [if_neg hw] at hx
            exact h.rejFails hx
        doneHeap := by
          intro hx
          rw [hdr', hD] at hx
          by_cases hw : s.driver = .waiting2 i
          · rw [if_pos hw] at hx
            cases hx
          · rw [if_neg hw] at hx
            rw [hheap']
            exact h.doneHeap hx
        startPrinted := by
          intro hx
          rw [hdr', hD] at hx
          by_cases hw : s.driver = .waiting2 i
          · rw [if_pos hw] at hx
            cases hx
          · rw [if_neg hw] at hx
            rw [hpr']
            exact h.startPrinted hx
        cntLe := by
          intro k
          by_cases hki : k = i
          · subst hki
            rw [hbufeq, hhold', hdlv']
            have := h.cntLe k
            rw [hdlv] at this
            exact this
          · obtain ⟨hd1, hd2, hd3, _⟩ := hfr k hki
            rw [hd1, hd2, hd3]
            exact h.cntLe k
        slice := by
          intro k c' hc'
          by_cases hki : k = i
          · subst hki
            rw [hssti, hstctx] at hc'
            cases hc'
            rw [hdlv', hpos', hc1e, hc1b, ← hdlv, h.slice k c hc]
          · rw [hsst k hki] at hc'
            obtain ⟨hd1, _, _, hd4⟩ := hfr k hki
            rw [hd1, hd4]
            have hheapiff : k ∈ s'.heap ↔ k ∈ s.heap := by rw [hheap']
            have hsl := h.slice k c' hc'
            by_cases hkm : k ∈ s.heap
            · simp only [if_pos hkm] at hsl
              simp only [if_pos (hheapiff.2 hkm)]
              exact hsl
            · simp only [if_neg hkm] at hsl
              simp only [if_neg (fun hx => hkm (hheapiff.1 hx))]
              exact hsl
        printedAcc := by
          rw [hpr', h.printedAcc]
          apply Finset.sum_congr rfl
          intro k hk
          by_cases hki : k = i
          · subst hki
            rw [hpos']
          · rw [(hfr k hki).2.2.2]
        pendingInHeap := by
          intro k c' hc' hcp
          by_cases hki : k = i
          · subst hki
            rw [hssti, hstctx] at hc'
            cases hc'
            rw [hc1f] at hcp
            cases hcp
          · rw [hsst k hki] at hc'
            rcases h.pendingInHeap k c' hc' hcp with hm | hm
            · exact Or.inl (by rw [hheap']; exact hm)
            · refine Or.inr ?_
              rw [hdr', hHoldsD]
              by_cases hw : s.driver = .waiting2 i
              · rw [hw] at hm
                unfold Holds holdIdx at hm
                simp at hm
                exact absurd hm.symm hki
              · exact Or.inr ⟨hw, hm⟩
        fullCtx := by
          intro k c' hc' hrec
          by_cases hki : k = i
          · subst hki
            rw [hssti, hstctx] at hc'
            cases hc'
            exact Or.inl hc1d
          · rw [hsst k hki] at hc'
            rw [hsst k hki] at hrec
            rcases h.fullCtx k c' hc' hrec with h1 | h1 | h1
            · exact Or.inl h1
            · exact Or.inr (Or.inl h1)
            · refine Or.inr (Or.inr ⟨h1.1, by rw [hheap']; exact h1.2.1, ?_⟩)
              intro hx
              rw [hdr', hHoldsD] at hx
              rcases hx with ⟨hw, rfl⟩ | ⟨hw, hx⟩
              · exact hki rfl
              · exact h1.2.2 hx
        rejPFails := by
          intro k c' hc2 hrj
          by_cases hki : k = i
          · subst hki
            rw [hssti, hstctx] at hc2
            cases hc2
            rw [hc1f] at hrj
            cases hrj
          · rw [hsst k hki] at hc2
            exact h.rejPFails k c' hc2 hrj }
  case h_3 heq =>
    obtain ⟨hge, hf⟩ := popResult_err_iff.1 heq
    have hgeL : lenAt cfg i ≤ (s.sstates i).recvd := hge
    rw [rejectIf_eq]
    set c1 : Ctx := { c with nextEntryPromise := .rejectedP } with hc1
    set st' : SrcSt := { s.sstates i with
      recvd := (s.sstates i).recvd + 1, ctx := some c1 } with hst'
    set D : Driver := if s.driver = .waiting2 i then Driver.rejectedSt else s.driver with hD
    set s' : MState := { s with
      sstates := Function.update s.sstates i st',
      driver := D } with hs'
    show AInv cfg s'
    have hc1e : c1.entry = c.entry := rfl
    have hc1b : c1.bufferedEntries = c.bufferedEntries := rfl
    have hc1d : c1.drained = c.drained := rfl
    have hc1f : c1.nextEntryPromise = .rejectedP := rfl
    have hssti : s'.sstates i = st' := Function.update_same i st' s.sstates
    have hsst : ∀ k, k ≠ i → s'.sstates k = s.sstates k := by
      intro k hk
      exact Function.update_noteq hk st' s.sstates
    have hstctx : st'.ctx = some c1 := rfl
    have hstrec : st'.recvd = (s.sstates i).recvd + 1 := rfl
    have hstip : st'.initPending = (s.sstates i).initPending := rfl
    have hheap' : s'.heap = s.heap := rfl
    have hctr' : s'.numLogEntriesBuffered = s.numLogEntriesBuffered := rfl
    have hdr' : s'.driver = D := rfl
    have hpr' : s'.printed = s.printed := rfl
    have hfr := fun k (hk : k ≠ i) => posAt_frame cfg s s' k
      (by rw [hsst k hk]) (by rw [hsst k hk]) (by rw [hheap'])
    have hHoldsD : ∀ k, Holds D k ↔ (s.driver ≠ .waiting2 i ∧ Holds s.driver k) := by
      intro k
      by_cases hw : s.driver = .waiting2 i
      · rw [hD, if_pos hw]
        unfold Holds holdIdx
        simp [hw]
      · rw [hD, if_neg hw]
        simp [hw]
    have hdlv : dlvAt cfg s i = lenAt cfg i := by
      rw [dlvAt_eq]
      omega
    have hdlv' : dlvAt cfg s' i = lenAt cfg i := by
      rw [dlvAt_eq, hssti, hstrec]
      omega
    have hbufeq : bufLenAt s' i = bufLenAt s i := by
      rw [bufLenAt_some (show (s'.sstates i).ctx = some c1 by rw [hssti]), hc1b,
        bufLenAt_some hc]
    have hhold' : holdAt s' i = holdAt s i := by
      unfold holdAt
      rw [hheap']
    have hpos' : posAt cfg s' i = posAt cfg s i := by
      rw [posAt_eq, posAt_eq, hdlv, hdlv', hbufeq, hhold']
    refine
      { oob := by
          intro k hk
          rw [hsst k (by omega)]
          exact h.oob k hk
        heapLt := h.heapLt
        heapCtx := by
          intro k hk
          by_cases hki : k = i
          · subst hki
            rw [hssti, hstctx]
            rfl
          · rw [hsst k hki]
            exact h.heapCtx k hk
        heapNodup := h.heapNodup
        holdsOk := by
          intro k hk
          rw [hdr', hHoldsD] at hk
          obtain ⟨hw, hk⟩ := hk
          obtain ⟨hi1, hi2, hi3⟩ := h.holdsOk k hk
          refine ⟨hi1, by rw [hheap']; exact hi2, ?_⟩
          by_cases hki : k = i
          · subst hki
            rw [hssti, hstctx]
            rfl
          · rw [hsst k hki]
            exact hi3
        headsSome := by
          intro k c' hc'
          by_cases hki : k = i
          · subst hki
            rw [hssti, hstctx] at hc'
            cases hc'
            rw [hc1e]
            exact h.headsSome k c hc
          · rw [hsst k hki] at hc'
            exact h.headsSome k c' hc'
        fetchNotDrained := by
          intro k c' hc' hne
          by_cases hki : k = i
          · subst hki
            rw [hssti, hstctx] at hc'
            cases hc'
            rw [hc1d]
            exact hnd
          · rw [hsst k hki] at hc'
            exact h.fetchNotDrained k c' hc' hne
        initCtx := by
          intro k hk
          by_cases hki : k = i
          · subst hki
            rw [hssti, hstip] at hk
            exact absurd hk hnip
          · rw [hsst k hki] at hk ⊢
            exact h.initCtx k hk
        initResolved := by
          intro h1 h2 k hkn
          rw [hdr'] at h1 h2
          by_cases hw : s.driver = .waiting2 i
          · rw [hD, if_pos hw] at h2
            exact absurd rfl h2
          · rw [hD, if_neg hw] at h1 h2
            by_cases hki : k = i
            · subst hki
              rw [hssti, hstip]
              exact hnip
            · rw [hsst k hki]
              exact h.initResolved h1 h2 k hkn
        waiting2Pending := by
          intro k hk
          rw [hdr', hD] at hk
          by_cases hw : s.driver = .waiting2 i
          · rw [if_pos hw] at hk
            cases hk
          · rw [if_neg hw] at hk
            have hki : k ≠ i := by
              intro hx
              subst hx
              exact hw hk
            obtain ⟨c', hc', hcp, hcb⟩ := h.waiting2Pending k hk
            refine ⟨c', by rw [hsst k hki]; exact hc', hcp, hcb⟩
        ready2Inv := by
          intro k hk
          rw [hdr', hD] at hk
          by_cases hw : s.driver = .waiting2 i
          · rw [if_pos hw] at hk
            cases hk
          · rw [if_neg hw] at hk
            by_cases hki : k = i
            · subst hki
              obtain ⟨c', hc', hcr⟩ := h.ready2Inv k hk
              rw [hc] at hc'
              cases hc'
              refine ⟨c1, by rw [hssti, hstctx], ?_⟩
              rw [hc1b, hc1d]
              exact hcr
            · obtain ⟨c', hc', hcr⟩ := h.ready2Inv k hk
              refine ⟨c', by rw [hsst k hki]; exact hc', hcr⟩
        waiting4Inv := by
          intro k hk
          rw [hdr', hD] at hk
          by_cases hw : s.driver = .waiting2 i
          · rw [if_pos hw] at hk
            cases hk
          · rw [if_neg hw] at hk
            by_cases hki : k = i
            · subst hki
              obtain ⟨c', hc', hci, _⟩ := h.waiting4Inv k hk
              rw [hc] at hc'
              cases hc'
              rw [hp] at hci
              cases hci
            · obtain ⟨c', hc', hx⟩ := h.waiting4Inv k hk
              refine ⟨c', by rw [hsst k hki]; exact hc', hx⟩
        counterEq := by
          rw [hctr']
          have hsum := sum_comp_update_int contrib s.sstates (nOf cfg) i hin st'
          have hL : contrib (s.sstates i) = ctxContrib c := by
            rw [contrib_eq, hc]
          have hR : contrib st' = ctxContrib c1 := by
            rw [contrib_eq, hstctx]
          have hc1c : ctxContrib c1 = ctxContrib c := by
            unfold ctxContrib
            rw [hc1]
            simp [hp]
          have hss : s'.sstates = Function.update s.sstates i st' := rfl
          rw [hss, hsum, hL, hR, hc1c, ← h.counterEq]
          omega
        counterLe := h.counterLe
        recvdLe := by
          intro k
          by_cases hki : k = i
          · subst hki
            rw [hssti, hstrec]
            unfold lenAt at hrecle hgeL ⊢
            omega
          · rw [hsst k hki]
            exact h.recvdLe k
        drainedRecvd := by
          intro k c' hc' hdr
          by_cases hki : k = i
          · subst hki
            rw [hssti, hstctx] at hc'
            cases hc'
            rw [hc1d] at hdr
            rw [hnd] at hdr
            cases hdr
          · rw [hsst k hki] at hc' ⊢
            exact h.drainedRecvd k c' hc' hdr
        discarded := by
          intro k c' hc' hkh hkhold
          rw [hheap'] at hkh
          by_cases hw : s.driver = .waiting2 i
          · have hDrej : s'.driver = .rejectedSt := by
              rw [hdr', hD, if_pos hw]
            by_cases hki : k = i
            · subst hki
              rw [hssti, hstctx] at hc'
              cases hc'
              obtain ⟨c2, hc2, _, hcb⟩ := h.waiting2Pending k hw
              rw [hc] at hc2
              cases hc2
              rw [hc1b]
              exact ⟨hcb, Or.inr (Or.inr hDrej)⟩
            · rw [hsst k hki] at hc'
              have hnoldk : ¬ Holds s.driver k := by
                rw [hw]
                unfold Holds holdIdx
                simp
                exact fun hx => absurd hx.symm hki
              obtain ⟨hb, _⟩ := h.discarded k c' hc' hkh hnoldk
              exact ⟨hb, Or.inr (Or.inr hDrej)⟩
          · by_cases hki : k = i
            · subst hki
              rcases hmemhold with hm | hm
              · exact absurd hm hkh
              · refine absurd ?_ hkhold
                rw [hdr', hHoldsD]
                exact ⟨hw, hm⟩
            · rw [hsst k hki] at hc' ⊢
              have hnoldk : ¬ Holds s.driver k := by
                intro hx
                apply hkhold
                rw [hdr', hHoldsD]
                exact ⟨hw, hx⟩
              obtain ⟨hb, hrest⟩ := h.discarded k c' hc' hkh hnoldk
              refine ⟨hb, ?_⟩
              rcases hrest with h1 | h1 | h1
              · exact Or.inl h1
              · exact Or.inr (Or.inl h1)
              · refine Or.inr (Or.inr ?_)
                rw [hdr', hD, if_neg hw, h1]
        ctxNone := by
          intro k hkn hc2 hkp hrej
          by_cases hw : s.driver = .waiting2 i
          · refine absurd ?_ hrej
            rw [hdr', hD, if_pos hw]
          · by_cases hki : k = i
            · subst hki
              rw [hssti, hstctx] at hc2
              cases hc2
            · rw [hsst k hki] at hc2 hkp ⊢
              have hrejold : s.driver ≠ .rejectedSt := by
                intro hx
                apply hrej
                rw [hdr', hD, if_neg hw]
                exact hx
              exact h.ctxNone k hkn hc2 hkp hrejold
        doneCnt := by
          have hdc : s'.doneCount = s.doneCount := rfl
          rw [hdc, h.doneCnt, hdr', hD]
          by_cases hw : s.driver = .waiting2 i
          · rw [if_pos hw, hw]
            simp
          · rw [if_neg hw]
        rejFails := by
          intro hx
          rw [hdr', hD] at hx
          by_cases hw : s.driver = .waiting2 i
          · exact ⟨i, hin, hf⟩
          · rw [if_neg hw] at hx
            exact h.rejFails hx
        doneHeap := by
          intro hx
          rw [hdr', hD] at hx
          by_cases hw : s.driver = .waiting2 i
          · rw [if_pos hw] at hx
            cases hx
          · rw [if_neg hw] at hx
            rw [hheap']
            exact h.doneHeap hx
        startPrinted := by
          intro hx
          rw [hdr', hD] at hx
          by_cases hw : s.driver = .waiting2 i
          · rw [if_pos hw] at hx
            cases hx
          · rw [if_neg hw] at hx
            rw [hpr']
            exact h.startPrinted hx
        cntLe := by
          intro k
          by_cases hki : k = i
          · subst hki
            rw [hbufeq, hhold', hdlv']
            have := h.cntLe k
            rw [hdlv] at this
            exact this
          · obtain ⟨hd1, hd2, hd3, _⟩ := hfr k hki
            rw [hd1, hd2, hd3]
            exact h.cntLe k
        slice := by
          intro k c' hc'
          by_cases hki : k = i
          · subst hki
            rw [hssti, hstctx] at hc'
            cases hc'
            rw [hdlv', hpos', hc1e, hc1b, ← hdlv, h.slice k c hc]
          · rw [hsst k hki] at hc'
            obtain ⟨hd1, _, _, hd4⟩ := hfr k hki
            rw [hd1, hd4]
            have hheapiff : k ∈ s'.heap ↔ k ∈ s.heap := by rw [hheap']
            have hsl := h.slice k c' hc'
            by_cases hkm : k ∈ s.heap
            · simp only [if_pos hkm] at hsl
              simp only [if_pos (hheapiff.2 hkm)]
              exact hsl
            · simp only [if_neg hkm] at hsl
              simp only [if_neg (fun hx => hkm (hheapiff.1 hx))]
              exact hsl
        printedAcc := by
          rw [hpr', h.printedAcc]
          apply Finset.sum_congr rfl
          intro k hk
          by_cases hki : k = i
          · subst hki
            rw [hpos']
          · rw [(hfr k hki).2.2.2]
        pendingInHeap := by
          intro k c' hc' hcp
          by_cases hki : k = i
          · subst hki
            rw [hssti, hstctx] at hc'
            cases hc'
            rw [hc1f] at hcp
            cases hcp
          · rw [hsst k hki] at hc'
            rcases h.pendingInHeap k c' hc' hcp with hm | hm
            · exact Or.inl (by rw [hheap']; exact hm)
            · by_cases hw : s.driver = .waiting2 i
              · rw [hw] at hm
                unfold Holds holdIdx at hm
                simp at hm
                exact absurd hm.symm hki
              · refine Or.inr ?_
                rw [hdr', hHoldsD]
                exact ⟨hw, hm⟩
        fullCtx := by
          intro k c' hc' hrec
          by_cases hki : k = i
          · subst hki
            rw [hssti, hstctx] at hc'
            cases hc'
            exact Or.inr (Or.inl hc1f)
          · rw [hsst k hki] at hc'
            rw [hsst k hki] at hrec
            rcases h.fullCtx k c' hc' hrec with h1 | h1 | h1
            · exact Or.inl h1
            · exact Or.inr (Or.inl h1)
            · refine Or.inr (Or.inr ⟨h1.1, by rw [hheap']; exact h1.2.1, ?_⟩)
              intro hx
              rw [hdr', hHoldsD] at hx
              exact h1.2.2 hx.2
        rejPFails := by
          intro k c' hc2 hrj
          by_cases hki : k = i
          · subst hki
            exact hf
          · rw [hsst k hki] at hc2
            exact h.rejPFails k c' hc2 hrj }

theorem inv_stepC4 (cfg : Config) (s : MState) (i : Nat) (h : AInv cfg s) :
    AInv cfg (stepC4 cfg s i) := by
  unfold stepC4
  split
  case isFalse => exact h
  case isTrue hw4 =>
  split
  case h_2 => exact h
  case h_1 c hc =>
  obtain ⟨hin, hihp, hictx⟩ := h.holdsOk i (by rw [hw4]; exact rfl)
  obtain ⟨c2, hc2, hcidle, hcbuf, hcnd⟩ := h.waiting4Inv i hw4
  rw [hc] at hc2
  cases hc2
  have hnip : ¬(s.sstates i).initPending := by
    intro hip
    obtain ⟨hcn, _⟩ := h.initCtx i hip
    rw [hc] at hcn
    cases hcn
  have hrecle : (s.sstates i).recvd ≤ lenAt cfg i := by
    by_contra hgt
    rcases h.fullCtx i c hc (by omega) with h1 | h1 | h1
    · rw [h1] at hcnd
      cases hcnd
    · rw [hcidle] at h1
      cases h1
    · exact h1.2.2 (by rw [hw4]; exact rfl)
  have hnoldr : ∀ k, ¬ Holds Driver.running k := by
    intro k hk
    simp [Holds, holdIdx] at hk
  have hnoldrej : ∀ k, ¬ Holds Driver.rejectedSt k := by
    intro k hk
    simp [Holds, holdIdx] at hk
  have holdk : ∀ k, Holds s.driver k → k = i := by
    intro k hk
    rw [hw4] at hk
    unfold Holds holdIdx at hk
    simpa [eq_comm] using hk
  have hw4ne : (Driver.waiting4 i ≠ Driver.start) ∧ (Driver.waiting4 i ≠ Driver.rejectedSt)
      ∧ (Driver.waiting4 i ≠ Driver.doneSt) := ⟨by simp, by simp, by simp⟩
  have hbufo : bufLenAt s i = 0 := by
    rw [bufLenAt_some hc, hcbuf]
    rfl
  have hholdo : holdAt s i = 0 := holdAt_neg hihp
  have hdlvo : dlvAt cfg s i = (s.sstates i).recvd := by
    rw [dlvAt_eq]
    omega
  have hposo : posAt cfg s i = (s.sstates i).recvd := by
    rw [posAt_eq, hdlvo, hbufo, hholdo]
    omega
  split
  case h_1 e heq =>
    obtain ⟨hlt, he⟩ := popResult_ok_iff.1 heq
    have hltE : (s.sstates i).recvd < (entriesAt cfg i).length := hlt
    have heE : e = (entriesAt cfg i).getD ((s.sstates i).recvd) dummyE := by
      rw [List.getD_eq_getElem?_getD, List.getElem?_eq_getElem hltE]
      exact he
    set c1 : Ctx := { c with entry := some e } with hc1
    set r := bufferLogs cfg.maxBuf s.numLogEntriesBuffered c1 with hr
    set st' : SrcSt := { s.sstates i with
      recvd := (s.sstates i).recvd + 1, ctx := some r.2 } with hst'
    set s' : MState := { s with
      sstates := Function.update s.sstates i st',
      numLogEntriesBuffered := r.1,
      heap := s.heap ++ [i],
      driver := .running } with hs'
    show AInv cfg s'
    have hrent : r.2.entry = some e := bufferLogs_entry _ _ _
    have hrbuf : r.2.bufferedEntries = [] := by
      rw [bufferLogs_buf]
      exact hcbuf
    have hrdr : r.2.drained = false := by
      rw [bufferLogs_drained]
      exact hcnd
    have hssti : s'.sstates i = st' := Function.update_same i st' s.sstates
    have hsst : ∀ k, k ≠ i → s'.sstates k = s.sstates k := by
      intro k hk
      exact Function.update_noteq hk st' s.sstates
    have hstctx : st'.ctx = some r.2 := rfl
    have hstrec : st'.recvd = (s.sstates i).recvd + 1 := rfl
    have hstip : st'.initPending = (s.sstates i).initPending := rfl
    have hheap' : s'.heap = s.heap ++ [i] := rfl
    have hdr' : s'.driver = .running := rfl
    have hpr' : s'.printed = s.printed := rfl
    have hmem' : ∀ k, k ≠ i → (k ∈ s'.heap ↔ k ∈ s.heap) := by
      intro k hk
      rw [hheap']
      exact mem_append_ne hk
    have himem : i ∈ s'.heap := by
      rw [hheap']
      exact List.mem_append.2 (Or.inr (by simp))
    have hfr := fun k (hk : k ≠ i) => posAt_frame cfg s s' k
      (by rw [hsst k hk]) (by rw [hsst k hk]) (hmem' k hk)
    have hdlv' : dlvAt cfg s' i = (s.sstates i).recvd + 1 := by
      rw [dlvAt_eq, hssti, hstrec]
      have hx : (s.sstates i).recvd + 1 ≤ lenAt cfg i := hltE
      omega
    have hbuf' : bufLenAt s' i = 0 := by
      rw [bufLenAt_some (show (s'.sstates i).ctx = some r.2 by rw [hssti]), hrbuf]
      rfl
    have hpos' : posAt cfg s' i = (s.sstates i).recvd := by
      rw [posAt_eq, hdlv', hbuf', holdAt_pos himem]
      omega
    refine
      { oob := by
          intro k hk
          rw [hsst k (by omega)]
          exact h.oob k hk
        heapLt := by
          intro k hk
          rw [hheap'] at hk
          rcases List.mem_append.1 hk with hk | hk
          · exact h.heapLt k hk
          · simp at hk
            omega
        heapCtx := by
          intro k hk
          by_cases hki : k = i
          · subst hki
            rw [hssti, hstctx]
            rfl
          · rw [hsst k hki]
            rw [hheap'] at hk
            rcases List.mem_append.1 hk with hk | hk
            · exact h.heapCtx k hk
            · simp at hk
              exact absurd hk hki
        heapNodup := by
          rw [hheap', List.nodup_append]
          exact ⟨h.heapNodup, List.nodup_singleton i, by simpa using fun hm => hihp hm⟩
        holdsOk := by
          intro k hk
          rw [hdr'] at hk
          exact absurd hk (hnoldr k)
        headsSome := by
          intro k c' hc'
          by_cases hki : k = i
          · subst hki
            rw [hssti, hstctx] at hc'
            cases hc'
            rw [hrent]
            rfl
          · rw [hsst k hki] at hc'
            exact h.headsSome k c' hc'
        fetchNotDrained := by
          intro k c' hc' hne
          by_cases hki : k = i
          · subst hki
            rw [hssti, hstctx] at hc'
            cases hc'
            exact hrdr
          · rw [hsst k hki] at hc'
            exact h.fetchNotDrained k c' hc' hne
        initCtx := by
          intro k hk
          by_cases hki : k = i
          · subst hki
            rw [hssti, hstip] at hk
            exact absurd hk hnip
          · rw [hsst k hki] at hk ⊢
            exact h.initCtx k hk
        initResolved := by
          intro h1 h2 k hkn
          by_cases hki : k = i
          · subst hki
            rw [hssti, hstip]
            exact hnip
          · rw [hsst k hki]
            exact h.initResolved (by rw [hw4]; simp) (by rw [hw4]; simp) k hkn
        waiting2Pending := by
          intro k hk
          rw [hdr'] at hk
          cases hk
        ready2Inv := by
          intro k hk
          rw [hdr'] at hk
          cases hk
        waiting4Inv := by
          intro k hk
          rw [hdr'] at hk
          cases hk
        counterEq := by
          have hctr' : s'.numLogEntriesBuffered = r.1 := rfl
          rw [hctr']
          have hsum := sum_comp_update_int contrib s.sstates (nOf cfg) i hin st'
          have hbc := bufferLogs_counter cfg.maxBuf s.numLogEntriesBuffered c1
          rw [← hr] at hbc
          have hL : contrib (s.sstates i) = ctxContrib c := by
            rw [contrib_eq, hc]
          have hR : contrib st' = ctxContrib r.2 := by
            rw [contrib_eq, hstctx]
          have hc1c : ctxContrib c1 = ctxContrib c := by
            unfold ctxContrib
            rw [hc1]
          have hss : s'.sstates = Function.update s.sstates i st' := rfl
          rw [hss, hsum, hL, hR, ← h.counterEq]
          omega
        counterLe := by
          have hctr' : s'.numLogEntriesBuffered = r.1 := rfl
          rw [hctr', hr]
          exact bufferLogs_fst_le cfg.maxBuf s.numLogEntriesBuffered _ h.counterLe
        recvdLe := by
          intro k
          by_cases hki : k = i
          · subst hki
            rw [hssti, hstrec]
            unfold lenAt at hrecle ⊢
            omega
          · rw [hsst k hki]
            exact h.recvdLe k
        drainedRecvd := by
          intro k c' hc' hdr
          by_cases hki : k = i
          · subst hki
            rw [hssti, hstctx] at hc'
            cases hc'
            rw [hrdr] at hdr
            cases hdr
          · rw [hsst k hki] at hc' ⊢
            exact h.drainedRecvd k c' hc' hdr
        discarded := by
          intro k c' hc' hkh hkhold
          by_cases hki : k = i
          · subst hki
            exact absurd himem hkh
          · rw [hsst k hki] at hc' ⊢
            have hkh2 : k ∉ s.heap := fun hm => hkh ((hmem' k hki).2 hm)
            have hnoldk : ¬ Holds s.driver k := fun hx => hki (holdk k hx)
            obtain ⟨hb, hrest⟩ := h.discarded k c' hc' hkh2 hnoldk
            refine ⟨hb, ?_⟩
            rcases hrest with h1 | h1 | h1
            · exact Or.inl h1
            · exact Or.inr (Or.inl h1)
            · rw [hw4] at h1
              cases h1
        ctxNone := by
          intro k hkn hc2 hkp hrej
          by_cases hki : k = i
          · subst hki
            rw [hssti, hstctx] at hc2
            cases hc2
          · rw [hsst k hki] at hc2 hkp ⊢
            exact h.ctxNone k hkn hc2 hkp (by rw [hw4]; simp)
        doneCnt := by
          have hdc : s'.doneCount = s.doneCount := rfl
          rw [hdc, h.doneCnt, hdr', hw4]
          simp
        rejFails := by
          intro hx
          rw [hdr'] at hx
          cases hx
        doneHeap := by
          intro hx
          rw [hdr'] at hx
          cases hx
        startPrinted := by
          intro hx
          rw [hdr'] at hx
          cases hx
        cntLe := by
          intro k
          by_cases hki : k = i
          · subst hki
            rw [hbuf', holdAt_pos himem, hdlv']
            omega
          · obtain ⟨hd1, hd2, hd3, _⟩ := hfr k hki
            rw [hd1, hd2, hd3]
            exact h.cntLe k
        slice := by
          intro k c' hc'
          by_cases hki : k = i
          · subst hki
            rw [hssti, hstctx] at hc'
            cases hc'
            rw [hdlv', hpos', if_pos himem, hrent, hrbuf]
            rw [take_succ_getD hltE, ← heE]
            simp
          · rw [hsst k hki] at hc'
            obtain ⟨hd1, _, _, hd4⟩ := hfr k hki
            rw [hd1, hd4]
            have hsl := h.slice k c' hc'
            by_cases hkm : k ∈ s.heap
            · simp only [if_pos hkm] at hsl
              simp only [if_pos ((hmem' k hki).2 hkm)]
              exact hsl
            · simp only [if_neg hkm] at hsl
              simp only [if_neg (fun hx => hkm ((hmem' k hki).1 hx))]
              exact hsl
        printedAcc := by
          rw [hpr', h.printedAcc]
          apply Finset.sum_congr rfl
          intro k hk
          by_cases hki : k = i
          · subst hki
            rw [hpos', hposo]
          · rw [(hfr k hki).2.2.2]
        pendingInHeap := by
          intro k c' hc' hcp
          by_cases hki : k = i
          · subst hki
            exact Or.inl himem
          · rw [hsst k hki] at hc'
            rcases h.pendingInHeap k c' hc' hcp with hm | hm
            · exact Or.inl ((hmem' k hki).2 hm)
            · exact absurd hki (by rw [holdk k hm]; exact fun hx => hx rfl)
        fullCtx := by
          intro k c' hc' hrec
          by_cases hki : k = i
          · subst hki
            rw [hssti, hstrec] at hrec
            have hx : (s.sstates k).recvd + 1 ≤ lenAt cfg k := hltE
            omega
          · rw [hsst k hki] at hc'
            rw [hsst k hki] at hrec
            rcases h.fullCtx k c' hc' hrec with h1 | h1 | h1
            · exact Or.inl h1
            · exact Or.inr (Or.inl h1)
            · refine Or.inr (Or.inr ⟨h1.1, fun hx => h1.2.1 ((hmem' k hki).1 hx), ?_⟩)
              rw [hdr']
              exact hnoldr k
        rejPFails := by
          intro k c' hc2 hrj
          by_cases hki : k = i
          · subst hki
            rw [hssti, hstctx] at hc2
            cases hc2
            have hx := (bufferLogs_rejected _ _ _).1 hrj
            rw [hc1] at hx
            have hx2 : c.nextEntryPromise = FStat.rejectedP := hx
            rw [hcidle] at hx2
            cases hx2
          · rw [hsst k hki] at hc2
            exact h.rejPFails k c' hc2 hrj }
  case h_2 heq =>
    obtain ⟨hge, hnf⟩ := popResult_eof_iff.1 heq
    have hgeL : lenAt cfg i ≤ (s.sstates i).recvd := hge
    have hreceq : (s.sstates i).recvd = lenAt cfg i := by omega
    set st' : SrcSt := { s.sstates i with recvd := (s.sstates i).recvd + 1 } with hst'
    set s' : MState := { s with
      sstates := Function.update s.sstates i st',
      driver := .running } with hs'
    show AInv cfg s'
    have hssti : s'.sstates i = st' := Function.update_same i st' s.sstates
    have hsst : ∀ k, k ≠ i → s'.sstates k = s.sstates k := by
      intro k hk
      exact Function.update_noteq hk st' s.sstates
    have hstctx : st'.ctx = some c := by
      show (s.sstates i).ctx = some c
      exact hc
    have hstrec : st'.recvd = (s.sstates i).recvd + 1 := rfl
    have hstip : st'.initPending = (s.sstates i).initPending := rfl
    have hheap' : s'.heap = s.heap := rfl
    have hdr' : s'.driver = .running := rfl
    have hpr' : s'.printed = s.printed := rfl
    have hfr := fun k (hk : k ≠ i) => posAt_frame cfg s s' k
      (by rw [hsst k hk]) (by rw [hsst k hk]) (by rw [hheap'])
    have hdlv' : dlvAt cfg s' i = dlvAt cfg s i := by
      rw [dlvAt_eq, dlvAt_eq, hssti, hstrec]
      omega
    have hbufeq : bufLenAt s' i = bufLenAt s i := by
      rw [bufLenAt_some (show (s'.sstates i).ctx = some c by rw [hssti, hstctx]),
        bufLenAt_some hc]
    have hhold' : holdAt s' i = holdAt s i := by
      unfold holdAt
      rw [hheap']
    have hpos' : posAt cfg s' i = posAt cfg s i := by
      rw [posAt_eq, posAt_eq, hdlv', hbufeq, hhold']
    refine
      { oob := by
          intro k hk
          rw [hsst k (by omega)]
          exact h.oob k hk
        heapLt := h.heapLt
        heapCtx := by
          intro k hk
          by_cases hki : k = i
          · subst hki
            rw [hssti, hstctx]
            rfl
          · rw [hsst k hki]
            exact h.heapCtx k hk
        heapNodup := h.heapNodup
        holdsOk := by
          intro k hk
          rw [hdr'] at hk
          exact absurd hk (hnoldr k)
        headsSome := by
          intro k c' hc'
          by_cases hki : k = i
          · subst hki
            rw [hssti, hstctx] at hc'
            cases hc'
            exact h.headsSome k c hc
          · rw [hsst k hki] at hc'
            exact h.headsSome k c' hc'
        fetchNotDrained := by
          intro k c' hc' hne
          by_cases hki : k = i
          · subst hki
            rw [hssti, hstctx] at hc'
            cases hc'
            rw [hcidle] at hne
            simp at hne
          · rw [hsst k hki] at hc'
            exact h.fetchNotDrained k c' hc' hne
        initCtx := by
          intro k hk
          by_cases hki : k = i
          · subst hki
            rw [hssti, hstip] at hk
            exact absurd hk hnip
          · rw [hsst k hki] at hk ⊢
            exact h.initCtx k hk
        initResolved := by
          intro h1 h2 k hkn
          by_cases hki : k = i
          · subst hki
            rw [hssti, hstip]
            exact hnip
          · rw [hsst k hki]
            exact h.initResolved (by rw [hw4]; simp) (by rw [hw4]; simp) k hkn
        waiting2Pending := by
          intro k hk
          rw [hdr'] at hk
          cases hk
        ready2Inv := by
          intro k hk
          rw [hdr'] at hk
          cases hk
        waiting4Inv := by
          intro k hk
          rw [hdr'] at hk
          cases hk
        counterEq := by
          have hctr' : s'.numLogEntriesBuffered = s.numLogEntriesBuffered := rfl
          rw [hctr']
          have hsum := sum_comp_update_int contrib s.sstates (nOf cfg) i hin st'
          have hL : contrib (s.sstates i) = ctxContrib c := by
            rw [contrib_eq, hc]
          have hR : contrib st' = ctxContrib c := by
            rw [contrib_eq, hstctx]
          have hss : s'.sstates = Function.update s.sstates i st' := rfl
          rw [hss, hsum, hL, hR, ← h.counterEq]
          omega
        counterLe := h.counterLe
        recvdLe := by
          intro k
          by_cases hki : k = i
          · subst hki
            rw [hssti, hstrec]
            unfold lenAt at hreceq ⊢
            omega
          · rw [hsst k hki]
            exact h.recvdLe k
        drainedRecvd := by
          intro k c' hc' hdr
          by_cases hki : k = i
          · subst hki
            rw [hssti, hstctx] at hc'
            cases hc'
            rw [hcnd] at hdr
            cases hdr
          · rw [hsst k hki] at hc' ⊢
            exact h.drainedRecvd k c' hc' hdr
        discarded := by
          intro k c' hc' hkh hkhold
          by_cases hki : k = i
          · subst hki
            rw [hssti, hstctx] at hc'
            cases hc'
            rw [hssti, hstrec]
            refine ⟨hcbuf, Or.inr (Or.inl ⟨by omega, hnf⟩)⟩
          · rw [hsst k hki] at hc' ⊢
            have hnoldk : ¬ Holds s.driver k := fun hx => hki (holdk k hx)
            obtain ⟨hb, hrest⟩ := h.discarded k c' hc' hkh hnoldk
            refine ⟨hb, ?_⟩
            rcases hrest with h1 | h1 | h1
            · exact Or.inl h1
            · exact Or.inr (Or.inl h1)
            · rw [hw4] at h1
              cases h1
        ctxNone := by
          intro k hkn hc2 hkp hrej
          by_cases hki : k = i
          · subst hki
            rw [hssti, hstctx] at hc2
            cases hc2
          · rw [hsst k hki] at hc2 hkp ⊢
            exact h.ctxNone k hkn hc2 hkp (by rw [hw4]; simp)
        doneCnt := by
          have hdc : s'.doneCount = s.doneCount := rfl
          rw [hdc, h.doneCnt, hdr', hw4]
          simp
        rejFails := by
          intro hx
          rw [hdr'] at hx
          cases hx
        doneHeap := by
          intro hx
          rw [hdr'] at hx
          cases hx
        startPrinted := by
          intro hx
          rw [hdr'] at hx
          cases hx
        cntLe := by
          intro k
          by_cases hki : k = i
          · subst hki
            rw [hbufeq, hhold', hdlv']
            exact h.cntLe k
          · obtain ⟨hd1, hd2, hd3, _⟩ := hfr k hki
            rw [hd1, hd2, hd3]
            exact h.cntLe k
        slice := by
          intro k c' hc'
          by_cases hki : k = i
          · subst hki
            rw [hssti, hstctx] at hc'
            cases hc'
            rw [hdlv', hpos', h.slice k c hc]
          · rw [hsst k hki] at hc'
            obtain ⟨hd1, _, _, hd4⟩ := hfr k hki
            rw [hd1, hd4]
            have hsl := h.slice k c' hc'
            have hheapiff : k ∈ s'.heap ↔ k ∈ s.heap := by rw [hheap']
            by_cases hkm : k ∈ s.heap
            · simp only [if_pos hkm] at hsl
              simp only [if_pos (hheapiff.2 hkm)]
              exact hsl
            · simp only [if_neg hkm] at hsl
              simp only [if_neg (fun hx => hkm (hheapiff.1 hx))]
              exact hsl
        printedAcc := by
          rw [hpr', h.printedAcc]
          apply Finset.sum_congr rfl
          intro k hk
          by_cases hki : k = i
          · subst hki
            rw [hpos']
          · rw [(hfr k hki).2.2.2]
        pendingInHeap := by
          intro k c' hc' hcp
          by_cases hki : k = i
          · subst hki
            rw [hssti, hstctx] at hc'
            cases hc'
            rw [hcidle] at hcp
            cases hcp
          · rw [hsst k hki] at hc'
            rcases h.pendingInHeap k c' hc' hcp with hm | hm
            · exact Or.inl (by rw [hheap']; exact hm)
            · exact absurd (holdk k hm) hki
        fullCtx := by
          intro k c' hc' hrec
          by_cases hki : k = i
          · subst hki
            rw [hssti, hstctx] at hc'
            cases hc'
            refine Or.inr (Or.inr ⟨hcidle, by rw [hheap']; exact hihp, ?_⟩)
            rw [hdr']
            exact hnoldr k
          · rw [hsst k hki] at hc'
            rw [hsst k hki] at hrec
            rcases h.fullCtx k c' hc' hrec with h1 | h1 | h1
            · exact Or.inl h1
            · exact Or.inr (Or.inl h1)
            · refine Or.inr (Or.inr ⟨h1.1, by rw [hheap']; exact h1.2.1, ?_⟩)
              rw [hdr']
              exact hnoldr k
        rejPFails := by
          intro k c' hc2 hrj
          by_cases hki : k = i
          · subst hki
            rw [hssti, hstctx] at hc2
            cases hc2
            rw [hcidle] at hrj
            cases hrj
          · rw [hsst k hki] at hc2
            exact h.rejPFails k c' hc2 hrj }
  case h_3 heq =>
    obtain ⟨hge, hf⟩ := popResult_err_iff.1 heq
    have hgeL : lenAt cfg i ≤ (s.sstates i).recvd := hge
    set st' : SrcSt := { s.sstates i with recvd := (s.sstates i).recvd + 1 } with hst'
    set s' : MState := { s with
      sstates := Function.update s.sstates i st',
      driver := .rejectedSt } with hs'
    show AInv cfg s'
    have hssti : s'.sstates i = st' := Function.update_same i st' s.sstates
    have hsst : ∀ k, k ≠ i → s'.sstates k = s.sstates k := by
      intro k hk
      exact Function.update_noteq hk st' s.sstates
    have hstctx : st'.ctx = some c := by
      show (s.sstates i).ctx = some c
      exact hc
    have hstrec : st'.recvd = (s.sstates i).recvd + 1 := rfl
    have hstip : st'.initPending = (s.sstates i).initPending := rfl
    have hheap' : s'.heap = s.heap := rfl
    have hdr' : s'.driver = .rejectedSt := rfl
    have hpr' : s'.printed = s.printed := rfl
    have hfr := fun k (hk : k ≠ i) => posAt_frame cfg s s' k
      (by rw [hsst k hk]) (by rw [hsst k hk]) (by rw [hheap'])
    have hdlv' : dlvAt cfg s' i = dlvAt cfg s i := by
      rw [dlvAt_eq, dlvAt_eq, hssti, hstrec]
      omega
    have hbufeq : bufLenAt s' i = bufLenAt s i := by
      rw [bufLenAt_some (show (s'.sstates i).ctx = some c by rw [hssti, hstctx]),
        bufLenAt_some hc]
    have hhold' : holdAt s' i = holdAt s i := by
      unfold holdAt
      rw [hheap']
    have hpos' : posAt cfg s' i = posAt cfg s i := by
      rw [posAt_eq, posAt_eq, hdlv', hbufeq, hhold']
    refine
      { oob := by
          intro k hk
          rw [hsst k (by omega)]
          exact h.oob k hk
        heapLt := h.heapLt
        heapCtx := by
          intro k hk
          by_cases hki : k = i
          · subst hki
            rw [hssti, hstctx]
            rfl
          · rw [hsst k hki]
            exact h.heapCtx k hk
        heapNodup := h.heapNodup
        holdsOk := by
          intro k hk
          rw [hdr'] at hk
          exact absurd hk (hnoldrej k)
        headsSome := by
          intro k c' hc'
          by_cases hki : k = i
          · subst hki
            rw [hssti, hstctx] at hc'
            cases hc'
            exact h.headsSome k c hc
          · rw [hsst k hki] at hc'
            exact h.headsSome k c' hc'
        fetchNotDrained := by
          intro k c' hc' hne
          by_cases hki : k = i
          · subst hki
            rw [hssti, hstctx] at hc'
            cases hc'
            rw [hcidle] at hne
            simp at hne
          · rw [hsst k hki] at hc'
            exact h.fetchNotDrained k c' hc' hne
        initCtx := by
          intro k hk
          by_cases hki : k = i
          · subst hki
            rw [hssti, hstip] at hk
            exact absurd hk hnip
          · rw [hsst k hki] at hk ⊢
            exact h.initCtx k hk
        initResolved := by
          intro h1 h2 k hkn
          exact absurd hdr' h2
        waiting2Pending := by
          intro k hk
          rw [hdr'] at hk
          cases hk
        ready2Inv := by
          intro k hk
          rw [hdr'] at hk
          cases hk
        waiting4Inv := by
          intro k hk
          rw [hdr'] at hk
          cases hk
        counterEq := by
          have hctr' : s'.numLogEntriesBuffered = s.numLogEntriesBuffered := rfl
          rw [hctr']
          have hsum := sum_comp_update_int contrib s.sstates (nOf cfg) i hin st'
          have hL : contrib (s.sstates i) = ctxContrib c := by
            rw [contrib_eq, hc]
          have hR : contrib st' = ctxContrib c := by
            rw [contrib_eq, hstctx]
          have hss : s'.sstates = Function.update s.sstates i st' := rfl
          rw [hss, hsum, hL, hR, ← h.counterEq]
          omega
        counterLe := h.counterLe
        recvdLe := by
          intro k
          by_cases hki : k = i
          · subst hki
            rw [hssti, hstrec]
            unfold lenAt at hrecle hgeL ⊢
            omega
          · rw [hsst k hki]
            exact h.recvdLe k
        drainedRecvd := by
          intro k c' hc' hdr
          by_cases hki : k = i
          · subst hki
            rw [hssti, hstctx] at hc'
            cases hc'
            rw [hcnd] at hdr
            cases hdr
          · rw [hsst k hki] at hc' ⊢
            exact h.drainedRecvd k c' hc' hdr
        discarded := by
          intro k c' hc' hkh hkhold
          by_cases hki : k = i
          · subst hki
            rw [hssti, hstctx] at hc'
            cases hc'
            exact ⟨hcbuf, Or.inr (Or.inr hdr')⟩
          · rw [hsst k hki] at hc' ⊢
            have hnoldk : ¬ Holds s.driver k := fun hx => hki (holdk k hx)
            obtain ⟨hb, hrest⟩ := h.discarded k c' hc' hkh hnoldk
            exact ⟨hb, Or.inr (Or.inr hdr')⟩
        ctxNone := by
          intro k hkn hc2 hkp hrej
          exact absurd hdr' hrej
        doneCnt := by
          have hdc : s'.doneCount = s.doneCount := rfl
          rw [hdc, h.doneCnt, hdr', hw4]
          simp
        rejFails := by
          intro hx
          exact ⟨i, hin, hf⟩
        doneHeap := by
          intro hx
          rw [hdr'] at hx
          cases hx
        startPrinted := by
          intro hx
          rw [hdr'] at hx
          cases hx
        cntLe := by
          intro k
          by_cases hki : k = i
          · subst hki
            rw [hbufeq, hhold', hdlv']
            exact h.cntLe k
          · obtain ⟨hd1, hd2, hd3, _⟩ := hfr k hki
            rw [hd1, hd2, hd3]
            exact h.cntLe k
        slice := by
          intro k c' hc'
          by_cases hki : k = i
          · subst hki
            rw [hssti, hstctx] at hc'
            cases hc'
            rw [hdlv', hpos', h.slice k c hc]
          · rw [hsst k hki] at hc'
            obtain ⟨hd1, _, _, hd4⟩ := hfr k hki
            rw [hd1, hd4]
            have hsl := h.slice k c' hc'
            have hheapiff : k ∈ s'.heap ↔ k ∈ s.heap := by rw [hheap']
            by_cases hkm : k ∈ s.heap
            · simp only [if_pos hkm] at hsl
              simp only [if_pos (hheapiff.2 hkm)]
              exact hsl
            · simp only [if_neg hkm] at hsl
              simp only [if_neg (fun hx => hkm (hheapiff.1 hx))]
              exact hsl
        printedAcc := by
          rw [hpr', h.printedAcc]
          apply Finset.sum_congr rfl
          intro k hk
          by_cases hki : k = i
          · subst hki
            rw [hpos']
          · rw [(hfr k hki).2.2.2]
        pendingInHeap := by
          intro k c' hc' hcp
          by_cases hki : k = i
          · subst hki
            rw [hssti, hstctx] at hc'
            cases hc'
            rw [hcidle] at hcp
            cases hcp
          · rw [hsst k hki] at hc'
            rcases h.pendingInHeap k c' hc' hcp with hm | hm
            · exact Or.inl (by rw [hheap']; exact hm)
            · exact absurd (holdk k hm) hki
        fullCtx := by
          intro k c' hc' hrec
          by_cases hki : k = i
          · subst hki
            rw [hssti, hstctx] at hc'
            cases hc'
            refine Or.inr (Or.inr ⟨hcidle, by rw [hheap']; exact hihp, ?_⟩)
            rw [hdr']
            exact hnoldrej k
          · rw [hsst k hki] at hc'
            rw [hsst k hki] at hrec
            rcases h.fullCtx k c' hc' hrec with h1 | h1 | h1
            · exact Or.inl h1
            · exact Or.inr (Or.inl h1)
            · refine Or.inr (Or.inr ⟨h1.1, by rw [hheap']; exact h1.2.1, ?_⟩)
              rw [hdr']
              exact hnoldrej k
        rejPFails := by
          intro k c' hc2 hrj
          by_cases hki : k = i
          · subst hki
            rw [hssti, hstctx] at hc2
            cases hc2
            rw [hcidle] at hrj
            cases hrj
          · rw [hsst k hki] at hc2
            exact h.rejPFails k c' hc2 hrj }

theorem inv_stepWake (cfg : Config) (s : MState) (i : Nat) (h : AInv cfg s) :
    AInv cfg (stepWake cfg s i) := by
  unfold stepWake
  split
  case isFalse => exact h
  case isTrue hw =>
  split
  case h_2 => exact h
  case h_1 c hc =>
  obtain ⟨hin, hihp, hictx⟩ := h.holdsOk i (by rw [hw]; exact rfl)
  obtain ⟨c2, hc2, hcr⟩ := h.ready2Inv i hw
  rw [hc] at hc2
  cases hc2
  have hnip : ¬(s.sstates i).initPending := by
    intro hip
    obtain ⟨hcn, _⟩ := h.initCtx i hip
    rw [hc] at hcn
    cases hcn
  have hnoldr : ∀ k, ¬ Holds Driver.running k := by
    intro k hk
    simp [Holds, holdIdx] at hk
  have holdk : ∀ k, Holds s.driver k → k = i := by
    intro k hk
    rw [hw] at hk
    unfold Holds holdIdx at hk
    simpa [eq_comm] using hk
  split
  case isTrue hbd =>
    obtain ⟨hbe, hdr⟩ := hbd
    set s' : MState := { s with driver := .running } with hs'
    show AInv cfg s'
    have hdr' : s'.driver = .running := rfl
    have hsst : ∀ k, s'.sstates k = s.sstates k := fun k => rfl
    have hheap' : s'.heap = s.heap := rfl
    have hpr' : s'.printed = s.printed := rfl
    have hfr := fun k => posAt_frame cfg s s' k rfl rfl Iff.rfl
    refine
      { oob := h.oob
        heapLt := h.heapLt
        heapCtx := h.heapCtx
        heapNodup := h.heapNodup
        holdsOk := by
          intro k hk
          rw [hdr'] at hk
          exact absurd hk (hnoldr k)
        headsSome := h.headsSome
        fetchNotDrained := h.fetchNotDrained
        initCtx := h.initCtx
        initResolved := by
          intro _ _ k hkn
          exact h.initResolved (by rw [hw]; simp) (by rw [hw]; simp) k hkn
        waiting2Pending := by
          intro k hk
          rw [hdr'] at hk
          cases hk
        ready2Inv := by
          intro k hk
          rw [hdr'] at hk
          cases hk
        waiting4Inv := by
          intro k hk
          rw [hdr'] at hk
          cases hk
        counterEq := h.counterEq
        counterLe := h.counterLe
        recvdLe := h.recvdLe
        drainedRecvd := h.drainedRecvd
        discarded := by
          intro k c' hc' hkh hkhold
          by_cases hki : k = i
          · subst hki
            rw [hc] at hc'
            cases hc'
            exact ⟨hbe, Or.inl hdr⟩
          · have hnoldk : ¬ Holds s.driver k := fun hx => hki (holdk k hx)
            obtain ⟨hb, hrest⟩ := h.discarded k c' hc' hkh hnoldk
            refine ⟨hb, ?_⟩
            rcases hrest with h1 | h1 | h1
            · exact Or.inl h1
            · exact Or.inr (Or.inl h1)
            · rw [hw] at h1
              cases h1
        ctxNone := by
          intro k hkn hc2 hkp hrej
          exact h.ctxNone k hkn hc2 hkp (by rw [hw]; simp)
        doneCnt := by
          have hdc : s'.doneCount = s.doneCount := rfl
          rw [hdc, h.doneCnt, hdr', hw]
          simp
        rejFails := by
          intro hx
          rw [hdr'] at hx
          cases hx
        doneHeap := by
          intro hx
          rw [hdr'] at hx
          cases hx
        startPrinted := by
          intro hx
          rw [hdr'] at hx
          cases hx
        cntLe := h.cntLe
        slice := h.slice
        printedAcc := h.printedAcc
        pendingInHeap := by
          intro k c' hc' hcp
          rcases h.pendingInHeap k c' hc' hcp with hm | hm
          · exact Or.inl hm
          · have := holdk k hm
            subst this
            rw [hc] at hc'
            cases hc'
            have hfd := h.fetchNotDrained k c hc (by rw [hcp]; simp)
            rw [hfd] at hdr
            cases hdr
        fullCtx := by
          intro k c' hc' hrec
          rcases h.fullCtx k c' hc' hrec with h1 | h1 | h1
          · exact Or.inl h1
          · exact Or.inr (Or.inl h1)
          · refine Or.inr (Or.inr ⟨h1.1, h1.2.1, ?_⟩)
            rw [hdr']
            exact hnoldr k
        rejPFails := h.rejPFails }
  case isFalse hbd =>
    have hbe : c.bufferedEntries ≠ [] := by
      intro hx
      rcases hcr with hcr | hcr
      · exact hcr hx
      · exact hbd ⟨hx, hcr⟩
    obtain ⟨b0, bt, hbuf⟩ : ∃ b0 bt, c.bufferedEntries = b0 :: bt := by
      cases hbl : c.bufferedEntries with
      | nil => exact absurd hbl hbe
      | cons x xs => exact ⟨x, xs, rfl⟩
    unfold getNextEntry
    set c1 : Ctx := { c with
      entry := c.bufferedEntries.head?,
      bufferedEntries := c.bufferedEntries.tail } with hc1
    set r := bufferLogs cfg.maxBuf (s.numLogEntriesBuffered - 1) c1 with hr
    set st' : SrcSt := { s.sstates i with ctx := some r.2 } with hst'
    set s' : MState := { s with
      sstates := Function.update s.sstates i st',
      numLogEntriesBuffered := r.1,
      heap := s.heap ++ [i],
      driver := .running } with hs'
    show AInv cfg s'
    have hc1e : c1.entry = some b0 := by
      rw [hc1]
      show c.bufferedEntries.head? = some b0
      rw [hbuf]
      rfl
    have hc1b : c1.bufferedEntries = bt := by
      rw [hc1]
      show c.bufferedEntries.tail = bt
      rw [hbuf]
      rfl
    have hrent : r.2.entry = some b0 := by
      rw [bufferLogs_entry]
      exact hc1e
    have hrbuf : r.2.bufferedEntries = bt := by
      rw [bufferLogs_buf]
      exact hc1b
    have hrdrc : r.2.drained = c.drained := bufferLogs_drained _ _ _
    have hssti : s'.sstates i = st' := Function.update_same i st' s.sstates
    have hsst : ∀ k, k ≠ i → s'.sstates k = s.sstates k := by
      intro k hk
      exact Function.update_noteq hk st' s.sstates
    have hstctx : st'.ctx = some r.2 := rfl
    have hstrec : st'.recvd = (s.sstates i).recvd := rfl
    have hstip : st'.initPending = (s.sstates i).initPending := rfl
    have hheap' : s'.heap = s.heap ++ [i] := rfl
    have hdr' : s'.driver = .running := rfl
    have hpr' : s'.printed = s.printed := rfl
    have hmem' : ∀ k, k ≠ i → (k ∈ s'.heap ↔ k ∈ s.heap) := by
      intro k hk
      rw [hheap']
      exact mem_append_ne hk
    have himem : i ∈ s'.heap := by
      rw [hheap']
      exact List.mem_append.2 (Or.inr (by simp))
    have hfr := fun k (hk : k ≠ i) => posAt_frame cfg s s' k
      (by rw [hsst k hk]) (by rw [hsst k hk]) (hmem' k hk)
    have hdlv' : dlvAt cfg s' i = dlvAt cfg s i := by
      rw [dlvAt_eq, dlvAt_eq, hssti, hstrec]
    have hbufo : bufLenAt s i = bt.length + 1 := by
      rw [bufLenAt_some hc, hbuf]
      rfl
    have hbuf' : bufLenAt s' i = bt.length := by
      rw [bufLenAt_some (show (s'.sstates i).ctx = some r.2 by rw [hssti]), hrbuf]
    have hholdo : holdAt s i = 0 := holdAt_neg hihp
    have hcnto := h.cntLe i
    have hpos' : posAt cfg s' i = posAt cfg s i := by
      rw [posAt_eq, posAt_eq, hdlv', hbufo, hbuf', hholdo, holdAt_pos himem]
      rw [hbufo, hholdo] at hcnto
      omega
    refine
      { oob := by
          intro k hk
          rw [hsst k (by omega)]
          exact h.oob k hk
        heapLt := by
          intro k hk
          rw [hheap'] at hk
          rcases List.mem_append.1 hk with hk | hk
          · exact h.heapLt k hk
          · simp at hk
            omega
        heapCtx := by
          intro k hk
          by_cases hki : k = i
          · subst hki
            rw [hssti, hstctx]
            rfl
          · rw [hsst k hki]
            rw [hheap'] at hk
            rcases List.mem_append.1 hk with hk | hk
            · exact h.heapCtx k hk
            · simp at hk
              exact absurd hk hki
        heapNodup := by
          rw [hheap', List.nodup_append]
          exact ⟨h.heapNodup, List.nodup_singleton i, by simpa using fun hm => hihp hm⟩
        holdsOk := by
          intro k hk
          rw [hdr'] at hk
          exact absurd hk (hnoldr k)
        headsSome := by
          intro k c' hc'
          by_cases hki : k = i
          · subst hki
            rw [hssti, hstctx] at hc'
            cases hc'
            rw [hrent]
            rfl
          · rw [hsst k hki] at hc'
            exact h.headsSome k c' hc'
        fetchNotDrained := by
          intro k c' hc' hne
          by_cases hki : k = i
          · subst hki
            rw [hssti, hstctx] at hc'
            cases hc'
            rcases bufferLogs_cases cfg.maxBuf (s.numLogEntriesBuffered - 1) c1 with hx | ⟨_, hx, _, _⟩
            · rw [← hr] at hx
              rw [hx] at hne ⊢
              exact h.fetchNotDrained k c hc hne
            · rw [hrdrc]
              rw [hc1] at hx
              exact hx
          · rw [hsst k hki] at hc'
            exact h.fetchNotDrained k c' hc' hne
        initCtx := by
          intro k hk
          by_cases hki : k = i
          · subst hki
            rw [hssti, hstip] at hk
            exact absurd hk hnip
          · rw [hsst k hki] at hk ⊢
            exact h.initCtx k hk
        initResolved := by
          intro h1 h2 k hkn
          by_cases hki : k = i
          · subst hki
            rw [hssti, hstip]
            exact hnip
          · rw [hsst k hki]
            exact h.initResolved (by rw [hw]; simp) (by rw [hw]; simp) k hkn
        waiting2Pending := by
          intro k hk
          rw [hdr'] at hk
          cases hk
        ready2Inv := by
          intro k hk
          rw [hdr'] at hk
          cases hk
        waiting4Inv := by
          intro k hk
          rw [hdr'] at hk
          cases hk
        counterEq := by
          have hctr' : s'.numLogEntriesBuffered = r.1 := rfl
          rw [hctr']
          have hsum := sum_comp_update_int contrib s.sstates (nOf cfg) i hin st'
          have hbc := bufferLogs_counter cfg.maxBuf (s.numLogEntriesBuffered - 1) c1
          rw [← hr] at hbc
          have hL : contrib (s.sstates i) = ctxContrib c := by
            rw [contrib_eq, hc]
          have hR : contrib st' = ctxContrib r.2 := by
            rw [contrib_eq, hstctx]
          have hc1c : ctxContrib c1 = ctxContrib c - 1 := by
            unfold ctxContrib
            rw [hc1]
            show (c.bufferedEntries.tail.length : Int) + _ + _ = _
            rw [hbuf]
            simp only [List.tail_cons, List.length_cons]
            push_cast
            ring
          have hss : s'.sstates = Function.update s.sstates i st' := rfl
          rw [hss, hsum, hL, hR, ← h.counterEq]
          omega
        counterLe := by
          have hctr' : s'.numLogEntriesBuffered = r.1 := rfl
          rw [hctr', hr]
          exact bufferLogs_fst_le cfg.maxBuf _ _ (by have := h.counterLe; omega)
        recvdLe := by
          intro k
          by_cases hki : k = i
          · subst hki
            rw [hssti, hstrec]
            exact h.recvdLe k
          · rw [hsst k hki]
            exact h.recvdLe k
        drainedRecvd := by
          intro k c' hc' hdr
          by_cases hki : k = i
          · subst hki
            rw [hssti, hstctx] at hc'
            cases hc'
            rw [hrdrc] at hdr
            rw [hssti, hstrec]
            exact h.drainedRecvd k c hc hdr
          · rw [hsst k hki] at hc' ⊢
            exact h.drainedRecvd k c' hc' hdr
        discarded := by
          intro k c' hc' hkh hkhold
          by_cases hki : k = i
          · subst hki
            exact absurd himem hkh
          · rw [hsst k hki] at hc' ⊢
            have hkh2 : k ∉ s.heap := fun hm => hkh ((hmem' k hki).2 hm)
            have hnoldk : ¬ Holds s.driver k := fun hx => hki (holdk k hx)
            obtain ⟨hb, hrest⟩ := h.discarded k c' hc' hkh2 hnoldk
            refine ⟨hb, ?_⟩
            rcases hrest with h1 | h1 | h1
            · exact Or.inl h1
            · exact Or.inr (Or.inl h1)
            · rw [hw] at h1
              cases h1
        ctxNone := by
          intro k hkn hc2 hkp hrej
          by_cases hki : k = i
          · subst hki
            rw [hssti, hstctx] at hc2
            cases hc2
          · rw [hsst k hki] at hc2 hkp ⊢
            exact h.ctxNone k hkn hc2 hkp (by rw [hw]; simp)
        doneCnt := by
          have hdc : s'.doneCount = s.doneCount := rfl
          rw [hdc, h.doneCnt, hdr', hw]
          simp
        rejFails := by
          intro hx
          rw [hdr'] at hx
          cases hx
        doneHeap := by
          intro hx
          rw [hdr'] at hx
          cases hx
        startPrinted := by
          intro hx
          rw [hdr'] at hx
          cases hx
        cntLe := by
          intro k
          by_cases hki : k = i
          · subst hki
            rw [hbuf', holdAt_pos himem, hdlv']
            rw [hbufo, hholdo] at hcnto
            omega
          · obtain ⟨hd1, hd2, hd3, _⟩ := hfr k hki
            rw [hd1, hd2, hd3]
            exact h.cntLe k
        slice := by
          intro k c' hc'
          by_cases hki : k = i
          · subst hki
            rw [hssti, hstctx] at hc'
            cases hc'
            rw [hdlv', hpos', if_pos himem, hrent, hrbuf]
            have hsl := h.slice k c hc
            rw [if_neg hihp, hbuf] at hsl
            rw [hsl]
            simp
          · rw [hsst k hki] at hc'
            obtain ⟨hd1, _, _, hd4⟩ := hfr k hki
            rw [hd1, hd4]
            have hsl := h.slice k c' hc'
            by_cases hkm : k ∈ s.heap
            · simp only [if_pos hkm] at hsl
              simp only [if_pos ((hmem' k hki).2 hkm)]
              exact hsl
            · simp only [if_neg hkm] at hsl
              simp only [if_neg (fun hx => hkm ((hmem' k hki).1 hx))]
              exact hsl
        printedAcc := by
          rw [hpr', h.printedAcc]
          apply Finset.sum_congr rfl
          intro k hk
          by_cases hki : k = i
          · subst hki
            rw [hpos']
          · rw [(hfr k hki).2.2.2]
        pendingInHeap := by
          intro k c' hc' hcp
          by_cases hki : k = i
          · subst hki
            exact Or.inl himem
          · rw [hsst k hki] at hc'
            rcases h.pendingInHeap k c' hc' hcp with hm | hm
            · exact Or.inl ((hmem' k hki).2 hm)
            · exact absurd (holdk k hm) hki
        fullCtx := by
          intro k c' hc' hrec
          by_cases hki : k = i
          · subst hki
            rw [hssti, hstctx] at hc'
            cases hc'
            rw [hssti, hstrec] at hrec
            rcases h.fullCtx k c hc hrec with h1 | h1 | h1
            · rw [← hrdrc] at h1
              exact Or.inl h1
            · refine Or.inr (Or.inl ?_)
              rw [bufferLogs_rejected]
              rw [hc1]
              exact h1
            · exact absurd (by rw [hw]; exact rfl) h1.2.2
          · rw [hsst k hki] at hc'
            rw [hsst k hki] at hrec
            rcases h.fullCtx k c' hc' hrec with h1 | h1 | h1
            · exact Or.inl h1
            · exact Or.inr (Or.inl h1)
            · refine Or.inr (Or.inr ⟨h1.1, fun hx => h1.2.1 ((hmem' k hki).1 hx), ?_⟩)
              rw [hdr']
              exact hnoldr k
        rejPFails := by
          intro k c' hc2 hrj
          by_cases hki : k = i
          · subst hki
            rw [hssti, hstctx] at hc2
            cases hc2
            have hx := (bufferLogs_rejected _ _ _).1 hrj
            rw [hc1] at hx
            have hx2 : c.nextEntryPromise = FStat.rejectedP := hx
            exact h.rejPFails k c hc hx2
          · rw [hsst k hki] at hc2
            exact h.rejPFails k c' hc2 hrj }

theorem slice_head {l : List LogEntry} {d p : Nat} {x : LogEntry} {rest : List LogEntry}
    (hs : l.take d = l.take p ++ [x] ++ rest) (hp : p ≤ l.length) (hpd : p + 1 ≤ d) :
    l.take (p + 1) = l.take p ++ [x] := by
  have h1 : l.take (p + 1) = (l.take d).take (p + 1) := by
    rw [List.take_take]
    congr 1
    omega
  have hlen : (l.take p).length = p := by
    rw [List.length_take]
    omega
  rw [h1, hs, List.append_assoc]
  have h2 : p + 1 = (l.take p).length + 1 := by omega
  rw [h2, List.take_append]
  rfl

theorem sum_range_bump {M : Type} [AddCommMonoid M] (t t' : Nat → M) (n i : Nat)
    (hi : i < n) (x : M) (hne : ∀ k, k ≠ i → t' k = t k) (hx : t' i = t i + x) :
    ∑ k in Finset.range n, t' k = (∑ k in Finset.range n, t k) + x := by
  have hmem : i ∈ Finset.range n := Finset.mem_range.2 hi
  rw [← Finset.sum_erase_add (Finset.range n) t' hmem,
      ← Finset.sum_erase_add (Finset.range n) t hmem,
      Finset.sum_congr rfl (fun k hk => hne k (Finset.ne_of_mem_erase hk)), hx]
  rw [add_assoc]

theorem inv_stepDriver (cfg : Config) (s : MState) (j : Nat) (h : AInv cfg s) :
    AInv cfg (stepDriver cfg s j) := by
  unfold stepDriver
  split
  case isFalse => exact h
  case isTrue hrun =>
  have hnoldrun : ∀ k, ¬ Holds s.driver k := by
    intro k hk
    rw [hrun] at hk
    simp [Holds, holdIdx] at hk
  split
  case h_1 hnil =>
    set s' : MState := { s with doneCount := s.doneCount + 1, driver := .doneSt } with hs'
    show AInv cfg s'
    have hdr' : s'.driver = .doneSt := rfl
    have hfr := fun k => posAt_frame cfg s s' k rfl rfl Iff.rfl
    refine
      { oob := h.oob
        heapLt := h.heapLt
        heapCtx := h.heapCtx
        heapNodup := h.heapNodup
        holdsOk := by
          intro k hk
          rw [hdr'] at hk
          simp [Holds, holdIdx] at hk
        headsSome := h.headsSome
        fetchNotDrained := h.fetchNotDrained
        initCtx := h.initCtx
        initResolved := by
          intro _ _ k hkn
          exact h.initResolved (by rw [hrun]; simp) (by rw [hrun]; simp) k hkn
        waiting2Pending := by
          intro k hk
          rw [hdr'] at hk
          cases hk
        ready2Inv := by
          intro k hk
          rw [hdr'] at hk
          cases hk
        waiting4Inv := by
          intro k hk
          rw [hdr'] at hk
          cases hk
        counterEq := h.counterEq
        counterLe := h.counterLe
        recvdLe := h.recvdLe
        drainedRecvd := h.drainedRecvd
        discarded := by
          intro k c' hc' hkh hkhold
          obtain ⟨hb, hrest⟩ := h.discarded k c' hc' hkh (hnoldrun k)
          refine ⟨hb, ?_⟩
          rcases hrest with h1 | h1 | h1
          · exact Or.inl h1
          · exact Or.inr (Or.inl h1)
          · rw [hrun] at h1
            cases h1
        ctxNone := by
          intro k hkn hc2 hkp hrej
          exact h.ctxNone k hkn hc2 hkp (by rw [hrun]; simp)
        doneCnt := by
          have hdc : s'.doneCount = s.doneCount + 1 := rfl
          rw [hdc, h.doneCnt, hrun, hdr']
          simp
        rejFails := by
          intro hx
          rw [hdr'] at hx
          cases hx
        doneHeap := by
          intro _
          exact hnil
        startPrinted := by
          intro hx
          rw [hdr'] at hx
          cases hx
        cntLe := h.cntLe
        slice := h.slice
        printedAcc := h.printedAcc
        pendingInHeap := by
          intro k c' hc' hcp
          rcases h.pendingInHeap k c' hc' hcp with hm | hm
          · exact Or.inl hm
          · exact absurd hm (hnoldrun k)
        fullCtx := by
          intro k c' hc' hrec
          rcases h.fullCtx k c' hc' hrec with h1 | h1 | h1
          · exact Or.inl h1
          · exact Or.inr (Or.inl h1)
          · refine Or.inr (Or.inr ⟨h1.1, h1.2.1, ?_⟩)
            rw [hdr']
            simp [Holds, holdIdx]
        rejPFails := h.rejPFails }
  case h_2 hd tl =>
  split
  case h_2 => exact h
  case h_1 i hj =>
  split
  case isFalse => exact h
  case isTrue hmin =>
  split
  case h_2 => exact h
  case h_1 c hc =>
  have himem : i ∈ s.heap := List.getElem?_mem hj
  have hin : i < nOf cfg := h.heapLt i himem
  have hnip : ¬(s.sstates i).initPending := by
    intro hip
    obtain ⟨hcn, _⟩ := h.initCtx i hip
    rw [hc] at hcn
    cases hcn
  have hine : i ∉ s.heap.eraseIdx j := not_mem_eraseIdx_self h.heapNodup hj
  have hmem2 : ∀ k, k ≠ i → (k ∈ s.heap.eraseIdx j ↔ k ∈ s.heap) :=
    fun k hk => mem_eraseIdx_ne hj hk
  have hnd2 : (s.heap.eraseIdx j).Nodup := (List.eraseIdx_sublist s.heap j).nodup h.heapNodup
  have hsub2 : ∀ k, k ∈ s.heap.eraseIdx j → k ∈ s.heap := fun k => mem_of_mem_eraseIdx
  have hholdo : holdAt s i = 1 := holdAt_pos himem
  have hcnto := h.cntLe i
  have hslo := h.slice i c hc
  rw [if_pos himem] at hslo
  have hbufo : bufLenAt s i = c.bufferedEntries.length := bufLenAt_some hc
  have hlenE : lenAt cfg i = (entriesAt cfg i).length := rfl
  have hdlvlen : dlvAt cfg s i ≤ lenAt cfg i := by
    rw [dlvAt_eq]
    omega
  have hposro : posAt cfg s i = dlvAt cfg s i - c.bufferedEntries.length - 1 := by
    rw [posAt_eq, hbufo, hholdo]
  have hpos1 : posAt cfg s i + 1 + c.bufferedEntries.length = dlvAt cfg s i := by
    rw [hbufo, hholdo] at hcnto
    rw [hposro]
    omega
  have hposlen : posAt cfg s i ≤ (entriesAt cfg i).length := by
    rw [← hlenE]
    omega
  have htake1 : (entriesAt cfg i).take (posAt cfg s i + 1)
      = (entriesAt cfg i).take (posAt cfg s i) ++ [c.entry.getD dummyE] := by
    exact slice_head hslo hposlen (by omega)
  split
  case isTrue hbne =>
    obtain ⟨b0, bt, hbuf⟩ : ∃ b0 bt, c.bufferedEntries = b0 :: bt := by
      cases hbl : c.bufferedEntries with
      | nil => exact absurd hbl hbne
      | cons x xs => exact ⟨x, xs, rfl⟩
    unfold getNextEntry
    set c1 : Ctx := { c with
      entry := c.bufferedEntries.head?,
      bufferedEntries := c.bufferedEntries.tail } with hc1
    set r := bufferLogs cfg.maxBuf (s.numLogEntriesBuffered - 1) c1 with hr
    set st' : SrcSt := { s.sstates i with ctx := some r.2 } with hst'
    set s' : MState := { s with
      sstates := Function.update s.sstates i st',
      numLogEntriesBuffered := r.1,
      heap := s.heap.eraseIdx j ++ [i],
      printed := s.printed ++ [c.entry.getD dummyE],
      driver := .running } with hs'
    show AInv cfg s'
    have hc1e : c1.entry = some b0 := by
      rw [hc1]
      show c.bufferedEntries.head? = some b0
      rw [hbuf]
      rfl
    have hc1b : c1.bufferedEntries = bt := by
      rw [hc1]
      show c.bufferedEntries.tail = bt
      rw [hbuf]
      rfl
    have hrent : r.2.entry = some b0 := by
      rw [bufferLogs_entry]
      exact hc1e
    have hrbuf : r.2.bufferedEntries = bt := by
      rw [bufferLogs_buf]
      exact hc1b
    have hrdrc : r.2.drained = c.drained := bufferLogs_drained _ _ _
    have hssti : s'.sstates i = st' := Function.update_same i st' s.sstates
    have hsst : ∀ k, k ≠ i → s'.sstates k = s.sstates k := by
      intro k hk
      exact Function.update_noteq hk st' s.sstates
    have hstctx : st'.ctx = some r.2 := rfl
    have hstrec : st'.recvd = (s.sstates i).recvd := rfl
    have hstip : st'.initPending = (s.sstates i).initPending := rfl
    have hheap' : s'.heap = s.heap.eraseIdx j ++ [i] := rfl
    have hdr' : s'.driver = .running := rfl
    have hpr' : s'.printed = s.printed ++ [c.entry.getD dummyE] := rfl
    have hmem' : ∀ k, k ≠ i → (k ∈ s'.heap ↔ k ∈ s.heap) := by
      intro k hk
      rw [hheap', mem_append_ne hk]
      exact hmem2 k hk
    have himem' : i ∈ s'.heap := by
      rw [hheap']
      exact List.mem_append.2 (Or.inr (by simp))
    have hfr := fun k (hk : k ≠ i) => posAt_frame cfg s s' k
      (by rw [hsst k hk]) (by rw [hsst k hk]) (hmem' k hk)
    have hdlv' : dlvAt cfg s' i = dlvAt cfg s i := by
      rw [dlvAt_eq, dlvAt_eq, hssti, hstrec]
    have hbuf' : bufLenAt s' i = bt.length := by
      rw [bufLenAt_some (show (s'.sstates i).ctx = some r.2 by rw [hssti]), hrbuf]
    have hbtlen : c.bufferedEntries.length = bt.length + 1 := by
      rw [hbuf]
      rfl
    have hpos1' : posAt cfg s' i = posAt cfg s i + 1 := by
      rw [posAt_eq, hdlv', hbuf', holdAt_pos himem', hposro]
      omega
    refine
      { oob := by
          intro k hk
          rw [hsst k (by omega)]
          exact h.oob k hk
        heapLt := by
          intro k hk
          rw [hheap'] at hk
          rcases List.mem_append.1 hk with hk | hk
          · exact h.heapLt k (hsub2 k hk)
          · simp at hk
            omega
        heapCtx := by
          intro k hk
          by_cases hki : k = i
          · subst hki
            rw [hssti, hstctx]
            rfl
          · rw [hsst k hki]
            rw [hheap'] at hk
            rcases List.mem_append.1 hk with hk | hk
            · exact h.heapCtx k (hsub2 k hk)
            · simp at hk
              exact absurd hk hki
        heapNodup := by
          rw [hheap', List.nodup_append]
          exact ⟨hnd2, List.nodup_singleton i, by simpa using fun hm => hine hm⟩
        holdsOk := by
          intro k hk
          rw [hdr'] at hk
          simp [Holds, holdIdx] at hk
        headsSome := by
          intro k c' hc'
          by_cases hki : k = i
          · subst hki
            rw [hssti, hstctx] at hc'
            cases hc'
            rw [hrent]
            rfl
          · rw [hsst k hki] at hc'
            exact h.headsSome k c' hc'
        fetchNotDrained := by
          intro k c' hc' hne
          by_cases hki : k = i
          · subst hki
            rw [hssti, hstctx] at hc'
            cases hc'
            rcases bufferLogs_cases cfg.maxBuf (s.numLogEntriesBuffered - 1) c1 with hx | ⟨_, hx, _, _⟩
            · rw [← hr] at hx
              rw [hx] at hne ⊢
              exact h.fetchNotDrained k c hc hne
            · rw [hrdrc]
              rw [hc1] at hx
              exact hx
          · rw [hsst k hki] at hc'
            exact h.fetchNotDrained k c' hc' hne
        initCtx := by
          intro k hk
          by_cases hki : k = i
          · subst hki
            rw [hssti, hstip] at hk
            exact absurd hk hnip
          · rw [hsst k hki] at hk ⊢
            exact h.initCtx k hk
        initResolved := by
          intro h1 h2 k hkn
          by_cases hki : k = i
          · subst hki
            rw [hssti, hstip]
            exact hnip
          · rw [hsst k hki]
            exact h.initResolved (by rw [hrun]; simp) (by rw [hrun]; simp) k hkn
        waiting2Pending := by
          intro k hk
          rw [hdr'] at hk
          cases hk
        ready2Inv := by
          intro k hk
          rw [hdr'] at hk
          cases hk
        waiting4Inv := by
          intro k hk
          rw [hdr'] at hk
          cases hk
        counterEq := by
          have hctr' : s'.numLogEntriesBuffered = r.1 := rfl
          rw [hctr']
          have hsum := sum_comp_update_int contrib s.sstates (nOf cfg) i hin st'
          have hbc := bufferLogs_counter cfg.maxBuf (s.numLogEntriesBuffered - 1) c1
          rw [← hr] at hbc
          have hL : contrib (s.sstates i) = ctxContrib c := by
            rw [contrib_eq, hc]
          have hR : contrib st' = ctxContrib r.2 := by
            rw [contrib_eq, hstctx]
          have hc1c : ctxContrib c1 = ctxContrib c - 1 := by
            unfold ctxContrib
            rw [hc1]
            show (c.bufferedEntries.tail.length : Int) + _ + _ = _
            rw [hbuf]
            simp only [List.tail_cons, List.length_cons]
            push_cast
            ring
          have hss : s'.sstates = Function.update s.sstates i st' := rfl
          rw [hss, hsum, hL, hR, ← h.counterEq]
          omega
        counterLe := by
          have hctr' : s'.numLogEntriesBuffered = r.1 := rfl
          rw [hctr', hr]
          exact bufferLogs_fst_le cfg.maxBuf _ _ (by have := h.counterLe; omega)
        recvdLe := by
          intro k
          by_cases hki : k = i
          · subst hki
            rw [hssti, hstrec]
            exact h.recvdLe k
          · rw [hsst k hki]
            exact h.recvdLe k
        drainedRecvd := by
          intro k c' hc' hdr
          by_cases hki : k = i
          · subst hki
            rw [hssti, hstctx] at hc'
            cases hc'
            rw [hrdrc] at hdr
            rw [hssti, hstrec]
            exact h.drainedRecvd k c hc hdr
          · rw [hsst k hki] at hc' ⊢
            exact h.drainedRecvd k c' hc' hdr
        discarded := by
          intro k c' hc' hkh hkhold
          by_cases hki : k = i
          · subst hki
            exact absurd himem' hkh
          · rw [hsst k hki] at hc' ⊢
            have hkh2 : k ∉ s.heap := fun hm => hkh ((hmem' k hki).2 hm)
            obtain ⟨hb, hrest⟩ := h.discarded k c' hc' hkh2 (hnoldrun k)
            refine ⟨hb, ?_⟩
            rcases hrest with h1 | h1 | h1
            · exact Or.inl h1
            · exact Or.inr (Or.inl h1)
            · rw [hrun] at h1
              cases h1
        ctxNone := by
          intro k hkn hc2 hkp hrej
          by_cases hki : k = i
          · subst hki
            rw [hssti, hstctx] at hc2
            cases hc2
          · rw [hsst k hki] at hc2 hkp ⊢
            exact h.ctxNone k hkn hc2 hkp (by rw [hrun]; simp)
        doneCnt := by
          have hdc : s'.doneCount = s.doneCount := rfl
          rw [hdc, h.doneCnt, hdr', hrun]
        rejFails := by
          intro hx
          rw [hdr'] at hx
          cases hx
        doneHeap := by
          intro hx
          rw [hdr'] at hx
          cases hx
        startPrinted := by
          intro hx
          rw [hdr'] at hx
          cases hx
        cntLe := by
          intro k
          by_cases hki : k = i
          · subst hki
            rw [hbuf', holdAt_pos himem', hdlv']
            rw [hbufo, hholdo] at hcnto
            rw [hbtlen] at hcnto
            omega
          · obtain ⟨hd1, hd2, hd3, _⟩ := hfr k hki
            rw [hd1, hd2, hd3]
            exact h.cntLe k
        slice := by
          intro k c' hc'
          by_cases hki : k = i
          · subst hki
            rw [hssti, hstctx] at hc'
            cases hc'
            rw [hdlv', hpos1', if_pos himem', hrent, hrbuf, htake1, hslo, hbuf]
            simp
          · rw [hsst k hki] at hc'
            obtain ⟨hd1, _, _, hd4⟩ := hfr k hki
            rw [hd1, hd4]
            have hsl := h.slice k c' hc'
            by_cases hkm : k ∈ s.heap
            · simp only [if_pos hkm] at hsl
              simp only [if_pos ((hmem' k hki).2 hkm)]
              exact hsl
            · simp only [if_neg hkm] at hsl
              simp only [if_neg (fun hx => hkm ((hmem' k hki).1 hx))]
              exact hsl
        printedAcc := by
          have hne2 : ∀ k, k ≠ i →
              ((entriesAt cfg k).take (posAt cfg s' k) : Multiset LogEntry)
                = ((entriesAt cfg k).take (posAt cfg s k) : Multiset LogEntry) := by
            intro k hk
            rw [(hfr k hk).2.2.2]
          have hxx : ((entriesAt cfg i).take (posAt cfg s' i) : Multiset LogEntry)
              = ((entriesAt cfg i).take (posAt cfg s i) : Multiset LogEntry)
                + {c.entry.getD dummyE} := by
            rw [hpos1', htake1, ← Multiset.coe_singleton, Multiset.coe_add]
          have hbump := sum_range_bump
            (fun k => ((entriesAt cfg k).take (posAt cfg s k) : Multiset LogEntry))
            (fun k => ((entriesAt cfg k).take (posAt cfg s' k) : Multiset LogEntry))
            (nOf cfg) i hin ({c.entry.getD dummyE} : Multiset LogEntry) hne2 hxx
          rw [hpr', hbump, ← h.printedAcc, ← Multiset.coe_singleton, Multiset.coe_add]
        pendingInHeap := by
          intro k c' hc' hcp
          by_cases hki : k = i
          · subst hki
            exact Or.inl himem'
          · rw [hsst k hki] at hc'
            rcases h.pendingInHeap k c' hc' hcp with hm | hm
            · exact Or.inl ((hmem' k hki).2 hm)
            · exact absurd hm (hnoldrun k)
        fullCtx := by
          intro k c' hc' hrec
          by_cases hki : k = i
          · subst hki
            rw [hssti, hstctx] at hc'
            cases hc'
            rw [hssti, hstrec] at hrec
            rcases h.fullCtx k c hc hrec with h1 | h1 | h1
            · rw [← hrdrc] at h1
              exact Or.inl h1
            · refine Or.inr (Or.inl ?_)
              rw [bufferLogs_rejected]
              rw [hc1]
              exact h1
            · exact absurd himem h1.2.1
          · rw [hsst k hki] at hc'
            rw [hsst k hki] at hrec
            rcases h.fullCtx k c' hc' hrec with h1 | h1 | h1
            · exact Or.inl h1
            · exact Or.inr (Or.inl h1)
            · refine Or.inr (Or.inr ⟨h1.1, fun hx => h1.2.1 ((hmem' k hki).1 hx), ?_⟩)
              rw [hdr']
              simp [Holds, holdIdx]
        rejPFails := by
          intro k c' hc2 hrj
          by_cases hki : k = i
          · subst hki
            rw [hssti, hstctx] at hc2
            cases hc2
            have hx := (bufferLogs_rejected _ _ _).1 hrj
            rw [hc1] at hx
            have hx2 : c.nextEntryPromise = FStat.rejectedP := hx
            exact h.rejPFails k c hc hx2
          · rw [hsst k hki] at hc2
            exact h.rejPFails k c' hc2 hrj }
  case isFalse hbne =>
  have hbemp : c.bufferedEntries = [] := of_not_not hbne
  have hbuf0 : bufLenAt s i = 0 := by
    rw [hbufo, hbemp]
    rfl
  have hposd : posAt cfg s i + 1 = dlvAt cfg s i := by
    rw [hbemp] at hpos1
    simpa using hpos1
  have hslo2 : (entriesAt cfg i).take (dlvAt cfg s i)
      = (entriesAt cfg i).take (posAt cfg s i) ++ [c.entry.getD dummyE] := by
    rw [hslo, hbemp]
    simp
  have htakedlv : (entriesAt cfg i).take (dlvAt cfg s i)
      = (entriesAt cfg i).take (posAt cfg s i + 1) := by
    rw [htake1, hslo2]
  split
  case isTrue hcp =>
    set s' : MState := { s with
      heap := s.heap.eraseIdx j,
      printed := s.printed ++ [c.entry.getD dummyE],
      driver := .waiting2 i } with hs'
    show AInv cfg s'
    have hsst : ∀ k, s'.sstates k = s.sstates k := fun k => rfl
    have hheap' : s'.heap = s.heap.eraseIdx j := rfl
    have hdr' : s'.driver = .waiting2 i := rfl
    have hpr' : s'.printed = s.printed ++ [c.entry.getD dummyE] := rfl
    have hmem' : ∀ k, k ≠ i → (k ∈ s'.heap ↔ k ∈ s.heap) := by
      intro k hk
      rw [hheap']
      exact hmem2 k hk
    have hinem' : i ∉ s'.heap := hine
    have hfr := fun k (hk : k ≠ i) => posAt_frame cfg s s' k rfl rfl (hmem' k hk)
    have hpos1' : posAt cfg s' i = posAt cfg s i + 1 := by
      rw [posAt_eq cfg s' i, holdAt_neg hinem']
      have hd : dlvAt cfg s' i = dlvAt cfg s i := rfl
      have hb : bufLenAt s' i = bufLenAt s i := rfl
      rw [hd, hb, hbuf0]
      omega
    have hholdsk : ∀ k, Holds s'.driver k → k = i := by
      intro k hk
      rw [hdr'] at hk
      unfold Holds holdIdx at hk
      simpa [eq_comm] using hk
    refine
      { oob := h.oob
        heapLt := fun k hk => h.heapLt k (hsub2 k hk)
        heapCtx := fun k hk => h.heapCtx k (hsub2 k hk)
        heapNodup := hnd2
        holdsOk := by
          intro k hk
          have := hholdsk k hk
          subst this
          exact ⟨hin, hinem', by rw [hc]; rfl⟩
        headsSome := h.headsSome
        fetchNotDrained := h.fetchNotDrained
        initCtx := h.initCtx
        initResolved := by
          intro _ _ k hkn
          exact h.initResolved (by rw [hrun]; simp) (by rw [hrun]; simp) k hkn
        waiting2Pending := by
          intro k hk
          rw [hdr'] at hk
          cases hk
          exact ⟨c, hc, hcp, hbemp⟩
        ready2Inv := by
          intro k hk
          rw [hdr'] at hk
          cases hk
        waiting4Inv := by
          intro k hk
          rw [hdr'] at hk
          cases hk
        counterEq := h.counterEq
        counterLe := h.counterLe
        recvdLe := h.recvdLe
        drainedRecvd := h.drainedRecvd
        discarded := by
          intro k c' hc' hkh hkhold
          by_cases hki : k = i
          · subst hki
            exact absurd (by rw [hdr']; exact rfl) hkhold
          · have hkh2 : k ∉ s.heap := fun hm => hkh ((hmem' k hki).2 hm)
            obtain ⟨hb, hrest⟩ := h.discarded k c' hc' hkh2 (hnoldrun k)
            refine ⟨hb, ?_⟩
            rcases hrest with h1 | h1 | h1
            · exact Or.inl h1
            · exact Or.inr (Or.inl h1)
            · rw [hrun] at h1
              cases h1
        ctxNone := by
          intro k hkn hc2 hkp hrej
          exact h.ctxNone k hkn hc2 hkp (by rw [hrun]; simp)
        doneCnt := by
          have hdc : s'.doneCount = s.doneCount := rfl
          rw [hdc, h.doneCnt, hrun, hdr']
          simp
        rejFails := by
          intro hx
          rw [hdr'] at hx
          cases hx
        doneHeap := by
          intro hx
          rw [hdr'] at hx
          cases hx
        startPrinted := by
          intro hx
          rw [hdr'] at hx
          cases hx
        cntLe := by
          intro k
          by_cases hki : k = i
          · subst hki
            have hb : bufLenAt s' k = 0 := hbuf0
            have hd : dlvAt cfg s' k = dlvAt cfg s k := rfl
            rw [hb, hd, holdAt_neg hinem']
            omega
          · obtain ⟨hd1, hd2, hd3, _⟩ := hfr k hki
            rw [hd1, hd2, hd3]
            exact h.cntLe k
        slice := by
          intro k c' hc'
          by_cases hki : k = i
          · subst hki
            rw [hc] at hc'
            cases hc'
            have hd : dlvAt cfg s' k = dlvAt cfg s k := rfl
            rw [hd, hpos1', if_neg hinem', hbemp, htakedlv]
            simp
          · obtain ⟨hd1, _, _, hd4⟩ := hfr k hki
            rw [hd1, hd4]
            have hsl := h.slice k c' hc'
            by_cases hkm : k ∈ s.heap
            · simp only [if_pos hkm] at hsl
              simp only [if_pos ((hmem' k hki).2 hkm)]
              exact hsl
            · simp only [if_neg hkm] at hsl
              simp only [if_neg (fun hx => hkm ((hmem' k hki).1 hx))]
              exact hsl
        printedAcc := by
          have hne2 : ∀ k, k ≠ i →
              ((entriesAt cfg k).take (posAt cfg s' k) : Multiset LogEntry)
                = ((entriesAt cfg k).take (posAt cfg s k) : Multiset LogEntry) := by
            intro k hk
            rw [(hfr k hk).2.2.2]
          have hxx : ((entriesAt cfg i).take (posAt cfg s' i) : Multiset LogEntry)
              = ((entriesAt cfg i).take (posAt cfg s i) : Multiset LogEntry)
                + {c.entry.getD dummyE} := by
            rw [hpos1', htake1, ← Multiset.coe_singleton, Multiset.coe_add]
          have hbump := sum_range_bump
            (fun k => ((entriesAt cfg k).take (posAt cfg s k) : Multiset LogEntry))
            (fun k => ((entriesAt cfg k).take (posAt cfg s' k) : Multiset LogEntry))
            (nOf cfg) i hin ({c.entry.getD dummyE} : Multiset LogEntry) hne2 hxx
          rw [hpr', hbump, ← h.printedAcc, ← Multiset.coe_singleton, Multiset.coe_add]
        pendingInHeap := by
          intro k c' hc' hcp2
          by_cases hki : k = i
          · subst hki
            exact Or.inr (by rw [hdr']; exact rfl)
          · rcases h.pendingInHeap k c' hc' hcp2 with hm | hm
            · exact Or.inl ((hmem' k hki).2 hm)
            · exact absurd hm (hnoldrun k)
        fullCtx := by
          intro k c' hc' hrec
          by_cases hki : k = i
          · subst hki
            rw [hc] at hc'
            cases hc'
            rcases h.fullCtx k c hc hrec with h1 | h1 | h1
            · have := h.fetchNotDrained k c hc (by rw [hcp]; simp)
              rw [this] at h1
              cases h1
            · rw [hcp] at h1
              cases h1
            · exact absurd himem h1.2.1
          · rcases h.fullCtx k c' hc' hrec with h1 | h1 | h1
            · exact Or.inl h1
            · exact Or.inr (Or.inl h1)
            · refine Or.inr (Or.inr ⟨h1.1, fun hx => h1.2.1 ((hmem' k hki).1 hx), ?_⟩)
              intro hx
              exact hki (hholdsk k hx)
        rejPFails := h.rejPFails }
  case isFalse hcnp =>
  split
  case isTrue hcrj =>
    set s' : MState := { s with
      heap := s.heap.eraseIdx j,
      printed := s.printed ++ [c.entry.getD dummyE],
      driver := .rejectedSt } with hs'
    show AInv cfg s'
    have hsst : ∀ k, s'.sstates k = s.sstates k := fun k => rfl
    have hheap' : s'.heap = s.heap.eraseIdx j := rfl
    have hdr' : s'.driver = .rejectedSt := rfl
    have hpr' : s'.printed = s.printed ++ [c.entry.getD dummyE] := rfl
    have hmem' : ∀ k, k ≠ i → (k ∈ s'.heap ↔ k ∈ s.heap) := by
      intro k hk
      rw [hheap']
      exact hmem2 k hk
    have hinem' : i ∉ s'.heap := hine
    have hfr := fun k (hk : k ≠ i) => posAt_frame cfg s s' k rfl rfl (hmem' k hk)
    have hpos1' : posAt cfg s' i = posAt cfg s i + 1 := by
      rw [posAt_eq cfg s' i, holdAt_neg hinem']
      have hd : dlvAt cfg s' i = dlvAt cfg s i := rfl
      have hb : bufLenAt s' i = bufLenAt s i := rfl
      rw [hd, hb, hbuf0]
      omega
    have hnoldrej : ∀ k, ¬ Holds s'.driver k := by
      intro k hk
      rw [hdr'] at hk
      simp [Holds, holdIdx] at hk
    refine
      { oob := h.oob
        heapLt := fun k hk => h.heapLt k (hsub2 k hk)
        heapCtx := fun k hk => h.heapCtx k (hsub2 k hk)
        heapNodup := hnd2
        holdsOk := by
          intro k hk
          exact absurd hk (hnoldrej k)
        headsSome := h.headsSome
        fetchNotDrained := h.fetchNotDrained
        initCtx := h.initCtx
        initResolved := by
          intro _ h2 _ _
          exact absurd hdr' h2
        waiting2Pending := by
          intro k hk
          rw [hdr'] at hk
          cases hk
        ready2Inv := by
          intro k hk
          rw [hdr'] at hk
          cases hk
        waiting4Inv := by
          intro k hk
          rw [hdr'] at hk
          cases hk
        counterEq := h.counterEq
        counterLe := h.counterLe
        recvdLe := h.recvdLe
        drainedRecvd := h.drainedRecvd
        discarded := by
          intro k c' hc' hkh hkhold
          by_cases hki : k = i
          · subst hki
            rw [hc] at hc'
            cases hc'
            exact ⟨hbemp, Or.inr (Or.inr hdr')⟩
          · have hkh2 : k ∉ s.heap := fun hm => hkh ((hmem' k hki).2 hm)
            obtain ⟨hb, _⟩ := h.discarded k c' hc' hkh2 (hnoldrun k)
            exact ⟨hb, Or.inr (Or.inr hdr')⟩
        ctxNone := by
          intro k hkn hc2 hkp hrej
          exact absurd hdr' hrej
        doneCnt := by
          have hdc : s'.doneCount = s.doneCount := rfl
          rw [hdc, h.doneCnt, hrun, hdr']
          simp
        rejFails := by
          intro _
          exact ⟨i, hin, h.rejPFails i c hc hcrj⟩
        doneHeap := by
          intro hx
          rw [hdr'] at hx
          cases hx
        startPrinted := by
          intro hx
          rw [hdr'] at hx
          cases hx
        cntLe := by
          intro k
          by_cases hki : k = i
          · subst hki
            have hb : bufLenAt s' k = 0 := hbuf0
            have hd : dlvAt cfg s' k = dlvAt cfg s k := rfl
            rw [hb, hd, holdAt_neg hinem']
            omega
          · obtain ⟨hd1, hd2, hd3, _⟩ := hfr k hki
            rw [hd1, hd2, hd3]
            exact h.cntLe k
        slice := by
          intro k c' hc'
          by_cases hki : k = i
          · subst hki
            rw [hc] at hc'
            cases hc'
            have hd : dlvAt cfg s' k = dlvAt cfg s k := rfl
            rw [hd, hpos1', if_neg hinem', hbemp, htakedlv]
            simp
          · obtain ⟨hd1, _, _, hd4⟩ := hfr k hki
            rw [hd1, hd4]
            have hsl := h.slice k c' hc'
            by_cases hkm : k ∈ s.heap
            · simp only [if_pos hkm] at hsl
              simp only [if_pos ((hmem' k hki).2 hkm)]
              exact hsl
            · simp only [if_neg hkm] at hsl
              simp only [if_neg (fun hx => hkm ((hmem' k hki).1 hx))]
              exact hsl
        printedAcc := by
          have hne2 : ∀ k, k ≠ i →
              ((entriesAt cfg k).take (posAt cfg s' k) : Multiset LogEntry)
                = ((entriesAt cfg k).take (posAt cfg s k) : Multiset LogEntry) := by
            intro k hk
            rw [(hfr k hk).2.2.2]
          have hxx : ((entriesAt cfg i).take (posAt cfg s' i) : Multiset LogEntry)
              = ((entriesAt cfg i).take (posAt cfg s i) : Multiset LogEntry)
                + {c.entry.getD dummyE} := by
            rw [hpos1', htake1, ← Multiset.coe_singleton, Multiset.coe_add]
          have hbump := sum_range_bump
            (fun k => ((entriesAt cfg k).take (posAt cfg s k) : Multiset LogEntry))
            (fun k => ((entriesAt cfg k).take (posAt cfg s' k) : Multiset LogEntry))
            (nOf cfg) i hin ({c.entry.getD dummyE} : Multiset LogEntry) hne2 hxx
          rw [hpr', hbump, ← h.printedAcc, ← Multiset.coe_singleton, Multiset.coe_add]
        pendingInHeap := by
          intro k c' hc' hcp2
          by_cases hki : k = i
          · subst hki
            rw [hc] at hc'
            cases hc'
            rw [hcrj] at hcp2
            cases hcp2
          · rcases h.pendingInHeap k c' hc' hcp2 with hm | hm
            · exact Or.inl ((hmem' k hki).2 hm)
            · exact absurd hm (hnoldrun k)
        fullCtx := by
          intro k c' hc' hrec
          by_cases hki : k = i
          · subst hki
            rw [hc] at hc'
            cases hc'
            exact Or.inr (Or.inl hcrj)
          · rcases h.fullCtx k c' hc' hrec with h1 | h1 | h1
            · exact Or.inl h1
            · exact Or.inr (Or.inl h1)
            · refine Or.inr (Or.inr ⟨h1.1, fun hx => h1.2.1 ((hmem' k hki).1 hx), ?_⟩)
              exact hnoldrej k
        rejPFails := h.rejPFails }
  case isFalse hcnr =>
  split
  case isTrue hcdr =>
    set s' : MState := { s with
      heap := s.heap.eraseIdx j,
      printed := s.printed ++ [c.entry.getD dummyE] } with hs'
    show AInv cfg s'
    have hsst : ∀ k, s'.sstates k = s.sstates k := fun k => rfl
    have hheap' : s'.heap = s.heap.eraseIdx j := rfl
    have hdr' : s'.driver = s.driver := rfl
    have hpr' : s'.printed = s.printed ++ [c.entry.getD dummyE] := rfl
    have hmem' : ∀ k, k ≠ i → (k ∈ s'.heap ↔ k ∈ s.heap) := by
      intro k hk
      rw [hheap']
      exact hmem2 k hk
    have hinem' : i ∉ s'.heap := hine
    have hfr := fun k (hk : k ≠ i) => posAt_frame cfg s s' k rfl rfl (hmem' k hk)
    have hpos1' : posAt cfg s' i = posAt cfg s i + 1 := by
      rw [posAt_eq cfg s' i, holdAt_neg hinem']
      have hd : dlvAt cfg s' i = dlvAt cfg s i := rfl
      have hb : bufLenAt s' i = bufLenAt s i := rfl
      rw [hd, hb, hbuf0]
      omega
    refine
      { oob := h.oob
        heapLt := fun k hk => h.heapLt k (hsub2 k hk)
        heapCtx := fun k hk => h.heapCtx k (hsub2 k hk)
        heapNodup := hnd2
        holdsOk := by
          intro k hk
          rw [hdr'] at hk
          exact absurd hk (hnoldrun k)
        headsSome := h.headsSome
        fetchNotDrained := h.fetchNotDrained
        initCtx := h.initCtx
        initResolved := by
          intro _ _ k hkn
          exact h.initResolved (by rw [hrun]; simp) (by rw [hrun]; simp) k hkn
        waiting2Pending := by
          intro k hk
          rw [hdr', hrun] at hk
          cases hk
        ready2Inv := by
          intro k hk
          rw [hdr', hrun] at hk
          cases hk
        waiting4Inv := by
          intro k hk
          rw [hdr', hrun] at hk
          cases hk
        counterEq := h.counterEq
        counterLe := h.counterLe
        recvdLe := h.recvdLe
        drainedRecvd := h.drainedRecvd
        discarded := by
          intro k c' hc' hkh hkhold
          by_cases hki : k = i
          · subst hki
            rw [hc] at hc'
            cases hc'
            exact ⟨hbemp, Or.inl hcdr⟩
          · have hkh2 : k ∉ s.heap := fun hm => hkh ((hmem' k hki).2 hm)
            obtain ⟨hb, hrest⟩ := h.discarded k c' hc' hkh2 (hnoldrun k)
            refine ⟨hb, ?_⟩
            rcases hrest with h1 | h1 | h1
            · exact Or.inl h1
            · exact Or.inr (Or.inl h1)
            · rw [hdr']
              exact Or.inr (Or.inr h1)
        ctxNone := by
          intro k hkn hc2 hkp hrej
          rw [hdr'] at hrej
          exact h.ctxNone k hkn hc2 hkp hrej
        doneCnt := by
          have hdc : s'.doneCount = s.doneCount := rfl
          rw [hdc, h.doneCnt, hdr']
        rejFails := by
          intro hx
          rw [hdr', hrun] at hx
          cases hx
        doneHeap := by
          intro hx
          rw [hdr', hrun] at hx
          cases hx
        startPrinted := by
          intro hx
          rw [hdr', hrun] at hx
          cases hx
        cntLe := by
          intro k
          by_cases hki : k = i
          · subst hki
            have hb : bufLenAt s' k = 0 := hbuf0
            have hd : dlvAt cfg s' k = dlvAt cfg s k := rfl
            rw [hb, hd, holdAt_neg hinem']
            omega
          · obtain ⟨hd1, hd2, hd3, _⟩ := hfr k hki
            rw [hd1, hd2, hd3]
            exact h.cntLe k
        slice := by
          intro k c' hc'
          by_cases hki : k = i
          · subst hki
            rw [hc] at hc'
            cases hc'
            have hd : dlvAt cfg s' k = dlvAt cfg s k := rfl
            rw [hd, hpos1', if_neg hinem', hbemp, htakedlv]
            simp
          · obtain ⟨hd1, _, _, hd4⟩ := hfr k hki
            rw [hd1, hd4]
            have hsl := h.slice k c' hc'
            by_cases hkm : k ∈ s.heap
            · simp only [if_pos hkm] at hsl
              simp only [if_pos ((hmem' k hki).2 hkm)]
              exact hsl
            · simp only [if_neg hkm] at hsl
              simp only [if_neg (fun hx => hkm ((hmem' k hki).1 hx))]
              exact hsl
        printedAcc := by
          have hne2 : ∀ k, k ≠ i →
              ((entriesAt cfg k).take (posAt cfg s' k) : Multiset LogEntry)
                = ((entriesAt cfg k).take (posAt cfg s k) : Multiset LogEntry) := by
            intro k hk
            rw [(hfr k hk).2.2.2]
          have hxx : ((entriesAt cfg i).take (posAt cfg s' i) : Multiset LogEntry)
              = ((entriesAt cfg i).take (posAt cfg s i) : Multiset LogEntry)
                + {c.entry.getD dummyE} := by
            rw [hpos1', htake1, ← Multiset.coe_singleton, Multiset.coe_add]
          have hbump := sum_range_bump
            (fun k => ((entriesAt cfg k).take (posAt cfg s k) : Multiset LogEntry))
            (fun k => ((entriesAt cfg k).take (posAt cfg s' k) : Multiset LogEntry))
            (nOf cfg) i hin ({c.entry.getD dummyE} : Multiset LogEntry) hne2 hxx
          rw [hpr', hbump, ← h.printedAcc, ← Multiset.coe_singleton, Multiset.coe_add]
        pendingInHeap := by
          intro k c' hc' hcp2
          by_cases hki : k = i
          · subst hki
            rw [hc] at hc'
            cases hc'
            exact absurd hcp2 hcnp
          · rcases h.pendingInHeap k c' hc' hcp2 with hm | hm
            · exact Or.inl ((hmem' k hki).2 hm)
            · exact absurd hm (hnoldrun k)
        fullCtx := by
          intro k c' hc' hrec
          by_cases hki : k = i
          · subst hki
            rw [hc] at hc'
            cases hc'
            exact Or.inl hcdr
          · rcases h.fullCtx k c' hc' hrec with h1 | h1 | h1
            · exact Or.inl h1
            · exact Or.inr (Or.inl h1)
            · refine Or.inr (Or.inr ⟨h1.1, fun hx => h1.2.1 ((hmem' k hki).1 hx), ?_⟩)
              rw [hdr']
              exact hnoldrun k
        rejPFails := h.rejPFails }
  case isFalse hcnd =>
    have hcidle : c.nextEntryPromise = .idle := by
      cases hx : c.nextEntryPromise with
      | idle => rfl
      | pending => exact absurd hx hcnp
      | rejectedP => exact absurd hx hcnr
    have hcndr : c.drained = false := by
      cases hx : c.drained with
      | false => rfl
      | true => exact absurd hx hcnd
    set s' : MState := { s with
      heap := s.heap.eraseIdx j,
      printed := s.printed ++ [c.entry.getD dummyE],
      driver := .waiting4 i } with hs'
    show AInv cfg s'
    have hsst : ∀ k, s'.sstates k = s.sstates k := fun k => rfl
    have hheap' : s'.heap = s.heap.eraseIdx j := rfl
    have hdr' : s'.driver = .waiting4 i := rfl
    have hpr' : s'.printed = s.printed ++ [c.entry.getD dummyE] := rfl
    have hmem' : ∀ k, k ≠ i → (k ∈ s'.heap ↔ k ∈ s.heap) := by
      intro k hk
      rw [hheap']
      exact hmem2 k hk
    have hinem' : i ∉ s'.heap := hine
    have hfr := fun k (hk : k ≠ i) => posAt_frame cfg s s' k rfl rfl (hmem' k hk)
    have hpos1' : posAt cfg s' i = posAt cfg s i + 1 := by
      rw [posAt_eq cfg s' i, holdAt_neg hinem']
      have hd : dlvAt cfg s' i = dlvAt cfg s i := rfl
      have hb : bufLenAt s' i = bufLenAt s i := rfl
      rw [hd, hb, hbuf0]
      omega
    have hholdsk : ∀ k, Holds s'.driver k → k = i := by
      intro k hk
      rw [hdr'] at hk
      unfold Holds holdIdx at hk
      simpa [eq_comm] using hk
    refine
      { oob := h.oob
        heapLt := fun k hk => h.heapLt k (hsub2 k hk)
        heapCtx := fun k hk => h.heapCtx k (hsub2 k hk)
        heapNodup := hnd2
        holdsOk := by
          intro k hk
          have := hholdsk k hk
          subst this
          exact ⟨hin, hinem', by rw [hc]; rfl⟩
        headsSome := h.headsSome
        fetchNotDrained := h.fetchNotDrained
        initCtx := h.initCtx
        initResolved := by
          intro _ _ k hkn
          exact h.initResolved (by rw [hrun]; simp) (by rw [hrun]; simp) k hkn
        waiting2Pending := by
          intro k hk
          rw [hdr'] at hk
          cases hk
        ready2Inv := by
          intro k hk
          rw [hdr'] at hk
          cases hk
        waiting4Inv := by
          intro k hk
          rw [hdr'] at hk
          cases hk
          exact ⟨c, hc, hcidle, hbemp, hcndr⟩
        counterEq := h.counterEq
        counterLe := h.counterLe
        recvdLe := h.recvdLe
        drainedRecvd := h.drainedRecvd
        discarded := by
          intro k c' hc' hkh hkhold
          by_cases hki : k = i
          · subst hki
            exact absurd (by rw [hdr']; exact rfl) hkhold
          · have hkh2 : k ∉ s.heap := fun hm => hkh ((hmem' k hki).2 hm)
            obtain ⟨hb, hrest⟩ := h.discarded k c' hc' hkh2 (hnoldrun k)
            refine ⟨hb, ?_⟩
            rcases hrest with h1 | h1 | h1
            · exact Or.inl h1
            · exact Or.inr (Or.inl h1)
            · rw [hrun] at h1
              cases h1
        ctxNone := by
          intro k hkn hc2 hkp hrej
          exact h.ctxNone k hkn hc2 hkp (by rw [hrun]; simp)
        doneCnt := by
          have hdc : s'.doneCount = s.doneCount := rfl
          rw [hdc, h.doneCnt, hrun, hdr']
          simp
        rejFails := by
          intro hx
          rw [hdr'] at hx
          cases hx
        doneHeap := by
          intro hx
          rw [hdr'] at hx
          cases hx
        startPrinted := by
          intro hx
          rw [hdr'] at hx
          cases hx
        cntLe := by
          intro k
          by_cases hki : k = i
          · subst hki
            have hb : bufLenAt s' k = 0 := hbuf0
            have hd : dlvAt cfg s' k = dlvAt cfg s k := rfl
            rw [hb, hd, holdAt_neg hinem']
            omega
          · obtain ⟨hd1, hd2, hd3, _⟩ := hfr k hki
            rw [hd1, hd2, hd3]
            exact h.cntLe k
        slice := by
          intro k c' hc'
          by_cases hki : k = i
          · subst hki
            rw [hc] at hc'
            cases hc'
            have hd : dlvAt cfg s' k = dlvAt cfg s k := rfl
            rw [hd, hpos1', if_neg hinem', hbemp, htakedlv]
            simp
          · obtain ⟨hd1, _, _, hd4⟩ := hfr k hki
            rw [hd1, hd4]
            have hsl := h.slice k c' hc'
            by_cases hkm : k ∈ s.heap
            · simp only [if_pos hkm] at hsl
              simp only [if_pos ((hmem' k hki).2 hkm)]
              exact hsl
            · simp only [if_neg hkm] at hsl
              simp only [if_neg (fun hx => hkm ((hmem' k hki).1 hx))]
              exact hsl
        printedAcc := by
          have hne2 : ∀ k, k ≠ i →
              ((entriesAt cfg k).take (posAt cfg s' k) : Multiset LogEntry)
                = ((entriesAt cfg k).take (posAt cfg s k) : Multiset LogEntry) := by
            intro k hk
            rw [(hfr k hk).2.2.2]
          have hxx : ((entriesAt cfg i).take (posAt cfg s' i) : Multiset LogEntry)
              = ((entriesAt cfg i).take (posAt cfg s i) : Multiset LogEntry)
                + {c.entry.getD dummyE} := by
            rw [hpos1', htake1, ← Multiset.coe_singleton, Multiset.coe_add]
          have hbump := sum_range_bump
            (fun k => ((entriesAt cfg k).take (posAt cfg s k) : Multiset LogEntry))
            (fun k => ((entriesAt cfg k).take (posAt cfg s' k) : Multiset LogEntry))
            (nOf cfg) i hin ({c.entry.getD dummyE} : Multiset LogEntry) hne2 hxx
          rw [hpr', hbump, ← h.printedAcc, ← Multiset.coe_singleton, Multiset.coe_add]
        pendingInHeap := by
          intro k c' hc' hcp2
          by_cases hki : k = i
          · subst hki
            exact Or.inr (by rw [hdr']; exact rfl)
          · rcases h.pendingInHeap k c' hc' hcp2 with hm | hm
            · exact Or.inl ((hmem' k hki).2 hm)
            · exact absurd hm (hnoldrun k)
        fullCtx := by
          intro k c' hc' hrec
          by_cases hki : k = i
          · subst hki
            rw [hc] at hc'
            cases hc'
            rcases h.fullCtx k c hc hrec with h1 | h1 | h1
            · rw [hcndr] at h1
              cases h1
            · rw [hcidle] at h1
              cases h1
            · exact absurd himem h1.2.1
          · rcases h.fullCtx k c' hc' hrec with h1 | h1 | h1
            · exact Or.inl h1
            · exact Or.inr (Or.inl h1)
            · refine Or.inr (Or.inr ⟨h1.1, fun hx => h1.2.1 ((hmem' k hki).1 hx), ?_⟩)
              intro hx
              exact hki (hholdsk k hx)
        rejPFails := h.rejPFails }

theorem inv_step (cfg : Config) (s : MState) (e : Ev) (h : AInv cfg s) :
    AInv cfg (step cfg s e) := by
  cases e with
  | initResolve i => exact inv_stepInit cfg s i h
  | driverStart => exact inv_stepStart cfg s h
  | bgResolve i => exact inv_stepBg cfg s i h
  | driverStep j => exact inv_stepDriver cfg s j h
  | wake2 i => exact inv_stepWake cfg s i h
  | c4Resolve i => exact inv_stepC4 cfg s i h

theorem inv_foldl (cfg : Config) (evs : List Ev) (s : MState) (h : AInv cfg s) :
    AInv cfg (evs.foldl (step cfg) s) := by
  induction evs generalizing s with
  | nil => exact h
  | cons e tl ih => exact ih (step cfg s e) (inv_step cfg s e h)

/-- Every reachable state of the merge satisfies the inductive invariant,
whatever the schedule of promise resolutions. -/
theorem inv_run (cfg : Config) (evs : List Ev) : AInv cfg (runSt cfg evs) :=
  inv_foldl cfg evs (initState cfg) (inv_initState cfg)

/-! Facts about states in which the driver has called `printer.done()` or the
merge promise has rejected, and about quiescent (terminal) states. -/

theorem terminal_driver (cfg : Config) (s : MState) (h : AInv cfg s)
    (ht : terminalB cfg s = true) :
    s.driver = .doneSt ∨ s.driver = .rejectedSt := by
  unfold terminalB at ht
  rw [Bool.and_eq_true, decide_eq_true_iff] at ht
  obtain ⟨hq, hd⟩ := ht
  cases hdr : s.driver with
  | start => rw [hdr] at hd; exact Bool.noConfusion hd
  | running => rw [hdr] at hd; exact Bool.noConfusion hd
  | ready2 i => rw [hdr] at hd; exact Bool.noConfusion hd
  | waiting4 i => rw [hdr] at hd; exact Bool.noConfusion hd
  | doneSt => exact Or.inl rfl
  | rejectedSt => exact Or.inr rfl
  | waiting2 i =>
    exfalso
    obtain ⟨c, hc, hp, _⟩ := h.waiting2Pending i hdr
    have hilt : i < nOf cfg := (h.holdsOk i (by rw [hdr]; exact rfl)).1
    exact (hq i (List.mem_range.mpr hilt)).2 c hc hp

theorem terminal_nofail_done (cfg : Config) (s : MState) (h : AInv cfg s)
    (hnf : NoFail cfg) (ht : terminalB cfg s = true) : s.driver = .doneSt := by
  rcases terminal_driver cfg s h ht with hd | hd
  · exact hd
  · exfalso
    obtain ⟨i, hi, hf⟩ := h.rejFails hd
    rw [hnf i hi] at hf
    exact Bool.noConfusion hf

theorem done_source_facts (cfg : Config) (s : MState) (h : AInv cfg s)
    (hdr : s.driver = .doneSt) (i : Nat) (hi : i < nOf cfg) :
    (s.sstates i).recvd = lenAt cfg i + 1 ∧ posAt cfg s i = lenAt cfg i := by
  have hip : ¬(s.sstates i).initPending :=
    h.initResolved (by rw [hdr]; simp) (by rw [hdr]; simp) i hi
  have hne : i ∉ s.heap := by
    rw [h.doneHeap hdr]
    exact List.not_mem_nil i
  have hnh : ¬ Holds s.driver i := by
    rw [hdr]
    intro hx
    exact Option.noConfusion hx
  have hlen : lenAt cfg i = (entriesAt cfg i).length := rfl
  cases hctx : (s.sstates i).ctx with
  | none =>
    obtain ⟨hl0, _, hrecv⟩ := h.ctxNone i hi hctx hip (by rw [hdr]; simp)
    refine ⟨by rw [hrecv, hl0], ?_⟩
    rw [posAt_eq, bufLenAt_none hctx, holdAt_neg hne, dlvAt_eq, hrecv]
    omega
  | some c =>
    obtain ⟨hbuf, hrest⟩ := h.discarded i c hctx hne hnh
    have hrec : lenAt cfg i < (s.sstates i).recvd := by
      rcases hrest with h1 | h1 | h1
      · exact (h.drainedRecvd i c hctx h1).1
      · exact h1.1
      · rw [hdr] at h1; exact Driver.noConfusion h1
    have hle := h.recvdLe i
    have hrecv : (s.sstates i).recvd = lenAt cfg i + 1 := by omega
    refine ⟨hrecv, ?_⟩
    rw [posAt_eq, bufLenAt_some hctx, hbuf, holdAt_neg hne, dlvAt_eq, hrecv]
    simp

theorem done_complete (cfg : Config) (s : MState) (h : AInv cfg s)
    (hdr : s.driver = .doneSt) :
    (s.printed : Multiset LogEntry)
      = ∑ k in Finset.range (nOf cfg), ((entriesAt cfg k : List LogEntry) : Multiset LogEntry) := by
  rw [h.printedAcc]
  apply Finset.sum_congr rfl
  intro k hk
  have hk' := List.mem_range.mp hk
  rw [(done_source_facts cfg s h hdr k hk').2]
  have hlen : lenAt cfg k = (entriesAt cfg k).length := rfl
  rw [hlen, List.take_length]

theorem step_rejected_frozen (cfg : Config) (s : MState) (e : Ev)
    (hdr : s.driver = .rejectedSt) :
    (step cfg s e).driver = .rejectedSt ∧ (step cfg s e).printed = s.printed ∧
      (step cfg s e).doneCount = s.doneCount := by
  cases e with
  | initResolve i =>
    show (stepInit cfg s i).driver = .rejectedSt ∧ (stepInit cfg s i).printed = s.printed ∧ (stepInit cfg s i).doneCount = s.doneCount
    unfold stepInit
    split
    · split
      · exact ⟨hdr, rfl, rfl⟩
      · exact ⟨hdr, rfl, rfl⟩
      · exact ⟨rfl, rfl, rfl⟩
    · exact ⟨hdr, rfl, rfl⟩
  | driverStart =>
    show (stepStart cfg s).driver = .rejectedSt ∧ (stepStart cfg s).printed = s.printed ∧ (stepStart cfg s).doneCount = s.doneCount
    unfold stepStart
    split
    case isTrue hx => rw [hdr] at hx; exact absurd hx.1 (by simp)
    case isFalse hx => exact ⟨hdr, rfl, rfl⟩
  | bgResolve i =>
    show (stepBg cfg s i).driver = .rejectedSt ∧ (stepBg cfg s i).printed = s.printed ∧ (stepBg cfg s i).doneCount = s.doneCount
    unfold stepBg
    split
    · split
      · split
        · rw [wakeIf_eq]
          refine ⟨?_, rfl, rfl⟩
          simp [hdr]
        · rw [wakeIf_eq]
          refine ⟨?_, rfl, rfl⟩
          simp [hdr]
        · rw [rejectIf_eq]
          refine ⟨?_, rfl, rfl⟩
          simp [hdr]
      · exact ⟨hdr, rfl, rfl⟩
    · exact ⟨hdr, rfl, rfl⟩
  | driverStep j =>
    show (stepDriver cfg s j).driver = .rejectedSt ∧ (stepDriver cfg s j).printed = s.printed ∧ (stepDriver cfg s j).doneCount = s.doneCount
    unfold stepDriver
    split
    case isTrue hx => rw [hdr] at hx; exact absurd hx (by simp)
    case isFalse hx => exact ⟨hdr, rfl, rfl⟩
  | wake2 i =>
    show (stepWake cfg s i).driver = .rejectedSt ∧ (stepWake cfg s i).printed = s.printed ∧ (stepWake cfg s i).doneCount = s.doneCount
    unfold stepWake
    split
    case isTrue hx => rw [hdr] at hx; exact absurd hx (by simp)
    case isFalse hx => exact ⟨hdr, rfl, rfl⟩
  | c4Resolve i =>
    show (stepC4 cfg s i).driver = .rejectedSt ∧ (stepC4 cfg s i).printed = s.printed ∧ (stepC4 cfg s i).doneCount = s.doneCount
    unfold stepC4
    split
    case isTrue hx => rw [hdr] at hx; exact absurd hx (by simp)
    case isFalse hx => exact ⟨hdr, rfl, rfl⟩

theorem foldl_rejected_frozen (cfg : Config) (evs : List Ev) (s : MState)
    (hdr : s.driver = .rejectedSt) :
    (evs.foldl (step cfg) s).driver = .rejectedSt ∧
      (evs.foldl (step cfg) s).printed = s.printed ∧
      (evs.foldl (step cfg) s).doneCount = s.doneCount := by
  induction evs generalizing s with
  | nil => exact ⟨hdr, rfl, rfl⟩
  | cons e tl ih =>
    obtain ⟨h1, h2, h3⟩ := step_rejected_frozen cfg s e hdr
    obtain ⟨g1, g2, g3⟩ := ih (step cfg s e) h1
    exact ⟨g1, g2.trans h2, g3.trans h3⟩

theorem step_done_frozen (cfg : Config) (s : MState) (e : Ev) (h : AInv cfg s)
    (hdr : s.driver = .doneSt) :
    (step cfg s e).driver = .doneSt ∧ (step cfg s e).printed = s.printed ∧
      (step cfg s e).doneCount = s.doneCount := by
  cases e with
  | initResolve i =>
    show (stepInit cfg s i).driver = .doneSt ∧ (stepInit cfg s i).printed = s.printed ∧ (stepInit cfg s i).doneCount = s.doneCount
    unfold stepInit
    split
    case isTrue hx =>
      exact absurd hx.2
        (h.initResolved (by rw [hdr]; simp) (by rw [hdr]; simp) i hx.1)
    case isFalse hx => exact ⟨hdr, rfl, rfl⟩
  | driverStart =>
    show (stepStart cfg s).driver = .doneSt ∧ (stepStart cfg s).printed = s.printed ∧ (stepStart cfg s).doneCount = s.doneCount
    unfold stepStart
    split
    case isTrue hx => rw [hdr] at hx; exact absurd hx.1 (by simp)
    case isFalse hx => exact ⟨hdr, rfl, rfl⟩
  | bgResolve i =>
    show (stepBg cfg s i).driver = .doneSt ∧ (stepBg cfg s i).printed = s.printed ∧ (stepBg cfg s i).doneCount = s.doneCount
    unfold stepBg
    split
    · split
      · split
        · rw [wakeIf_eq]
          refine ⟨?_, rfl, rfl⟩
          simp [hdr]
        · rw [wakeIf_eq]
          refine ⟨?_, rfl, rfl⟩
          simp [hdr]
        · rw [rejectIf_eq]
          refine ⟨?_, rfl, rfl⟩
          simp [hdr]
      · exact ⟨hdr, rfl, rfl⟩
    · exact ⟨hdr, rfl, rfl⟩
  | driverStep j =>
    show (stepDriver cfg s j).driver = .doneSt ∧ (stepDriver cfg s j).printed = s.printed ∧ (stepDriver cfg s j).doneCount = s.doneCount
    unfold stepDriver
    split
    case isTrue hx => rw [hdr] at hx; exact absurd hx (by simp)
    case isFalse hx => exact ⟨hdr, rfl, rfl⟩
  | wake2 i =>
    show (stepWake cfg s i).driver = .doneSt ∧ (stepWake cfg s i).printed = s.printed ∧ (stepWake cfg s i).doneCount = s.doneCount
    unfold stepWake
    split
    case isTrue hx => rw [hdr] at hx; exact absurd hx (by simp)
    case isFalse hx => exact ⟨hdr, rfl, rfl⟩
  | c4Resolve i =>
    show (stepC4 cfg s i).driver = .doneSt ∧ (stepC4 cfg s i).printed = s.printed ∧ (stepC4 cfg s i).doneCount = s.doneCount
    unfold stepC4
    split
    case isTrue hx => rw [hdr] at hx; exact absurd hx (by simp)
    case isFalse hx => exact ⟨hdr, rfl, rfl⟩

theorem foldl_done_frozen (cfg : Config) (evs : List Ev) (s : MState)
    (h : AInv cfg s) (hdr : s.driver = .doneSt) :
    (evs.foldl (step cfg) s).driver = .doneSt ∧
      (evs.foldl (step cfg) s).printed = s.printed ∧
      (evs.foldl (step cfg) s).doneCount = s.doneCount := by
  induction evs generalizing s with
  | nil => exact ⟨hdr, rfl, rfl⟩
  | cons e tl ih =>
    obtain ⟨h1, h2, h3⟩ := step_done_frozen cfg s e h hdr
    obtain ⟨g1, g2, g3⟩ := ih (step cfg s e) (inv_step cfg s e h) h1
    exact ⟨g1, g2.trans h2, g3.trans h3⟩

theorem totalBuffered_le_counter (cfg : Config) (s : MState) (h : AInv cfg s) :
    (totalBuffered cfg s : Int) ≤ s.numLogEntriesBuffered := by
  rw [h.counterEq]
  unfold totalBuffered
  push_cast
  apply Finset.sum_le_sum
  intro k _
  unfold contrib bufLenAt
  cases hc : (s.sstates k).ctx with
  | none => simp
  | some c =>
    simp only []
    split
    · split
      · omega
      · omega
    · split
      · omega
      · omega

theorem totalBuffered_le (cfg : Config) (s : MState) (h : AInv cfg s) :
    totalBuffered cfg s ≤ cfg.maxBuf :=
  by exact_mod_cast le_trans (totalBuffered_le_counter cfg s h) h.counterLe

theorem outstanding_le (cfg : Config) (s : MState) (h : AInv cfg s) (i : Nat) :
    outstanding s i ≤ 1 := by
  unfold outstanding
  by_cases hip : (s.sstates i).initPending
  · rw [if_pos hip, (h.initCtx i hip).1]
    have h4 : ¬ s.driver = .waiting4 i := by
      intro hx
      obtain ⟨c, hc, _⟩ := h.waiting4Inv i hx
      rw [(h.initCtx i hip).1] at hc
      exact Option.noConfusion hc
    rw [if_neg h4]
    simp
  · rw [if_neg hip]
    cases hc : (s.sstates i).ctx with
    | none =>
      split
      · rename_i heq
        exact Option.noConfusion heq
      · split <;> simp
    | some c =>
      by_cases h4 : s.driver = .waiting4 i
      · obtain ⟨c2, hc2, hidle, _⟩ := h.waiting4Inv i h4
        rw [hc] at hc2
        injection hc2 with hcc
        subst hcc
        rw [if_pos h4]
        simp [hidle]
      · rw [if_neg h4]
        split
        · rename_i c2 heq
          injection heq with hcc
          subst hcc
          split <;> simp
        · simp

theorem keyAt_some {s : MState} {i : Nat} {c : Ctx}
    (hc : (s.sstates i).ctx = some c) :
    keyAt s i = (c.entry.getD dummyE).date := by
  unfold keyAt hKey
  rw [hc]

/-- An in-heap context's head entry is exactly the source's entry at the
printing position. -/
theorem head_entry_eq (cfg : Config) (s : MState) (h : AInv cfg s) (i : Nat)
    (c : Ctx) (hc : (s.sstates i).ctx = some c) (him : i ∈ s.heap) :
    posAt cfg s i < lenAt cfg i ∧
      c.entry.getD dummyE = entAt cfg i (posAt cfg s i) := by
  have hsl := h.slice i c hc
  rw [if_pos him] at hsl
  have hcnt := h.cntLe i
  rw [bufLenAt_some hc, holdAt_pos him] at hcnt
  have hlen : lenAt cfg i = (entriesAt cfg i).length := rfl
  have hdlv_le : dlvAt cfg s i ≤ lenAt cfg i := by
    rw [dlvAt_eq, hlen]
    omega
  have hpos : posAt cfg s i + c.bufferedEntries.length + 1 = dlvAt cfg s i := by
    rw [posAt_eq, bufLenAt_some hc, holdAt_pos him]
    omega
  have hposlt : posAt cfg s i < lenAt cfg i := by omega
  have hposlen : ((entriesAt cfg i).take (posAt cfg s i)).length = posAt cfg s i := by
    rw [List.length_take]
    omega
  have h1 : ((entriesAt cfg i).take (dlvAt cfg s i))[posAt cfg s i]?
      = (entriesAt cfg i)[posAt cfg s i]? := by
    rw [List.getElem?_take, if_pos (by omega)]
  have h2 : ((entriesAt cfg i).take (posAt cfg s i)
        ++ ([c.entry.getD dummyE] ++ c.bufferedEntries))[posAt cfg s i]?
      = some (c.entry.getD dummyE) := by
    rw [List.getElem?_append_right (le_of_eq hposlen), hposlen]
    simp
  rw [hsl, List.append_assoc, h2] at h1
  refine ⟨hposlt, ?_⟩
  unfold entAt
  rw [List.getD_eq_getElem?_getD, ← h1]
  rfl

/-- Within one ascending-sorted source, entries at increasing positions have
non-decreasing dates. -/
theorem sorted_entAt (cfg : Config) (hs : SortedCfg cfg) (i : Nat)
    (hi : i < nOf cfg) {a b : Nat} (hab : a ≤ b) (hb : b < lenAt cfg i) :
    (entAt cfg i a).date ≤ (entAt cfg i b).date := by
  have hlen : lenAt cfg i = (entriesAt cfg i).length := rfl
  rcases Nat.lt_or_ge a b with hlt | hge
  · have hp := hs i hi
    rw [List.pairwise_iff_get] at hp
    have halt : a < (entriesAt cfg i).length := by omega
    have hblt : b < (entriesAt cfg i).length := by omega
    have := hp ⟨a, halt⟩ ⟨b, hblt⟩ hlt
    unfold entAt
    rw [List.getD_eq_getElem?_getD, List.getD_eq_getElem?_getD,
      List.getElem?_eq_getElem halt, List.getElem?_eq_getElem hblt]
    exact this
  · have hab2 : a = b := le_antisymm hab hge
    rw [hab2]

/-! Preservation of the ordering invariant. -/

theorem oinv_frame (cfg : Config) (s s' : MState)
    (hpr : s'.printed = s.printed)
    (hpos : ∀ k, k < nOf cfg → posAt cfg s' k = posAt cfg s k)
    (hip : ∀ k, (s'.sstates k).initPending → (s.sstates k).initPending)
    (h : OInv cfg s) : OInv cfg s' := by
  refine ⟨?_, ?_, ?_⟩
  · rw [hpr]
    exact h.printedSorted
  · intro e he k hk m hm hml
    rw [hpr] at he
    rw [hpos k hk] at hm
    exact h.printedLe e he k hk m hm hml
  · intro k hk hkp
    rw [hpr]
    exact h.initPrinted k hk (hip k hkp)

theorem oinv_print (cfg : Config) (s s' : MState) (i : Nat) (c : Ctx)
    (hA : AInv cfg s) (hs : SortedCfg cfg) (h : OInv cfg s)
    (hc : (s.sstates i).ctx = some c) (him : i ∈ s.heap)
    (hmin : ∀ k ∈ s.heap, keyAt s i ≤ keyAt s k)
    (hdrun : s.driver = .running)
    (hpr : s'.printed = s.printed ++ [c.entry.getD dummyE])
    (hposi : posAt cfg s' i = posAt cfg s i + 1)
    (hposk : ∀ k, k ≠ i → posAt cfg s' k = posAt cfg s k)
    (hip : ∀ k, (s'.sstates k).initPending → (s.sstates k).initPending) :
    OInv cfg s' := by
  have hi : i < nOf cfg := hA.heapLt i him
  obtain ⟨hplt, hhead⟩ := head_entry_eq cfg s hA i c hc him
  have hnew : ∀ k, k < nOf cfg → ∀ m, posAt cfg s' k ≤ m → m < lenAt cfg k →
      (c.entry.getD dummyE).date ≤ (entAt cfg k m).date := by
    intro k hk m hm hml
    by_cases hki : k = i
    · subst hki
      rw [hposi] at hm
      rw [hhead]
      exact sorted_entAt cfg hs k hk (by omega) hml
    · rw [hposk k hki] at hm
      by_cases hkm : k ∈ s.heap
      · have h1 := hmin k hkm
        obtain ⟨c2, hc2⟩ : ∃ c2, (s.sstates k).ctx = some c2 :=
          Option.isSome_iff_exists.mp (hA.heapCtx k hkm)
        obtain ⟨hplt2, hhead2⟩ := head_entry_eq cfg s hA k c2 hc2 hkm
        calc (c.entry.getD dummyE).date
            = keyAt s i := (keyAt_some hc).symm
          _ ≤ keyAt s k := h1
          _ = (entAt cfg k (posAt cfg s k)).date := by rw [keyAt_some hc2, hhead2]
          _ ≤ (entAt cfg k m).date := sorted_entAt cfg hs k hk hm hml
      · exfalso
        cases hc2 : (s.sstates k).ctx with
        | none =>
          by_cases hkp : (s.sstates k).initPending
          · exact hA.initResolved (by rw [hdrun]; simp) (by rw [hdrun]; simp) k hk hkp
          · have hz := hA.ctxNone k hk hc2 hkp (by rw [hdrun]; simp)
            omega
        | some c2 =>
          have hnh : ¬ Holds s.driver k := by
            rw [hdrun]
            intro hx
            exact Option.noConfusion hx
          obtain ⟨hb, hrest⟩ := hA.discarded k c2 hc2 hkm hnh
          have hrec : lenAt cfg k < (s.sstates k).recvd := by
            rcases hrest with h1 | h1 | h1
            · exact (hA.drainedRecvd k c2 hc2 h1).1
            · exact h1.1
            · rw [hdrun] at h1
              exact Driver.noConfusion h1
          have hle := hA.recvdLe k
          have hlen : lenAt cfg k = (entriesAt cfg k).length := rfl
          have hposlen : posAt cfg s k = lenAt cfg k := by
            rw [posAt_eq, bufLenAt_some hc2, hb, holdAt_neg hkm, dlvAt_eq, hlen]
            simp
            omega
          omega
  refine ⟨?_, ?_, ?_⟩
  · rw [hpr, List.pairwise_append]
    refine ⟨h.printedSorted, List.pairwise_singleton _ _, ?_⟩
    intro a ha b hb
    rw [List.mem_singleton] at hb
    subst hb
    have hle := h.printedLe a ha i hi (posAt cfg s i) le_rfl hplt
    rw [hhead]
    exact hle
  · intro e he k hk m hm hml
    rw [hpr, List.mem_append] at he
    rcases he with he | he
    · have hge : posAt cfg s k ≤ m := by
        by_cases hki : k = i
        · subst hki
          rw [hposi] at hm
          omega
        · rw [hposk k hki] at hm
          exact hm
      exact h.printedLe e he k hk m hge hml
    · rw [List.mem_singleton] at he
      subst he
      exact hnew k hk m hm hml
  · intro k hk hkp
    exact absurd (hip k hkp)
      (hA.initResolved (by rw [hdrun]; simp) (by rw [hdrun]; simp) k hk)

theorem posAt_congr (cfg : Config) (s s' : MState) (k : Nat)
    (h1 : dlvAt cfg s' k = dlvAt cfg s k)
    (h2 : bufLenAt s' k = bufLenAt s k)
    (h3 : k ∈ s'.heap ↔ k ∈ s.heap) :
    posAt cfg s' k = posAt cfg s k := by
  have hh : holdAt s' k = holdAt s k := by
    unfold holdAt
    by_cases hm : k ∈ s.heap
    · rw [if_pos hm, if_pos (h3.2 hm)]
    · rw [if_neg hm, if_neg (fun hx => hm (h3.1 hx))]
  rw [posAt_eq, posAt_eq, h1, h2, hh]

theorem posAt_bump (cfg : Config) (s s' : MState) (k : Nat)
    (h1 : (s'.sstates k).recvd = (s.sstates k).recvd + 1)
    (h2 : bufLenAt s' k = bufLenAt s k + 1)
    (h3 : k ∈ s'.heap ↔ k ∈ s.heap)
    (h4 : (s.sstates k).recvd < (entriesAt cfg k).length) :
    posAt cfg s' k = posAt cfg s k := by
  have h4L : (s.sstates k).recvd < lenAt cfg k := h4
  have hh : holdAt s' k = holdAt s k := by
    unfold holdAt
    by_cases hm : k ∈ s.heap
    · rw [if_pos hm, if_pos (h3.2 hm)]
    · rw [if_neg hm, if_neg (fun hx => hm (h3.1 hx))]
  rw [posAt_eq, posAt_eq, dlvAt_eq, dlvAt_eq, h1, h2, hh]
  omega

theorem oinv_empty (cfg : Config) (s' : MState) (hpr : s'.printed = []) :
    OInv cfg s' := by
  refine ⟨?_, ?_, ?_⟩
  · rw [hpr]
    exact List.Pairwise.nil
  · intro e he
    rw [hpr] at he
    exact absurd he (List.not_mem_nil e)
  · intro k _ _
    exact hpr

theorem oinv_stepInit (cfg : Config) (s : MState) (i : Nat)
    (hO : OInv cfg s) : OInv cfg (stepInit cfg s i) := by
  unfold stepInit
  split
  case isFalse => exact hO
  case isTrue hg =>
    have hpr0 : s.printed = [] := hO.initPrinted i hg.1 hg.2
    split
    · exact oinv_empty cfg _ hpr0
    · exact oinv_empty cfg _ hpr0
    · exact oinv_empty cfg _ hpr0

theorem oinv_stepStart (cfg : Config) (s : MState)
    (hO : OInv cfg s) : OInv cfg (stepStart cfg s) := by
  unfold stepStart
  split
  · exact oinv_frame cfg s _ rfl (fun _ _ => rfl) (fun _ hk => hk) hO
  · exact hO

theorem oinv_stepBg (cfg : Config) (s : MState) (i : Nat) (h : AInv cfg s)
    (hO : OInv cfg s) : OInv cfg (stepBg cfg s i) := by
  unfold stepBg
  split
  case h_2 => exact hO
  case h_1 c hc =>
  split
  case isFalse => exact hO
  case isTrue hp =>
  split
  case h_1 e heq =>
    obtain ⟨hlt, he⟩ := popResult_ok_iff.1 heq
    have hltE : (s.sstates i).recvd < (entriesAt cfg i).length := hlt
    rw [wakeIf_eq]
    set c1 : Ctx := { c with
      bufferedEntries := c.bufferedEntries ++ [e],
      nextEntryPromise := .idle } with hc1
    set r := bufferLogs cfg.maxBuf s.numLogEntriesBuffered c1 with hr
    set st' : SrcSt := { s.sstates i with
      recvd := (s.sstates i).recvd + 1, ctx := some r.2 } with hst'
    set D : Driver := if s.driver = .waiting2 i then Driver.ready2 i else s.driver with hD
    set s' : MState := { s with
      sstates := Function.update s.sstates i st',
      numLogEntriesBuffered := r.1,
      driver := D } with hs'
    show OInv cfg s'
    have hssti : s'.sstates i = st' := Function.update_same i st' s.sstates
    have hsst : ∀ k, k ≠ i → s'.sstates k = s.sstates k := by
      intro k hk
      exact Function.update_noteq hk st' s.sstates
    refine oinv_frame cfg s s' rfl ?_ ?_ hO
    · intro k _
      by_cases hki : k = i
      · subst hki
        refine posAt_bump cfg s s' k ?_ ?_ Iff.rfl hltE
        · rw [hssti]
        · rw [bufLenAt_some (show (s'.sstates k).ctx = some r.2 from by rw [hssti]),
            bufLenAt_some hc, hr, bufferLogs_buf, hc1]
          simp
      · exact (posAt_frame cfg s s' k (by rw [hsst k hki]) (by rw [hsst k hki])
          Iff.rfl).2.2.2
    · intro k hk
      by_cases hki : k = i
      · subst hki
        rw [hssti] at hk
        exact hk
      · rw [hsst k hki] at hk
        exact hk
  case h_2 heq =>
    obtain ⟨hge, _⟩ := popResult_eof_iff.1 heq
    have hgeL : lenAt cfg i ≤ (s.sstates i).recvd := hge
    rw [wakeIf_eq]
    set c1 : Ctx := { c with drained := true, nextEntryPromise := .idle } with hc1
    set r := bufferLogs cfg.maxBuf s.numLogEntriesBuffered c1 with hr
    set st' : SrcSt := { s.sstates i with
      recvd := (s.sstates i).recvd + 1, ctx := some r.2 } with hst'
    set D : Driver := if s.driver = .waiting2 i then Driver.ready2 i else s.driver with hD
    set s' : MState := { s with
      sstates := Function.update s.sstates i st',
      numLogEntriesBuffered := r.1,
      driver := D } with hs'
    show OInv cfg s'
    have hssti : s'.sstates i = st' := Function.update_same i st' s.sstates
    have hsst : ∀ k, k ≠ i → s'.sstates k = s.sstates k := by
      intro k hk
      exact Function.update_noteq hk st' s.sstates
    refine oinv_frame cfg s s' rfl ?_ ?_ hO
    · intro k _
      by_cases hki : k = i
      · subst hki
        refine posAt_congr cfg s s' k ?_ ?_ Iff.rfl
        · rw [dlvAt_eq, dlvAt_eq, hssti]
          show min ((s.sstates k).recvd + 1) (lenAt cfg k) = _
          omega
        · rw [bufLenAt_some (show (s'.sstates k).ctx = some r.2 from by rw [hssti]),
            bufLenAt_some hc, hr, bufferLogs_buf, hc1]
      · exact (posAt_frame cfg s s' k (by rw [hsst k hki]) (by rw [hsst k hki])
          Iff.rfl).2.2.2
    · intro k hk
      by_cases hki : k = i
      · subst hki
        rw [hssti] at hk
        exact hk
      · rw [hsst k hki] at hk
        exact hk
  case h_3 heq =>
    obtain ⟨hge, _⟩ := popResult_err_iff.1 heq
    have hgeL : lenAt cfg i ≤ (s.sstates i).recvd := hge
    rw [rejectIf_eq]
    set c1 : Ctx := { c with nextEntryPromise := .rejectedP } with hc1
    set st' : SrcSt := { s.sstates i with
      recvd := (s.sstates i).recvd + 1, ctx := some c1 } with hst'
    set D : Driver := if s.driver = .waiting2 i then Driver.rejectedSt else s.driver with hD
    set s' : MState := { s with
      sstates := Function.update s.sstates i st',
      driver := D } with hs'
    show OInv cfg s'
    have hssti : s'.sstates i = st' := Function.update_same i st' s.sstates
    have hsst : ∀ k, k ≠ i → s'.sstates k = s.sstates k := by
      intro k hk
      exact Function.update_noteq hk st' s.sstates
    refine oinv_frame cfg s s' rfl ?_ ?_ hO
    · intro k _
      by_cases hki : k = i
      · subst hki
        refine posAt_congr cfg s s' k ?_ ?_ Iff.rfl
        · rw [dlvAt_eq, dlvAt_eq, hssti]
          show min ((s.sstates k).recvd + 1) (lenAt cfg k) = _
          omega
        · rw [bufLenAt_some (show (s'.sstates k).ctx = some c1 from by rw [hssti]),
            bufLenAt_some hc, hc1]
      · exact (posAt_frame cfg s s' k (by rw [hsst k hki]) (by rw [hsst k hki])
          Iff.rfl).2.2.2
    · intro k hk
      by_cases hki : k = i
      · subst hki
        rw [hssti] at hk
        exact hk
      · rw [hsst k hki] at hk
        exact hk

theorem oinv_stepWake (cfg : Config) (s : MState) (i : Nat) (h : AInv cfg s)
    (hO : OInv cfg s) : OInv cfg (stepWake cfg s i) := by
  unfold stepWake
  split
  case isFalse => exact hO
  case isTrue hdr =>
  split
  case h_2 => exact hO
  case h_1 c hc =>
  split
  case isTrue hbd =>
    exact oinv_frame cfg s _ rfl (fun _ _ => rfl) (fun _ hk => hk) hO
  case isFalse hbd =>
    have hbne : c.bufferedEntries ≠ [] := by
      obtain ⟨c2, hc2, hor⟩ := h.ready2Inv i hdr
      rw [hc] at hc2
      injection hc2 with hcc
      subst hcc
      rcases hor with h1 | h1
      · exact h1
      · intro hx
        exact hbd ⟨hx, h1⟩
    have hb1 : 1 ≤ c.bufferedEntries.length := List.length_pos.mpr hbne
    have hnotin : i ∉ s.heap := (h.holdsOk i (by rw [hdr]; exact rfl)).2.1
    unfold getNextEntry
    set c1 : Ctx := { c with
      entry := c.bufferedEntries.head?,
      bufferedEntries := c.bufferedEntries.tail } with hc1
    set r := bufferLogs cfg.maxBuf (s.numLogEntriesBuffered - 1) c1 with hr
    set st' : SrcSt := { s.sstates i with ctx := some r.2 } with hst'
    set s' : MState := { s with
      sstates := Function.update s.sstates i st',
      numLogEntriesBuffered := r.1,
      heap := s.heap ++ [i],
      driver := .running } with hs'
    show OInv cfg s'
    have hssti : s'.sstates i = st' := Function.update_same i st' s.sstates
    have hsst : ∀ k, k ≠ i → s'.sstates k = s.sstates k := by
      intro k hk
      exact Function.update_noteq hk st' s.sstates
    have hheap' : s'.heap = s.heap ++ [i] := rfl
    refine oinv_frame cfg s s' rfl ?_ ?_ hO
    · intro k _
      by_cases hki : k = i
      · subst hki
        have hbL : bufLenAt s' k = c.bufferedEntries.tail.length := by
          rw [bufLenAt_some (show (s'.sstates k).ctx = some r.2 from by rw [hssti]),
            hr, bufferLogs_buf, hc1]
        have hbL2 : bufLenAt s k = c.bufferedEntries.length := bufLenAt_some hc
        have hdE : dlvAt cfg s' k = dlvAt cfg s k := by
          rw [dlvAt_eq, dlvAt_eq, hssti]
        have hmem' : k ∈ s'.heap := by
          rw [hheap']
          exact List.mem_append_right _ (List.mem_singleton_self k)
        rw [posAt_eq, posAt_eq, hbL, hbL2, hdE, holdAt_pos hmem', holdAt_neg hnotin,
          List.length_tail]
        omega
      · refine (posAt_frame cfg s s' k (by rw [hsst k hki]) (by rw [hsst k hki]) ?_).2.2.2
        rw [hheap']
        exact mem_append_ne hki
    · intro k hk
      by_cases hki : k = i
      · subst hki
        rw [hssti] at hk
        exact hk
      · rw [hsst k hki] at hk
        exact hk

theorem oinv_stepC4 (cfg : Config) (s : MState) (i : Nat) (h : AInv cfg s)
    (hO : OInv cfg s) : OInv cfg (stepC4 cfg s i) := by
  unfold stepC4
  split
  case isFalse => exact hO
  case isTrue hdr =>
  split
  case h_2 => exact hO
  case h_1 c hc =>
  obtain ⟨c2, hc2, hidle, hbemp, hndr⟩ := h.waiting4Inv i hdr
  rw [hc] at hc2
  injection hc2 with hcc
  subst hcc
  have hnotin : i ∉ s.heap := (h.holdsOk i (by rw [hdr]; exact rfl)).2.1
  split
  case h_1 e heq =>
    obtain ⟨hlt, he⟩ := popResult_ok_iff.1 heq
    have hltE : (s.sstates i).recvd < lenAt cfg i := hlt
    set c1 : Ctx := { c with entry := some e } with hc1
    set r := bufferLogs cfg.maxBuf s.numLogEntriesBuffered c1 with hr
    set st' : SrcSt := { s.sstates i with
      recvd := (s.sstates i).recvd + 1, ctx := some r.2 } with hst'
    set s' : MState := { s with
      sstates := Function.update s.sstates i st',
      numLogEntriesBuffered := r.1,
      heap := s.heap ++ [i],
      driver := .running } with hs'
    show OInv cfg s'
    have hssti : s'.sstates i = st' := Function.update_same i st' s.sstates
    have hsst : ∀ k, k ≠ i → s'.sstates k = s.sstates k := by
      intro k hk
      exact Function.update_noteq hk st' s.sstates
    have hheap' : s'.heap = s.heap ++ [i] := rfl
    refine oinv_frame cfg s s' rfl ?_ ?_ hO
    · intro k _
      by_cases hki : k = i
      · subst hki
        have hbL : bufLenAt s' k = 0 := by
          rw [bufLenAt_some (show (s'.sstates k).ctx = some r.2 from by rw [hssti]),
            hr, bufferLogs_buf, hc1]
          rw [show ({ c with entry := some e } : Ctx).bufferedEntries
            = c.bufferedEntries from rfl, hbemp]
          rfl
        have hbL2 : bufLenAt s k = 0 := by
          rw [bufLenAt_some hc, hbemp]
          rfl
        have hrE : (s'.sstates k).recvd = (s.sstates k).recvd + 1 := by
          rw [hssti]
        have hmem' : k ∈ s'.heap := by
          rw [hheap']
          exact List.mem_append_right _ (List.mem_singleton_self k)
        rw [posAt_eq, posAt_eq, hbL, hbL2, dlvAt_eq, dlvAt_eq, hrE,
          holdAt_pos hmem', holdAt_neg hnotin]
        omega
      · refine (posAt_frame cfg s s' k (by rw [hsst k hki]) (by rw [hsst k hki]) ?_).2.2.2
        rw [hheap']
        exact mem_append_ne hki
    · intro k hk
      by_cases hki : k = i
      · subst hki
        rw [hssti] at hk
        exact hk
      · rw [hsst k hki] at hk
        exact hk
  case h_2 heq =>
    obtain ⟨hge, _⟩ := popResult_eof_iff.1 heq
    have hgeL : lenAt cfg i ≤ (s.sstates i).recvd := hge
    set st' : SrcSt := { s.sstates i with recvd := (s.sstates i).recvd + 1 } with hst'
    set s' : MState := { s with
      sstates := Function.update s.sstates i st',
      driver := .running } with hs'
    show OInv cfg s'
    have hssti : s'.sstates i = st' := Function.update_same i st' s.sstates
    have hsst : ∀ k, k ≠ i → s'.sstates k = s.sstates k := by
      intro k hk
      exact Function.update_noteq hk st' s.sstates
    refine oinv_frame cfg s s' rfl ?_ ?_ hO
    · intro k _
      by_cases hki : k = i
      · subst hki
        refine posAt_congr cfg s s' k ?_ ?_ Iff.rfl
        · rw [dlvAt_eq, dlvAt_eq, hssti]
          show min ((s.sstates k).recvd + 1) (lenAt cfg k) = _
          omega
        · rw [bufLenAt_some (show (s'.sstates k).ctx = some c from by rw [hssti]; exact hc),
            bufLenAt_some hc]
      · exact (posAt_frame cfg s s' k (by rw [hsst k hki]) (by rw [hsst k hki])
          Iff.rfl).2.2.2
    · intro k hk
      by_cases hki : k = i
      · subst hki
        rw [hssti] at hk
        exact hk
      · rw [hsst k hki] at hk
        exact hk
  case h_3 heq =>
    obtain ⟨hge, _⟩ := popResult_err_iff.1 heq
    have hgeL : lenAt cfg i ≤ (s.sstates i).recvd := hge
    set st' : SrcSt := { s.sstates i with recvd := (s.sstates i).recvd + 1 } with hst'
    set s' : MState := { s with
      sstates := Function.update s.sstates i st',
      driver := .rejectedSt } with hs'
    show OInv cfg s'
    have hssti : s'.sstates i = st' := Function.update_same i st' s.sstates
    have hsst : ∀ k, k ≠ i → s'.sstates k = s.sstates k := by
      intro k hk
      exact Function.update_noteq hk st' s.sstates
    refine oinv_frame cfg s s' rfl ?_ ?_ hO
    · intro k _
      by_cases hki : k = i
      · subst hki
        refine posAt_congr cfg s s' k ?_ ?_ Iff.rfl
        · rw [dlvAt_eq, dlvAt_eq, hssti]
          show min ((s.sstates k).recvd + 1) (lenAt cfg k) = _
          omega
        · rw [bufLenAt_some (show (s'.sstates k).ctx = some c from by rw [hssti]; exact hc),
            bufLenAt_some hc]
      · exact (posAt_frame cfg s s' k (by rw [hsst k hki]) (by rw [hsst k hki])
          Iff.rfl).2.2.2
    · intro k hk
      by_cases hki : k = i
      · subst hki
        rw [hssti] at hk
        exact hk
      · rw [hsst k hki] at hk
        exact hk

theorem oinv_stepDriver (cfg : Config) (s : MState) (j : Nat) (h : AInv cfg s)
    (hs : SortedCfg cfg) (hO : OInv cfg s) : OInv cfg (stepDriver cfg s j) := by
  unfold stepDriver
  split
  case isFalse => exact hO
  case isTrue hrun =>
  split
  case h_1 hnil =>
    exact oinv_frame cfg s _ rfl (fun _ _ => rfl) (fun _ hk => hk) hO
  case h_2 hd tl =>
  split
  case h_2 => exact hO
  case h_1 i hj =>
  split
  case isFalse => exact hO
  case isTrue hmin =>
  split
  case h_2 => exact hO
  case h_1 c hc =>
  have himem : i ∈ s.heap := List.getElem?_mem hj
  have hine : i ∉ s.heap.eraseIdx j := not_mem_eraseIdx_self h.heapNodup hj
  have hmem2 : ∀ k, k ≠ i → (k ∈ s.heap.eraseIdx j ↔ k ∈ s.heap) :=
    fun k hk => mem_eraseIdx_ne hj hk
  have hcnto := h.cntLe i
  rw [bufLenAt_some hc, holdAt_pos himem] at hcnto
  split
  case isTrue hbne =>
    unfold getNextEntry
    set c1 : Ctx := { c with
      entry := c.bufferedEntries.head?,
      bufferedEntries := c.bufferedEntries.tail } with hc1
    set r := bufferLogs cfg.maxBuf (s.numLogEntriesBuffered - 1) c1 with hr
    set st' : SrcSt := { s.sstates i with ctx := some r.2 } with hst'
    set s' : MState := { s with
      sstates := Function.update s.sstates i st',
      numLogEntriesBuffered := r.1,
      heap := s.heap.eraseIdx j ++ [i],
      printed := s.printed ++ [c.entry.getD dummyE],
      driver := .running } with hs'
    show OInv cfg s'
    have hssti : s'.sstates i = st' := Function.update_same i st' s.sstates
    have hsst : ∀ k, k ≠ i → s'.sstates k = s.sstates k := by
      intro k hk
      exact Function.update_noteq hk st' s.sstates
    have hheap' : s'.heap = s.heap.eraseIdx j ++ [i] := rfl
    have hb1 : 1 ≤ c.bufferedEntries.length := List.length_pos.mpr hbne
    refine oinv_print cfg s s' i c h hs hO hc himem hmin hrun rfl ?_ ?_ ?_
    · have hbL : bufLenAt s' i = c.bufferedEntries.tail.length := by
        rw [bufLenAt_some (show (s'.sstates i).ctx = some r.2 from by rw [hssti]),
          hr, bufferLogs_buf, hc1]
      have hdE : dlvAt cfg s' i = dlvAt cfg s i := by
        rw [dlvAt_eq, dlvAt_eq, hssti]
      have hmem' : i ∈ s'.heap := by
        rw [hheap']
        exact List.mem_append_right _ (List.mem_singleton_self i)
      rw [posAt_eq, posAt_eq, hbL, bufLenAt_some hc, hdE, holdAt_pos hmem',
        holdAt_pos himem, List.length_tail]
      omega
    · intro k hki
      refine (posAt_frame cfg s s' k (by rw [hsst k hki]) (by rw [hsst k hki]) ?_).2.2.2
      rw [hheap']
      rw [mem_append_ne hki]
      exact hmem2 k hki
    · intro k hk
      by_cases hki : k = i
      · subst hki
        rw [hssti] at hk
        exact hk
      · rw [hsst k hki] at hk
        exact hk
  case isFalse hbne =>
  have hbemp : c.bufferedEntries = [] := of_not_not hbne
  have hcnt1 : 1 ≤ dlvAt cfg s i := by
    rw [hbemp] at hcnto
    simpa using hcnto
  have hposplus : ∀ s' : MState, s'.sstates = s.sstates → s'.heap = s.heap.eraseIdx j →
      posAt cfg s' i = posAt cfg s i + 1 := by
    intro s' hss hh
    have hbL : bufLenAt s' i = 0 := by
      rw [bufLenAt_some (show (s'.sstates i).ctx = some c from by rw [hss]; exact hc), hbemp]
      rfl
    have hbL2 : bufLenAt s i = 0 := by
      rw [bufLenAt_some hc, hbemp]
      rfl
    have hdE : dlvAt cfg s' i = dlvAt cfg s i := by
      rw [dlvAt_eq, dlvAt_eq, hss]
    have hni : i ∉ s'.heap := by
      rw [hh]
      exact hine
    rw [posAt_eq, posAt_eq, hbL, hbL2, hdE, holdAt_neg hni, holdAt_pos himem]
    omega
  have hposfr : ∀ s' : MState, s'.sstates = s.sstates → s'.heap = s.heap.eraseIdx j →
      ∀ k, k ≠ i → posAt cfg s' k = posAt cfg s k := by
    intro s' hss hh k hki
    refine (posAt_frame cfg s s' k (by rw [hss]) (by rw [hss]) ?_).2.2.2
    rw [hh]
    exact hmem2 k hki
  split
  case isTrue hcp =>
    refine oinv_print cfg s _ i c h hs hO hc himem hmin hrun rfl ?_ ?_ ?_
    · exact hposplus _ rfl rfl
    · exact hposfr _ rfl rfl
    · intro k hk
      exact hk
  case isFalse hcnp =>
  split
  case isTrue hcrj =>
    refine oinv_print cfg s _ i c h hs hO hc himem hmin hrun rfl ?_ ?_ ?_
    · exact hposplus _ rfl rfl
    · exact hposfr _ rfl rfl
    · intro k hk
      exact hk
  case isFalse hcnr =>
  split
  case isTrue hcdr =>
    refine oinv_print cfg s _ i c h hs hO hc himem hmin hrun rfl ?_ ?_ ?_
    · exact hposplus _ rfl rfl
    · exact hposfr _ rfl rfl
    · intro k hk
      exact hk
  case isFalse hcnd =>
    refine oinv_print cfg s _ i c h hs hO hc himem hmin hrun rfl ?_ ?_ ?_
    · exact hposplus _ rfl rfl
    · exact hposfr _ rfl rfl
    · intro k hk
      exact hk

theorem oinv_step (cfg : Config) (s : MState) (e : Ev) (h : AInv cfg s)
    (hs : SortedCfg cfg) (hO : OInv cfg s) : OInv cfg (step cfg s e) := by
  cases e with
  | initResolve i => exact oinv_stepInit cfg s i hO
  | driverStart => exact oinv_stepStart cfg s hO
  | bgResolve i => exact oinv_stepBg cfg s i h hO
  | driverStep j => exact oinv_stepDriver cfg s j h hs hO
  | wake2 i => exact oinv_stepWake cfg s i h hO
  | c4Resolve i => exact oinv_stepC4 cfg s i h hO

theorem oinv_initState (cfg : Config) : OInv cfg (initState cfg) :=
  oinv_empty cfg (initState cfg) rfl

theorem oinv_foldl (cfg : Config) (evs : List Ev) (s : MState) (hs : SortedCfg cfg)
    (h : AInv cfg s) (hO : OInv cfg s) : OInv cfg (evs.foldl (step cfg) s) := by
  induction evs generalizing s with
  | nil => exact hO
  | cons e tl ih =>
    exact ih (step cfg s e) (inv_step cfg s e h) (oinv_step cfg s e h hs hO)

/-- Every reachable state of the merge over internally-sorted sources
satisfies the ordering invariant, whatever the schedule. -/
theorem oinv_run (cfg : Config) (evs : List Ev) (hs : SortedCfg cfg) :
    OInv cfg (runSt cfg evs) :=
  oinv_foldl cfg evs (initState cfg) hs (inv_initState cfg) (oinv_initState cfg)

/-! Facts about the synchronous baseline. -/

theorem pickMin_mem (cfg : Config) (cur : Nat → Nat) :
    ∀ (l : List Nat) (b : Nat), pickMin cfg cur l = some b → b ∈ l := by
  intro l
  induction l with
  | nil =>
    intro b hb
    exact Option.noConfusion hb
  | cons x xs ih =>
    intro b hb
    unfold pickMin at hb
    revert hb
    split
    · intro hb
      injection hb with hb
      rw [← hb]
      exact List.mem_cons_self x xs
    · rename_i b2 hb2
      split
      · intro hb
        injection hb with hb
        rw [← hb]
        exact List.mem_cons_self x xs
      · intro hb
        injection hb with hb
        rw [← hb]
        exact List.mem_cons_of_mem x (ih b2 hb2)

theorem pickMin_min (cfg : Config) (cur : Nat → Nat) :
    ∀ (l : List Nat) (b : Nat), pickMin cfg cur l = some b →
      ∀ x ∈ l, (entAt cfg b (cur b)).date ≤ (entAt cfg x (cur x)).date := by
  intro l
  induction l with
  | nil =>
    intro b hb
    exact Option.noConfusion hb
  | cons y ys ih =>
    intro b hb x hx
    unfold pickMin at hb
    revert hb
    split
    · rename_i hnone
      intro hb
      injection hb with hb
      rw [← hb]
      rcases List.mem_cons.mp hx with hxy | hxys
      · rw [hxy]
      · exfalso
        cases ys with
        | nil => exact List.not_mem_nil x hxys
        | cons z zs =>
          unfold pickMin at hnone
          revert hnone
          split
          · intro hh
            exact Option.noConfusion hh
          · split
            · intro hh
              exact Option.noConfusion hh
            · intro hh
              exact Option.noConfusion hh
    · rename_i b2 hb2
      split
      · rename_i hle
        intro hb
        injection hb with hb
        rw [← hb]
        rcases List.mem_cons.mp hx with hxy | hxys
        · rw [hxy]
        · exact le_trans hle (ih b2 hb2 x hxys)
      · rename_i hnle
        intro hb
        injection hb with hb
        rw [← hb]
        rcases List.mem_cons.mp hx with hxy | hxys
        · rw [hxy]
          omega
        · exact ih b2 hb2 x hxys

theorem pickMin_isSome (cfg : Config) (cur : Nat → Nat) (l : List Nat)
    (hne : l ≠ []) : ∃ b, pickMin cfg cur l = some b := by
  cases l with
  | nil => exact absurd rfl hne
  | cons x xs =>
    unfold pickMin
    split
    · exact ⟨x, rfl⟩
    · split
      · exact ⟨x, rfl⟩
      · exact ⟨_, rfl⟩

theorem syncCands_spec (cfg : Config) (cur : Nat → Nat) (i : Nat) :
    i ∈ syncCands cfg cur ↔ i < nOf cfg ∧ cur i < lenAt cfg i := by
  unfold syncCands
  rw [List.mem_filter, List.mem_range]
  constructor
  · rintro ⟨h1, h2⟩
    exact ⟨h1, of_decide_eq_true h2⟩
  · rintro ⟨h1, h2⟩
    exact ⟨h1, decide_eq_true h2⟩

theorem remaining_update (cfg : Config) (cur : Nat → Nat) (i : Nat)
    (hin : i < nOf cfg) (hlt : cur i < lenAt cfg i) :
    remaining cfg (Function.update cur i (cur i + 1)) + 1 = remaining cfg cur := by
  have hif : i ∈ Finset.range (nOf cfg) := Finset.mem_range.mpr hin
  unfold remaining
  rw [← Finset.sum_erase_add _ _ hif, ← Finset.sum_erase_add _ _ hif]
  have h1 : ∀ k ∈ (Finset.range (nOf cfg)).erase i,
      lenAt cfg k - (Function.update cur i (cur i + 1)) k = lenAt cfg k - cur k := by
    intro k hk
    rw [Function.update_noteq (Finset.ne_of_mem_erase hk)]
  rw [Finset.sum_congr rfl h1, Function.update_same]
  omega

theorem syncCands_nil (cfg : Config) (cur : Nat → Nat)
    (hall : ∀ k, k < nOf cfg → lenAt cfg k ≤ cur k) : syncCands cfg cur = [] := by
  rw [List.eq_nil_iff_forall_not_mem]
  intro x hx
  rw [syncCands_spec] at hx
  have := hall x hx.1
  omega

theorem syncGo_nil (cfg : Config) (cur : Nat → Nat)
    (hall : ∀ k, k < nOf cfg → lenAt cfg k ≤ cur k) : syncGo cfg cur = [] := by
  rw [syncGo, syncCands_nil cfg cur hall]
  rfl

theorem drop_cons_entAt (cfg : Config) (i m : Nat) (hlt : m < lenAt cfg i) :
    (entriesAt cfg i).drop m = entAt cfg i m :: (entriesAt cfg i).drop (m + 1) := by
  have hlt2 : m < (entriesAt cfg i).length := hlt
  rw [List.drop_eq_getElem_cons hlt2]
  congr 1
  unfold entAt
  rw [List.getD_eq_getElem?_getD, List.getElem?_eq_getElem hlt2]
  rfl

theorem syncGo_multiset_aux (cfg : Config) (N : Nat) :
    ∀ cur : Nat → Nat, remaining cfg cur ≤ N →
      ((syncGo cfg cur : List LogEntry) : Multiset LogEntry)
        = ∑ k in Finset.range (nOf cfg),
            (((entriesAt cfg k).drop (cur k) : List LogEntry) : Multiset LogEntry) := by
  induction N with
  | zero =>
    intro cur hrem
    have hall : ∀ k, k < nOf cfg → lenAt cfg k ≤ cur k := by
      intro k hk
      have := Finset.sum_eq_zero_iff.mp (Nat.le_zero.mp hrem) k (Finset.mem_range.mpr hk)
      omega
    rw [syncGo_nil cfg cur hall]
    symm
    apply Finset.sum_eq_zero
    intro k hk
    rw [List.drop_eq_nil_of_le (hall k (Finset.mem_range.mp hk))]
    rfl
  | succ n ih =>
    intro cur hrem
    rw [syncGo]
    split
    case h_1 hm =>
      have hall : ∀ k, k < nOf cfg → lenAt cfg k ≤ cur k := by
        intro k hk
        by_contra hlt
        have hkc : k ∈ syncCands cfg cur := (syncCands_spec cfg cur k).mpr ⟨hk, by omega⟩
        have hne : syncCands cfg cur ≠ [] := by
          intro hnil
          rw [hnil] at hkc
          exact List.not_mem_nil k hkc
        obtain ⟨b, hb⟩ := pickMin_isSome cfg cur _ hne
        rw [hm] at hb
        exact Option.noConfusion hb
      symm
      apply Finset.sum_eq_zero
      intro k hk
      rw [List.drop_eq_nil_of_le (hall k (Finset.mem_range.mp hk))]
      rfl
    case h_2 i hm =>
      obtain ⟨hin, hlt⟩ := (syncCands_spec cfg cur i).mp (pickMin_mem cfg cur _ i hm)
      have hif : i ∈ Finset.range (nOf cfg) := Finset.mem_range.mpr hin
      have hru := remaining_update cfg cur i hin hlt
      have hrem2 : remaining cfg (Function.update cur i (cur i + 1)) ≤ n := by omega
      have hih := ih (Function.update cur i (cur i + 1)) hrem2
      rw [← Multiset.cons_coe, hih]
      have hupd : ∑ k in Finset.range (nOf cfg),
            (((entriesAt cfg k).drop ((Function.update cur i (cur i + 1)) k) : List LogEntry)
              : Multiset LogEntry)
          = (((entriesAt cfg i).drop (cur i + 1) : List LogEntry) : Multiset LogEntry)
            + ∑ k in (Finset.range (nOf cfg)).erase i,
                (((entriesAt cfg k).drop (cur k) : List LogEntry) : Multiset LogEntry) := by
        rw [← Finset.add_sum_erase _ _ hif, Function.update_same]
        congr 1
        apply Finset.sum_congr rfl
        intro k hk
        rw [Function.update_noteq (Finset.ne_of_mem_erase hk)]
      rw [hupd, ← Finset.add_sum_erase _ _ hif, drop_cons_entAt cfg i (cur i) hlt,
        ← Multiset.cons_coe, Multiset.cons_add]

theorem syncGo_mem_aux (cfg : Config) (N : Nat) :
    ∀ cur : Nat → Nat, remaining cfg cur ≤ N → ∀ e ∈ syncGo cfg cur,
      ∃ k, k < nOf cfg ∧ ∃ m, cur k ≤ m ∧ m < lenAt cfg k ∧ e = entAt cfg k m := by
  induction N with
  | zero =>
    intro cur hrem e he
    have hall : ∀ k, k < nOf cfg → lenAt cfg k ≤ cur k := by
      intro k hk
      have := Finset.sum_eq_zero_iff.mp (Nat.le_zero.mp hrem) k (Finset.mem_range.mpr hk)
      omega
    rw [syncGo_nil cfg cur hall] at he
    exact absurd he (List.not_mem_nil e)
  | succ n ih =>
    intro cur hrem e he
    rw [syncGo] at he
    split at he
    case h_1 => exact absurd he (List.not_mem_nil e)
    case h_2 i hm =>
      obtain ⟨hin, hlt⟩ := (syncCands_spec cfg cur i).mp (pickMin_mem cfg cur _ i hm)
      have hru := remaining_update cfg cur i hin hlt
      have hrem2 : remaining cfg (Function.update cur i (cur i + 1)) ≤ n := by omega
      rcases List.mem_cons.mp he with he1 | he2
      · exact ⟨i, hin, cur i, le_rfl, hlt, he1⟩
      · obtain ⟨k, hk, m, hm1, hm2, hbe⟩ := ih _ hrem2 e he2
        by_cases hki : k = i
        · subst hki
          rw [Function.update_same] at hm1
          exact ⟨k, hk, m, by omega, hm2, hbe⟩
        · rw [Function.update_noteq hki] at hm1
          exact ⟨k, hk, m, hm1, hm2, hbe⟩

theorem syncGo_sorted_aux (cfg : Config) (hs : SortedCfg cfg) (N : Nat) :
    ∀ cur : Nat → Nat, remaining cfg cur ≤ N →
      (syncGo cfg cur).Pairwise (fun a b => a.date ≤ b.date) := by
  induction N with
  | zero =>
    intro cur hrem
    have hall : ∀ k, k < nOf cfg → lenAt cfg k ≤ cur k := by
      intro k hk
      have := Finset.sum_eq_zero_iff.mp (Nat.le_zero.mp hrem) k (Finset.mem_range.mpr hk)
      omega
    rw [syncGo_nil cfg cur hall]
    exact List.Pairwise.nil
  | succ n ih =>
    intro cur hrem
    rw [syncGo]
    split
    case h_1 => exact List.Pairwise.nil
    case h_2 i hm =>
      obtain ⟨hin, hlt⟩ := (syncCands_spec cfg cur i).mp (pickMin_mem cfg cur _ i hm)
      have hru := remaining_update cfg cur i hin hlt
      have hrem2 : remaining cfg (Function.update cur i (cur i + 1)) ≤ n := by omega
      refine List.pairwise_cons.mpr ⟨?_, ih _ hrem2⟩
      intro b hb
      obtain ⟨k, hk, m, hm1, hm2, hbe⟩ := syncGo_mem_aux cfg n _ hrem2 b hb
      rw [hbe]
      by_cases hki : k = i
      · subst hki
        rw [Function.update_same] at hm1
        exact sorted_entAt cfg hs k hk (by omega) hm2
      · rw [Function.update_noteq hki] at hm1
        have hcand : k ∈ syncCands cfg cur := (syncCands_spec cfg cur k).mpr ⟨hk, by omega⟩
        exact le_trans (pickMin_min cfg cur _ i hm k hcand)
          (sorted_entAt cfg hs k hk hm1 hm2)

theorem syncPrinted_multiset (cfg : Config) :
    ((syncPrinted cfg : List LogEntry) : Multiset LogEntry)
      = ∑ k in Finset.range (nOf cfg),
          ((entriesAt cfg k : List LogEntry) : Multiset LogEntry) := by
  unfold syncPrinted
  rw [syncGo_multiset_aux cfg (remaining cfg (fun _ => 0)) _ le_rfl]
  apply Finset.sum_congr rfl
  intro k _
  rw [List.drop_zero]

theorem syncPrinted_sorted (cfg : Config) (hs : SortedCfg cfg) :
    (syncPrinted cfg).Pairwise (fun a b => a.date ≤ b.date) :=
  syncGo_sorted_aux cfg hs (remaining cfg (fun _ => 0)) _ le_rfl

theorem memTotal_le (cfg : Config) (s : MState) (h : AInv cfg s) :
    memTotal cfg s ≤ cfg.maxBuf + nOf cfg := by
  unfold memTotal
  rw [Finset.sum_add_distrib]
  have h1 : ∑ k in Finset.range (nOf cfg), bufLenAt s k ≤ cfg.maxBuf :=
    totalBuffered_le cfg s h
  have h2 : ∑ k in Finset.range (nOf cfg), headCount (s.sstates k) ≤ nOf cfg := by
    calc ∑ k in Finset.range (nOf cfg), headCount (s.sstates k)
        ≤ ∑ _k in Finset.range (nOf cfg), 1 := by
          apply Finset.sum_le_sum
          intro k _
          unfold headCount
          split
          · split
            · exact le_rfl
            · omega
          · omega
      _ = nOf cfg := by simp
  omega

/-! The claim theorems. -/

/-- C1: for every set of log sources each internally sorted ascending by
timestamp, the asynchronous merge emits entries in non-decreasing timestamp
order, under every schedule of promise resolutions: the emitted list is
pairwise ordered by date. -/
theorem C1_ordering (cfg : Config) (hs : SortedCfg cfg) (evs : List Ev) :
    (runSt cfg evs).printed.Pairwise (fun a b => a.date ≤ b.date) :=
  (oinv_run cfg evs hs).printedSorted

/-- Witness for C1 at a concrete sorted two-source configuration. -/
theorem C1_ordering_witness :
    SortedCfg wcfgA ∧
      (runSt wcfgA wevsA).printed.Pairwise (fun a b => a.date ≤ b.date) :=
  ⟨by decide, C1_ordering wcfgA (by decide) wevsA⟩

/-- C2: in every run in which no fetch fails and that has gone quiescent,
the multiset of emitted entries equals the multiset of all entries of all
sources: the count emitted equals the sum available, nothing dropped and
nothing duplicated. -/
theorem C2_completeness (cfg : Config) (evs : List Ev) (hnf : NoFail cfg)
    (ht : terminalB cfg (runSt cfg evs) = true) :
    ((runSt cfg evs).printed : Multiset LogEntry)
      = ∑ k in Finset.range (nOf cfg),
          ((entriesAt cfg k : List LogEntry) : Multiset LogEntry) :=
  done_complete cfg _ (inv_run cfg evs)
    (terminal_nofail_done cfg _ (inv_run cfg evs) hnf ht)

/-- Witness for C2 at a concrete terminal run. -/
theorem C2_completeness_witness :
    NoFail wcfgA ∧ terminalB wcfgA (runSt wcfgA wevsA) = true ∧
      ((runSt wcfgA wevsA).printed : Multiset LogEntry)
        = ∑ k in Finset.range (nOf wcfgA),
            ((entriesAt wcfgA k : List LogEntry) : Multiset LogEntry) :=
  ⟨by decide, by decide, C2_completeness wcfgA wevsA (by decide) (by decide)⟩

/-- C3: at every instant of every run with the source's configured ceiling,
the total number of entries sitting in all read-ahead buffers combined is at
most `MAX_LOG_ENTRY_BUFFER_SIZE`. -/
theorem C3_buffer_bound (cfg : Config) (evs : List Ev)
    (hmax : cfg.maxBuf = MAX_LOG_ENTRY_BUFFER_SIZE) :
    totalBuffered cfg (runSt cfg evs) ≤ MAX_LOG_ENTRY_BUFFER_SIZE := by
  rw [← hmax]
  exact totalBuffered_le cfg _ (inv_run cfg evs)

/-- Witness for C3 at a configuration with the source's ceiling. -/
theorem C3_buffer_bound_witness :
    wcfgM.maxBuf = MAX_LOG_ENTRY_BUFFER_SIZE ∧
      totalBuffered wcfgM (runSt wcfgM [Ev.initResolve 0])
        ≤ MAX_LOG_ENTRY_BUFFER_SIZE :=
  ⟨rfl, C3_buffer_bound wcfgM [Ev.initResolve 0] rfl⟩

/-- C4: in every fail-free quiescent run `printer.done()` has been called
exactly once; in every run whatsoever it is called at most once; when it has
been called, every source has delivered its exhaustion signal
(`recvd = length + 1`) and every entry has already been emitted; and nothing
is emitted after it. -/
theorem C4_done (cfg : Config) (evs : List Ev) (hnf : NoFail cfg)
    (ht : terminalB cfg (runSt cfg evs) = true) :
    (runSt cfg evs).doneCount = 1 ∧
      (∀ evs2 : List Ev, (runSt cfg evs2).doneCount ≤ 1) ∧
      (∀ i, i < nOf cfg → ((runSt cfg evs).sstates i).recvd = lenAt cfg i + 1) ∧
      ((runSt cfg evs).printed : Multiset LogEntry)
        = ∑ k in Finset.range (nOf cfg),
            ((entriesAt cfg k : List LogEntry) : Multiset LogEntry) ∧
      (∀ suffix : List Ev, (runSt cfg (evs ++ suffix)).printed = (runSt cfg evs).printed ∧
        (runSt cfg (evs ++ suffix)).doneCount = 1) := by
  have hA := inv_run cfg evs
  have hdone := terminal_nofail_done cfg _ hA hnf ht
  have hcnt : (runSt cfg evs).doneCount = 1 := by
    rw [hA.doneCnt, if_pos hdone]
  refine ⟨hcnt, ?_, ?_, done_complete cfg _ hA hdone, ?_⟩
  · intro evs2
    rw [(inv_run cfg evs2).doneCnt]
    split
    · exact le_rfl
    · exact Nat.zero_le 1
  · intro i hi
    exact (done_source_facts cfg _ hA hdone i hi).1
  · intro suffix
    have hfr := foldl_done_frozen cfg suffix (runSt cfg evs) hA hdone
    have heq : runSt cfg (evs ++ suffix) = suffix.foldl (step cfg) (runSt cfg evs) := by
      unfold runSt
      rw [List.foldl_append]
    rw [heq]
    exact ⟨hfr.2.1, by rw [hfr.2.2]; exact hcnt⟩

/-- Witness for C4 at a concrete terminal run. -/
theorem C4_done_witness :
    NoFail wcfgA ∧ terminalB wcfgA (runSt wcfgA wevsA) = true ∧
      (runSt wcfgA wevsA).doneCount = 1 :=
  ⟨by decide, by decide, (C4_done wcfgA wevsA (by decide) (by decide)).1⟩

/-- The driver can only reach `doneSt` over fail-free sources: in the
done state every context was discarded, and every discard path certifies
`fails = false` for its source. -/
theorem done_nofail (cfg : Config) (s : MState) (h : AInv cfg s)
    (hdr : s.driver = .doneSt) : NoFail cfg := by
  intro i hi
  have hip : ¬(s.sstates i).initPending :=
    h.initResolved (by rw [hdr]; simp) (by rw [hdr]; simp) i hi
  have hne : i ∉ s.heap := by
    rw [h.doneHeap hdr]
    exact List.not_mem_nil i
  have hnh : ¬ Holds s.driver i := by
    rw [hdr]
    intro hx
    exact Option.noConfusion hx
  cases hctx : (s.sstates i).ctx with
  | none => exact (h.ctxNone i hi hctx hip (by rw [hdr]; simp)).2.1
  | some c =>
    obtain ⟨hbuf, hrest⟩ := h.discarded i c hctx hne hnh
    rcases hrest with h1 | h1 | h1
    · exact (h.drainedRecvd i c hctx h1).2
    · exact h1.2
    · rw [hdr] at h1
      exact Driver.noConfusion h1

theorem rejectedAt_fails (cfg : Config) (s : MState) (i : Nat) (h : AInv cfg s)
    (hr : rejectedAt s i = true) : (srcAt cfg i).fails = true := by
  unfold rejectedAt at hr
  revert hr
  split
  · rename_i c hc
    intro hr
    exact h.rejPFails i c hc (of_decide_eq_true hr)
  · intro hr
    exact Bool.noConfusion hr

theorem rejectedAt_lt (cfg : Config) (s : MState) (i : Nat) (h : AInv cfg s)
    (hr : rejectedAt s i = true) : i < nOf cfg := by
  by_contra hni
  unfold rejectedAt at hr
  rw [h.oob i hni] at hr
  exact Bool.noConfusion hr

/-- With a failing source in the configuration, `printer.done()` is never
called in any reachable state: done requires every source discarded, and a
failing source's context can never be discarded. -/
theorem doneCount_zero_of_fails (cfg : Config) (evs : List Ev) (i : Nat)
    (hi : i < nOf cfg) (hf : (srcAt cfg i).fails = true) :
    (runSt cfg evs).doneCount = 0 := by
  have hA := inv_run cfg evs
  rw [hA.doneCnt]
  split
  case isTrue hdr =>
    have hnf := done_nofail cfg _ hA hdr i hi
    rw [hf] at hnf
    exact Bool.noConfusion hnf
  case isFalse => rfl

/-- Every quiescent run of a configuration with a failing source ends with
the merge promise rejected. -/
theorem terminal_fails_rejected (cfg : Config) (evs : List Ev) (i : Nat)
    (hi : i < nOf cfg) (hf : (srcAt cfg i).fails = true)
    (ht : terminalB cfg (runSt cfg evs) = true) :
    (runSt cfg evs).driver = .rejectedSt := by
  rcases terminal_driver cfg _ (inv_run cfg evs) ht with hd | hd
  · exfalso
    have hnf := done_nofail cfg _ (inv_run cfg evs) hd i hi
    rw [hf] at hnf
    exact Bool.noConfusion hnf
  · exact hd

/-- C5 (corrected): if a fetch promise of source `i` has settled rejected
mid-run, then that source is a failing one, `printer.done()` is never called
in this state or any continuation, every continuation that goes quiescent
ends with the merge's returned promise rejected, and once the driver has
observed the rejection the run is frozen: still rejected, no further entries
emitted, done never called.  The original claim's remaining clause - nothing
is emitted after the *failure point*, the instant the fetch promise settles
rejected - is refuted by `C5_counterexample`. -/
theorem C5_failure_handling (cfg : Config) (evs : List Ev) (i : Nat)
    (hrej : rejectedAt (runSt cfg evs) i = true) :
    (srcAt cfg i).fails = true ∧
      (∀ suffix : List Ev, (runSt cfg (evs ++ suffix)).doneCount = 0) ∧
      (∀ suffix : List Ev, terminalB cfg (runSt cfg (evs ++ suffix)) = true →
        (runSt cfg (evs ++ suffix)).driver = .rejectedSt) ∧
      (∀ evs2 : List Ev, (runSt cfg evs2).driver = .rejectedSt →
        ∀ suffix : List Ev,
          (runSt cfg (evs2 ++ suffix)).driver = .rejectedSt ∧
            (runSt cfg (evs2 ++ suffix)).printed = (runSt cfg evs2).printed ∧
            (runSt cfg (evs2 ++ suffix)).doneCount = 0) := by
  have hA := inv_run cfg evs
  have hf : (srcAt cfg i).fails = true := rejectedAt_fails cfg _ i hA hrej
  have hi : i < nOf cfg := rejectedAt_lt cfg _ i hA hrej
  refine ⟨hf, ?_, ?_, ?_⟩
  · intro suffix
    exact doneCount_zero_of_fails cfg (evs ++ suffix) i hi hf
  · intro suffix ht
    exact terminal_fails_rejected cfg (evs ++ suffix) i hi hf ht
  · intro evs2 hrej2 suffix
    have hA2 := inv_run cfg evs2
    have hfr := foldl_rejected_frozen cfg suffix (runSt cfg evs2) hrej2
    have heq : runSt cfg (evs2 ++ suffix) = suffix.foldl (step cfg) (runSt cfg evs2) := by
      unfold runSt
      rw [List.foldl_append]
    rw [heq]
    refine ⟨hfr.1, hfr.2.1, ?_⟩
    rw [hfr.2.2, hA2.doneCnt, if_neg (by rw [hrej2]; simp)]

/-- Witness for C5 at a concrete run in which source 0's fetch promise has
settled rejected. -/
theorem C5_failure_handling_witness :
    rejectedAt (runSt wcfgF wpEvsF) 0 = true ∧ (srcAt wcfgF 0).fails = true :=
  ⟨by decide, (C5_failure_handling wcfgF wpEvsF 0 (by decide)).1⟩

/-- C5 counterexample: after `wpEvsF` the fetch promise of source 0 has
settled rejected (the failure point has passed), yet one further driver step
emits another entry: "no entries are emitted after the failure point" is
false as stated. -/
theorem C5_counterexample :
    rejectedAt (runSt wcfgF wpEvsF) 0 = true ∧
      (runSt wcfgF (wpEvsF ++ [Ev.driverStep 0])).printed.length
        = (runSt wcfgF wpEvsF).printed.length + 1 := by
  constructor
  · decide
  · decide

/-- C6 (corrected): the global counter `numLogEntriesBuffered` does not track
the buffered entries alone; it equals the sum over sources of buffered
entries plus one for each in-flight or settled-rejected fetch plus one for
each drained source (that increment is never undone), and is only an upper
bound on the buffered total. -/
theorem C6_counter_corrected (cfg : Config) (evs : List Ev) :
    (runSt cfg evs).numLogEntriesBuffered
      = ∑ k in Finset.range (nOf cfg), contrib ((runSt cfg evs).sstates k) ∧
      (totalBuffered cfg (runSt cfg evs) : Int)
        ≤ (runSt cfg evs).numLogEntriesBuffered :=
  ⟨(inv_run cfg evs).counterEq,
    totalBuffered_le_counter cfg _ (inv_run cfg evs)⟩

/-- C6 counterexample: right after source 0's initial fetch resolves, the
counter is 1 (it counts the in-flight read-ahead fetch) while every
read-ahead buffer is empty, so counter and buffered total differ. -/
theorem C6_counterexample :
    (runSt wcfgC [Ev.initResolve 0]).numLogEntriesBuffered
      ≠ (totalBuffered wcfgC (runSt wcfgC [Ev.initResolve 0]) : Int) := by
  decide

/-- C7: for every source, at every instant of every run, at most one
`popAsync` call is outstanding: the initial fetch, the background
`bufferLogs` fetch and the direct CASE 4 fetch never overlap. -/
theorem C7_one_outstanding (cfg : Config) (evs : List Ev) (i : Nat) :
    outstanding (runSt cfg evs) i ≤ 1 :=
  outstanding_le cfg _ (inv_run cfg evs) i

/-- C8: on the same sorted fail-free sources, a quiescent asynchronous run
and the synchronous baseline emit the same multiset of entries, each in
non-decreasing date order (so they agree up to the tie-break among equal
dates), and each calls `done()` exactly once. -/
theorem C8_sync_async_equiv (cfg : Config) (evs : List Ev) (hs : SortedCfg cfg)
    (hnf : NoFail cfg) (ht : terminalB cfg (runSt cfg evs) = true) :
    ((runSt cfg evs).printed : Multiset LogEntry)
        = ((syncMerge cfg).1 : Multiset LogEntry) ∧
      (runSt cfg evs).printed.Pairwise (fun a b => a.date ≤ b.date) ∧
      (syncMerge cfg).1.Pairwise (fun a b => a.date ≤ b.date) ∧
      (runSt cfg evs).doneCount = 1 ∧ (syncMerge cfg).2 = 1 := by
  have hA := inv_run cfg evs
  have hdone := terminal_nofail_done cfg _ hA hnf ht
  refine ⟨?_, (oinv_run cfg evs hs).printedSorted, syncPrinted_sorted cfg hs, ?_, rfl⟩
  · rw [done_complete cfg _ hA hdone]
    exact (syncPrinted_multiset cfg).symm
  · rw [hA.doneCnt, if_pos hdone]

/-- Witness for C8 at a concrete terminal run. -/
theorem C8_sync_async_equiv_witness :
    SortedCfg wcfgA ∧ NoFail wcfgA ∧ terminalB wcfgA (runSt wcfgA wevsA) = true ∧
      ((runSt wcfgA wevsA).printed : Multiset LogEntry)
        = ((syncMerge wcfgA).1 : Multiset LogEntry) :=
  ⟨by decide, by decide, by decide,
    (C8_sync_async_equiv wcfgA wevsA (by decide) (by decide) (by decide)).1⟩

/-- C9: in every reachable state every context's head entry is defined (the
`shift()` of `getNextEntry` never promoted `undefined` into `entry`), and
when the driver resumes from awaiting an in-flight fetch its source's buffer
is non-empty or the source is marked drained. -/
theorem C9_shift_defined (cfg : Config) (evs : List Ev) :
    (∀ i c, ((runSt cfg evs).sstates i).ctx = some c → c.entry.isSome) ∧
      (∀ i, (runSt cfg evs).driver = .ready2 i →
        ∃ c, ((runSt cfg evs).sstates i).ctx = some c ∧
          (c.bufferedEntries ≠ [] ∨ c.drained = true)) :=
  ⟨(inv_run cfg evs).headsSome, (inv_run cfg evs).ready2Inv⟩

/-- C10: the engine's total in-memory footprint - all read-ahead buffer
entries plus every context's current head entry, which the counter does not
track - is at most `MAX_LOG_ENTRY_BUFFER_SIZE` plus the number of
sources. -/
theorem C10_memory_bound (cfg : Config) (evs : List Ev)
    (hmax : cfg.maxBuf = MAX_LOG_ENTRY_BUFFER_SIZE) :
    memTotal cfg (runSt cfg evs) ≤ MAX_LOG_ENTRY_BUFFER_SIZE + nOf cfg := by
  rw [← hmax]
  exact memTotal_le cfg _ (inv_run cfg evs)

/-- Witness for C10 at a configuration with the source's ceiling. -/
theorem C10_memory_bound_witness :
    wcfgM.maxBuf = MAX_LOG_ENTRY_BUFFER_SIZE ∧
      memTotal wcfgM (runSt wcfgM [Ev.initResolve 0])
        ≤ MAX_LOG_ENTRY_BUFFER_SIZE + nOf wcfgM :=
  ⟨rfl, C10_memory_bound wcfgM [Ev.initResolve 0] rfl⟩
